import Mathlib

/-!
# Environment vectors of `src/common/env.c`

A shallow embedding of the environment-vector routines of SLURM's
`src/common/env.c` (`_find_name_in_env`, `_extend_env`, `envcount`,
`setenvf`, `unsetenvp`, `getenvp`, `setup_env`) and the properties proved
about them.

Conventions of the embedding.

* A C string is the list of its bytes before the terminating NUL; reading the
  byte at index `length` gives NUL.
* An environment vector `char **env` is the list of the slots of its
  allocation (`xsize(env) / sizeof(char *)` slots); a slot is `none` for a
  NULL pointer and `some s` for a pointer to the string `s`.
* A pointer into the vector is an index; a NULL `char **` or `char *` is
  `none`.
* Behaviour that C leaves undefined (a read outside the allocation, a NULL
  format string, a conversion without its argument) is an explicit `Fault`.
-/

namespace SlurmEnv

/-! ## Data model -/

/-- Bytes of a C string, without the terminating NUL. -/
abbrev CStr := List Char

/-- Slots of the allocation behind a `char **`; `none` is a NULL slot. -/
abbrev Env := List (Option CStr)

/-- Ways in which an execution leaves the behaviour defined by C. -/
inductive Fault where
  /-- A slot outside the allocation of the vector was read. -/
  | outside
  /-- A NULL pointer was passed as the format string of `vsnprintf`. -/
  | null_format
  /-- The format string holds a conversion for which no argument was passed. -/
  | missing_argument
  /-- The loop budget of `unsetenvp_loop` ran out (never happens, see
  `unsetenvp_loop_entries`). -/
  | fuel
deriving DecidableEq, Repr

deriving instance DecidableEq for Except

/-- The terminating byte of a C string. -/
def NUL : Char := Char.ofNat 0

/-- The byte `s[i]` of a C string, for `i` up to and including `strlen(s)`. -/
def charAt (s : CStr) (i : Nat) : Char := s.getD i NUL

/-- Spec-level reading of "the entry consists of exactly the bytes of `name`
followed immediately by `=` (and then any value)". -/
def is_entry_for (name e : CStr) : Prop := (name ++ ['=']) <+: e

instance (name e : CStr) : Decidable (is_entry_for name e) := by
  unfold is_entry_for; infer_instance

/-! ## `_find_name_in_env` (env.c lines 61-82) -/

/-- The inner loop of `_find_name_in_env`:
`while (((*ep)[cnt] == name[cnt]) && (name[cnt] != 0) && ((*ep)[cnt] != 0)) ++cnt;`
walking the entry `e` and `name` in lockstep; the result is the final `cnt`.
When either string is exhausted the byte read there is NUL and the loop
stops. -/
def match_cnt : CStr → CStr → Nat
  | c :: e, d :: name =>
    if c = d ∧ d ≠ NUL ∧ c ≠ NUL then match_cnt e name + 1 else 0
  | _, _ => 0

/-- The test `name[cnt] == 0 && (*ep)[cnt] == '='` after the inner loop. -/
def name_matches (e name : CStr) : Bool :=
  let cnt := match_cnt e name
  charAt name cnt == NUL && charAt e cnt == '='

/-- `_find_name_in_env(env, name)`: the list is the part of the allocation
from `env` onwards and the result is the offset of the returned pointer from
`env`.  Walking off the allocation without meeting a NULL slot is a fault. -/
def _find_name_in_env : Env → CStr → Except Fault Nat
  | [], _ => .error .outside
  | none :: _, _ => .ok 0
  | some e :: rest, name =>
    if name_matches e name then .ok 0
    else (_find_name_in_env rest name).map (· + 1)

/-! ## `envcount` (env.c lines 111-118) -/

/-- `envcount(env)`: the number of slots before the first NULL slot. -/
def envcount : Env → Except Fault Nat
  | [] => .error .outside
  | none :: _ => .ok 0
  | some _ :: rest => (envcount rest).map (· + 1)

/-! ## `_extend_env` (env.c lines 88-106) -/

/-- The loop `while (*ep == NULL) --ep;` of `_extend_env`, started with `ep`
at slot `i` of the array `a`: the index of the slot at which it stops.  When
slot 0 is NULL the next read is at slot -1, before the allocation. -/
def scan_back (a : Env) : Nat → Except Fault Nat
  | 0 =>
    match a[0]? with
    | some (some _) => .ok 0
    | _ => .error .outside
  | i + 1 =>
    match a[i + 1]? with
    | some (some _) => .ok (i + 1)
    | some none => scan_back a i
    | none => .error .outside

/-- `_extend_env(envp)`: the new array and the index of the returned slot.
`newcnt` is `xsize(*envp) / sizeof(char *) + 1`; `xrealloc` keeps the old
slots and the added slot `newcnt - 1` is set to NULL; the scan starts at slot
`newcnt - 2` and the slot after the one where it stops is returned. -/
def _extend_env (env : Env) : Except Fault (Env × Nat) :=
  let newcnt := env.length + 1
  let env1 := env ++ [none]
  if newcnt < 2 then .error .outside
  else do
    let i ← scan_back env1 (newcnt - 2)
    pure (env1, i + 1)

/-! ## Formatting -/

/-- Format string and arguments of a `printf`-style call, restricted to the
shapes that occur in env.c. -/
inductive Fmt where
  /-- A NULL format pointer. -/
  | null
  /-- A format string passed without any argument. -/
  | plain (fmt : CStr)
  /-- The format `"%d"` with an `int` argument. -/
  | d (n : Int)
  /-- The format `"%u"` with an unsigned argument. -/
  | u (n : Nat)
  /-- The format `"%s"` with a string argument. -/
  | s (arg : CStr)
deriving DecidableEq, Repr

/-- Output of a format string that is passed without arguments: `%%` prints
`%`, any other conversion asks for an argument that was not passed. -/
def expand_plain : CStr → Except Fault CStr
  | [] => .ok []
  | c :: rest =>
    if c = '%' then
      match rest with
      | c2 :: rest2 =>
        if c2 = '%' then (expand_plain rest2).map ('%' :: ·)
        else .error .missing_argument
      | [] => .error .missing_argument
    else (expand_plain rest).map (c :: ·)

/-- Decimal text of an `int`, as printed by `%d`. -/
def fmt_d : Int → CStr
  | .ofNat k => Nat.toDigits 10 k
  | .negSucc k => '-' :: Nat.toDigits 10 (k + 1)

/-- Decimal text of an unsigned value, as printed by `%u`. -/
def fmt_u (n : Nat) : CStr := Nat.toDigits 10 n

/-- `vsnprintf(buf, size, fmt, ap)`: the string left in `buf`, at most
`size - 1` bytes of the formatted text. -/
def vsnprintf (size : Nat) : Fmt → Except Fault CStr
  | .null => .error .null_format
  | .plain f => (expand_plain f).map (List.take (size - 1))
  | .d n => .ok ((fmt_d n).take (size - 1))
  | .u n => .ok ((fmt_u n).take (size - 1))
  | .s a => .ok (a.take (size - 1))

/-- Modelled from the spec: `xstrfmtcat(str, "%s=%s", name, bufcpy)` on an
empty `str` (src/common/xstring.c is not part of the sources); the spec says
the call "composes `name=formattedValue`". -/
def compose (name buf : CStr) : CStr := name ++ '=' :: buf

/-! ## `setenvf` (env.c lines 144-176) -/

/-- Constants and external routines that env.c takes from headers and
libraries outside the sources. -/
structure Platform where
  /-- Size of the stack buffer `buf` (`<stdio.h>`). -/
  BUFSIZ : Nat
  /-- Status returned by the C library's `putenv` for a given string. -/
  putenv : CStr → Int
  SLURM_SUCCESS : Int
  SLURM_ERROR : Int
  SLURM_FAILURE : Int
  SLURM_DIST_CYCLIC : Int
  SLURM_DIST_BLOCK : Int
  SLURM_DIST_ARBITRARY : Int
  CPU_BIND_VERBOSE : Nat
  CPU_BIND_NONE : Nat
  CPU_BIND_RANK : Nat
  CPU_BIND_MAPCPU : Nat
  CPU_BIND_MASKCPU : Nat
  MEM_BIND_VERBOSE : Nat
  MEM_BIND_NONE : Nat
  MEM_BIND_RANK : Nat
  MEM_BIND_MAPCPU : Nat
  MEM_BIND_MASKCPU : Nat
  /-- Whether the file is compiled with `HAVE_AIX`. -/
  HAVE_AIX : Bool
  /-- Value of `debug_num` in the `HAVE_AIX` block: `atoi` of the process
  variable `SLURM_LL_API_DEBUG`, 0 when it is not set. -/
  debug_num : Int

/-- The vector branch of `setenvf` (lines 162-171), with `str` the composed
string: `ep = _find_name_in_env(*envp, name)`; a non-NULL `*ep` is freed,
otherwise `ep = _extend_env(envp)`; then `*ep = str`. -/
def setenvf_vector (env : Env) (name str : CStr) : Except Fault Env := do
  let i ← _find_name_in_env env name
  match env[i]? with
  | some (some _) => pure (env.set i (some str))
  | _ => do
    let (env1, j) ← _extend_env env
    pure (env1.set j (some str))

/-- What a call of `setenvf` leaves behind. -/
structure SetenvOut where
  /-- The vector `*envp` after the call (`none` when there is no vector). -/
  env : Option Env
  /-- The string handed to `putenv`, when the process environment is the
  target. -/
  put : Option CStr
  /-- The returned status. -/
  rc : Int
deriving DecidableEq

/-- `setenvf(envp, name, fmt, ...)`.  The argument `envp` is `none` when
`envp` or `*envp` is NULL, and `some env` otherwise. -/
def setenvf (P : Platform) (envp : Option Env) (name : CStr) (fmt : Fmt) :
    Except Fault SetenvOut := do
  let buf ← vsnprintf P.BUFSIZ fmt
  let str := compose name buf
  match envp with
  | some env => do
    let env1 ← setenvf_vector env name str
    pure { env := some env1, put := none, rc := 0 }
  | none => pure { env := none, put := some str, rc := P.putenv str }

/-! ## `unsetenvp` (env.c lines 185-204) -/

/-- The loop `do dp[0] = dp[1]; while (*dp++);` on the part of the array from
`dp` onwards. -/
def shift_down : Env → Except Fault Env
  | [] => .error .outside
  | [_] => .error .outside
  | _ :: none :: rest => .ok (none :: none :: rest)
  | _ :: some e :: rest => (shift_down (some e :: rest)).map (some e :: ·)

/-- The loop of `unsetenvp` with `ep` at slot `ep` of `env`:
`while ((ep = _find_name_in_env(ep, name)) && (*ep != NULL))` with the body
freeing `*ep`, shifting the following slots down and then advancing `ep`.
The first argument bounds the number of iterations. -/
def unsetenvp_loop (name : CStr) : Nat → Env → Nat → Except Fault Env
  | 0, _, _ => .error .fuel
  | fuel + 1, env, ep => do
    let k ← _find_name_in_env (env.drop ep) name
    let i := ep + k
    match env[i]? with
    | some (some _) => do
      let tail ← shift_down (env.drop i)
      unsetenvp_loop name fuel (env.take i ++ tail) (i + 1)
    | _ => pure env

/-- `unsetenvp(env, name)`: the array after the call. -/
def unsetenvp (env : Option Env) (name : CStr) : Except Fault (Option Env) :=
  match env with
  | none => .ok none
  | some a => (unsetenvp_loop name (a.length + 1) a 0).map some

/-! ## `getenvp` (env.c lines 206-220) -/

/-- `getenvp(env, name)`: `none` for a NULL result, otherwise the string that
starts at byte `strlen(name) + 1` of the entry found. -/
def getenvp (env : Option Env) (name : CStr) : Except Fault (Option CStr) :=
  let len := name.length
  match env with
  | none => .ok none
  | some [] => .error .outside
  | some (none :: _) => .ok none
  | some (some e0 :: rest) => do
    let i ← _find_name_in_env (some e0 :: rest) name
    match (some e0 :: rest)[i]? with
    | some (some e) => pure (some (e.drop (len + 1)))
    | _ => pure none

/-! ## `setup_env` (env.c lines 222-530) -/

/-- The fields of `env_t` that `setup_env` reads (the declaration is in
src/common/env.h, outside the sources; the fields are the ones env.c uses).
A pointer field is `none` when NULL.  The external queries are folded into the
fields they are applied to: `select_jobinfo` carries the answer of
`select_g_get_jobinfo(.., SELECT_DATA_BLOCK_ID, ..)` and `cli` the text that
`slurm_print_slurm_addr` writes into `addrbuf`. -/
structure env_t where
  task_pid : Int
  nprocs : Int
  cpus_per_task : Int
  cpus_on_node : Int
  distribution : Int
  /-- Bit mask, below `2 ^ 32`. -/
  cpu_bind_type : Nat
  cpu_bind : Option CStr
  /-- Bit mask, below `2 ^ 32`. -/
  mem_bind_type : Nat
  mem_bind : Option CStr
  overcommit : Int
  slurmd_debug : Int
  labelio : Int
  select_jobinfo : Option (Option CStr)
  jobid : Int
  nodeid : Int
  procid : Int
  localid : Int
  stepid : Int
  nhosts : Int
  nodelist : Option CStr
  task_count : Option CStr
  comm_port : Nat
  comm_hostname : Option CStr
  cli : Option CStr
  env : Option Env

/-- What `setup_env` has done so far: the vector `env->env`, the strings
handed to `putenv`, the local `rc` and the messages passed to `error`. -/
structure Run where
  env : Option Env
  put : List CStr
  rc : Int
  log : List String
deriving DecidableEq

/-- One call `setenvf(&env->env, name, fmt, ...)` inside `setup_env`: the new
state and the returned status. -/
def call_setenvf (P : Platform) (r : Run) (name : String) (fmt : Fmt) :
    Except Fault (Run × Int) := do
  let out ← setenvf P r.env name.toList fmt
  pure ({ r with env := out.env, put := r.put ++ out.put.toList }, out.rc)

/-- The statements `error(msg); rc = SLURM_FAILURE;`. -/
def report (P : Platform) (r : Run) (msg : String) : Run :=
  { r with rc := P.SLURM_FAILURE, log := r.log ++ [msg] }

/-- The pattern
`if (present && setenvf(&env->env, name, fmt, ..)) { error(msg); rc = SLURM_FAILURE; }`. -/
def set_if (P : Platform) (r : Run) (present : Bool) (name : String) (fmt : Fmt)
    (msg : String) : Except Fault Run :=
  if present then do
    let (r1, st) ← call_setenvf P r name fmt
    pure (if st ≠ 0 then report P r1 msg else r1)
  else pure r

/-- The pattern `setstat |= setenvf(&env->env, name, fmt);` where `setstat`
is only ever tested against zero and is kept as the flag "nonzero". -/
def set_stat (P : Platform) (rs : Run × Bool) (name : String) (fmt : Fmt) :
    Except Fault (Run × Bool) := do
  let (r1, st) ← call_setenvf P rs.1 name fmt
  pure (r1, rs.2 || decide (st ≠ 0))

/-- The pattern `if (setstat) { error(msg); rc = SLURM_FAILURE; }`. -/
def check_stat (P : Platform) (rs : Run × Bool) (msg : String) : Run :=
  if rs.2 then report P rs.1 msg else rs.1

/-- The call `unsetenvp(env->env, name)` inside `setup_env`. -/
def call_unsetenvp (r : Run) (name : String) : Except Fault Run := do
  let env1 ← unsetenvp r.env name.toList
  pure { r with env := env1 }

/-- Lines 258-278: the distribution. -/
def setup_distribution (P : Platform) (e : env_t) (r : Run) : Except Fault Run :=
  if e.distribution ≥ 0 then
    let choice : String × Run :=
      if e.distribution = P.SLURM_DIST_CYCLIC then ("cyclic", r)
      else if e.distribution = P.SLURM_DIST_BLOCK then ("block", r)
      else if e.distribution = P.SLURM_DIST_ARBITRARY then ("arbitrary", r)
      else ("unknown",
        { r with log := r.log ++
            ["unknown dist, type " ++ String.mk (fmt_d e.distribution)] })
    set_if P choice.2 true "SLURM_DISTRIBUTION" (.s choice.1.toList)
      "Can't set SLURM_DISTRIBUTION env variable"
  else pure r

/-- The test `type & ~VERBOSE` on a 32-bit mask. -/
def other_bits (type verbose : Nat) : Nat := type &&& (0xFFFFFFFF ^^^ verbose)

/-- Lines 280-333: the CPU binding variables. -/
def setup_cpu_bind (P : Platform) (e : env_t) (r : Run) : Except Fault Run :=
  if e.cpu_bind_type ≠ 0 then do
    let r ← call_unsetenvp r "SLURM_CPU_BIND"
    let rs ←
      if e.cpu_bind_type &&& P.CPU_BIND_VERBOSE ≠ 0 then
        set_stat P (r, false) "SLURM_CPU_BIND_VERBOSE" (.plain "verbose".toList)
      else
        set_stat P (r, false) "SLURM_CPU_BIND_VERBOSE" (.plain "quiet".toList)
    let r := check_stat P rs "Unable to set SLURM_CPU_BIND_VERBOSE"
    let rs ←
      if e.cpu_bind_type &&& P.CPU_BIND_NONE ≠ 0 then
        set_stat P (r, false) "SLURM_CPU_BIND_TYPE" (.plain "none".toList)
      else if e.cpu_bind_type &&& P.CPU_BIND_RANK ≠ 0 then
        set_stat P (r, false) "SLURM_CPU_BIND_TYPE" (.plain "rank".toList)
      else if e.cpu_bind_type &&& P.CPU_BIND_MAPCPU ≠ 0 then
        set_stat P (r, false) "SLURM_CPU_BIND_TYPE" (.plain "map_cpu:".toList)
      else if e.cpu_bind_type &&& P.CPU_BIND_MASKCPU ≠ 0 then
        set_stat P (r, false) "SLURM_CPU_BIND_TYPE" (.plain "mask_cpu:".toList)
      else if other_bits e.cpu_bind_type P.CPU_BIND_VERBOSE ≠ 0 then
        set_stat P (r, false) "SLURM_CPU_BIND_TYPE" (.plain "unknown".toList)
      else
        set_stat P (r, false) "SLURM_CPU_BIND_TYPE" (.plain [])
    let r := check_stat P rs "Unable to set SLURM_CPU_BIND_TYPE"
    let rs ←
      match e.cpu_bind with
      | some b => set_stat P (r, false) "SLURM_CPU_BIND_LIST" (.plain b)
      | none => set_stat P (r, false) "SLURM_CPU_BIND_LIST" (.plain [])
    -- line 318 tests a second call, whose format is `env->cpu_bind` itself
    set_if P rs.1 true "SLURM_CPU_BIND_LIST"
      (match e.cpu_bind with
        | some b => .plain b
        | none => .null)
      "Unable to set SLURM_CPU_BIND_LIST"
  else do
    let r ← call_unsetenvp r "SLURM_CPU_BIND"
    let rs ← set_stat P (r, false) "SLURM_CPU_BIND_VERBOSE" (.plain "quiet".toList)
    let rs ← set_stat P rs "SLURM_CPU_BIND_TYPE" (.plain [])
    let rs ← set_stat P rs "SLURM_CPU_BIND_LIST" (.plain [])
    pure (check_stat P rs "Unable to set SLURM_CPU_BIND_*")

/-- Lines 335-390: the memory binding variables. -/
def setup_mem_bind (P : Platform) (e : env_t) (r : Run) : Except Fault Run :=
  if e.mem_bind_type ≠ 0 then do
    let r ← call_unsetenvp r "SLURM_MEM_BIND"
    let rs ←
      if e.mem_bind_type &&& P.MEM_BIND_VERBOSE ≠ 0 then
        set_stat P (r, false) "SLURM_MEM_BIND_VERBOSE" (.plain "verbose".toList)
      else
        set_stat P (r, false) "SLURM_MEM_BIND_VERBOSE" (.plain "quiet".toList)
    let r := check_stat P rs "Unable to set SLURM_MEM_BIND_VERBOSE"
    let rs ←
      if e.mem_bind_type &&& P.MEM_BIND_NONE ≠ 0 then
        set_stat P (r, false) "SLURM_MEM_BIND_TYPE" (.plain "none".toList)
      else if e.mem_bind_type &&& P.MEM_BIND_RANK ≠ 0 then
        set_stat P (r, false) "SLURM_MEM_BIND_TYPE" (.plain "rank".toList)
      else if e.mem_bind_type &&& P.MEM_BIND_MAPCPU ≠ 0 then
        set_stat P (r, false) "SLURM_MEM_BIND_TYPE" (.plain "map_cpu:".toList)
      else if e.mem_bind_type &&& P.MEM_BIND_MASKCPU ≠ 0 then
        set_stat P (r, false) "SLURM_MEM_BIND_TYPE" (.plain "mask_cpu:".toList)
      else if other_bits e.mem_bind_type P.MEM_BIND_VERBOSE ≠ 0 then
        set_stat P (r, false) "SLURM_MEM_BIND_TYPE" (.plain "unknown".toList)
      else
        set_stat P (r, false) "SLURM_MEM_BIND_TYPE" (.plain [])
    let r := check_stat P rs "Unable to set SLURM_MEM_BIND_TYPE"
    let rs ←
      match e.mem_bind with
      | some b => set_stat P (r, false) "SLURM_MEM_BIND_LIST" (.plain b)
      | none => set_stat P (r, false) "SLURM_MEM_BIND_LIST" (.plain [])
    pure (check_stat P rs "Unable to set SLURM_MEM_BIND_LIST")
  else do
    let r ← call_unsetenvp r "SLURM_MEM_BIND"
    let rs ← set_stat P (r, false) "SLURM_MEM_BIND_VERBOSE" (.plain "quiet".toList)
    let rs ← set_stat P rs "SLURM_MEM_BIND_TYPE" (.plain [])
    let rs ← set_stat P rs "SLURM_MEM_BIND_LIST" (.plain [])
    pure (check_stat P rs "Unable to set SLURM_MEM_BIND_*")

/-- The pattern `if (setenvf(&env->env, name, fmt, ..)) rc = SLURM_FAILURE;`
of lines 414-421. -/
def set_quiet (P : Platform) (r : Run) (name : String) (fmt : Fmt) :
    Except Fault Run := do
  let (r1, st) ← call_setenvf P r name fmt
  pure (if st ≠ 0 then { r1 with rc := P.SLURM_FAILURE } else r1)

/-- Lines 410-429: the placement information. -/
def setup_select_jobinfo (P : Platform) (e : env_t) (r : Run) : Except Fault Run :=
  match e.select_jobinfo with
  | none => pure r
  | some answer => do
    let r ←
      match answer with
      | some bgl_part_id => do
        let r ← set_quiet P r "MPIRUN_PARTITION" (.s bgl_part_id)
        let r ← set_quiet P r "MPIRUN_NOFREE" (.d 1)
        set_quiet P r "MPIRUN_NOALLOCATE" (.d 1)
      | none => pure { r with rc := P.SLURM_FAILURE }
    pure (if r.rc = P.SLURM_FAILURE then
        { r with log := r.log ++ ["Can't set MPIRUN_PARTITION environment variable"] }
      else r)

/-- Lines 491-503: the address of the launch node, cut at its first colon. -/
def setup_cli (P : Platform) (e : env_t) (r : Run) : Except Fault Run :=
  match e.cli with
  | none => pure r
  | some addrbuf => do
    let (r1, _) ← call_setenvf P r "SLURM_LAUNCH_NODE_IPADDR"
      (.s (addrbuf.takeWhile (· ≠ ':')))
    pure r1

/-- Lines 505-527: the block compiled under `HAVE_AIX`. -/
def setup_aix (P : Platform) (r : Run) : Except Fault Run :=
  if P.HAVE_AIX then do
    let res_env := ("SLURM_LL_API_DEBUG=".toList ++ fmt_d P.debug_num).take 127
    let (r, _) ← call_setenvf P r "MP_POERESTART_ENV" (.plain res_env)
    let (r, _) ← call_setenvf P r "LOADLBATCH" (.plain "yes".toList)
    let (r, _) ← call_setenvf P r "LOADL_ACTIVE" (.plain "3.2.0".toList)
    pure r
  else pure r

/-- The body of `setup_env` for a non-NULL `env`, up to the `return`. -/
def setup_env_run (P : Platform) (e : env_t) : Except Fault Run := do
  let r : Run := { env := e.env, put := [], rc := P.SLURM_SUCCESS, log := [] }
  let r ← set_if P r (e.task_pid ≠ 0) "SLURM_TASK_PID" (.d e.task_pid)
    "Unable to set SLURM_TASK_PID environment variable"
  let r ← set_if P r (e.nprocs ≠ 0) "SLURM_NPROCS" (.d e.nprocs)
    "Unable to set SLURM_NPROCS environment variable"
  let r ← set_if P r (e.cpus_per_task ≠ 0) "SLURM_CPUS_PER_TASK" (.d e.cpus_per_task)
    "Unable to set SLURM_CPUS_PER_TASK"
  let r ← set_if P r (e.cpus_on_node ≠ 0) "SLURM_CPUS_ON_NODE" (.d e.cpus_on_node)
    "Unable to set SLURM_CPUS_PER_TASK"
  let r ← setup_distribution P e r
  let r ← setup_cpu_bind P e r
  let r ← setup_mem_bind P e r
  let r ← set_if P r (e.overcommit ≠ 0) "SLURM_OVERCOMMIT" (.plain "1".toList)
    "Unable to set SLURM_OVERCOMMIT environment variable"
  let r ← set_if P r (e.slurmd_debug ≠ 0) "SLURMD_DEBUG" (.d e.slurmd_debug)
    "Can't set SLURMD_DEBUG environment variable"
  let r ← set_if P r (e.labelio ≠ 0) "SLURM_LABELIO" (.plain "1".toList)
    "Unable to set SLURM_LABELIO environment variable"
  let r ← setup_select_jobinfo P e r
  let r ← set_if P r (e.jobid ≥ 0) "SLURM_JOBID" (.d e.jobid)
    "Unable to set SLURM_JOBID environment"
  let r ← set_if P r (e.nodeid ≥ 0) "SLURM_NODEID" (.d e.nodeid)
    "Unable to set SLURM_NODEID environment"
  let r ← set_if P r (e.procid ≥ 0) "SLURM_PROCID" (.d e.procid)
    "Unable to set SLURM_PROCID environment"
  let r ← set_if P r (e.localid ≥ 0) "SLURM_LOCALID" (.d e.localid)
    "Unable to set SLURM_LOCALID environment"
  let r ← set_if P r (e.stepid ≥ 0) "SLURM_STEPID" (.d e.stepid)
    "Unable to set SLURM_STEPID environment"
  let r ← set_if P r (e.nhosts ≠ 0) "SLURM_NNODES" (.d e.nhosts)
    "Unable to set SLURM_NNODES environment var"
  let r ← set_if P r e.nodelist.isSome "SLURM_NODELIST" (.s (e.nodelist.getD []))
    "Unable to set SLURM_NODELIST environment var."
  let r ← set_if P r e.task_count.isSome "SLURM_TASKS_PER_NODE"
    (.s (e.task_count.getD [])) "Can't set SLURM_TASKS_PER_NODE env variable"
  let r ← set_if P r (e.comm_port ≠ 0) "SLURM_SRUN_COMM_PORT" (.u e.comm_port)
    "Can't set SLURM_SRUN_COMM_PORT env variable"
  let r ← set_if P r e.comm_hostname.isSome "SLURM_SRUN_COMM_HOST"
    (.s (e.comm_hostname.getD [])) "Can't set SLURM_SRUN_COMM_HOST env variable"
  let r ← setup_cli P e r
  setup_aix P r

/-- `setup_env(env)`: the returned status and, for a non-NULL `env`, the state
left behind. -/
def setup_env (P : Platform) (env : Option env_t) : Except Fault (Int × Option Run) :=
  match env with
  | none => .ok (P.SLURM_ERROR, none)
  | some e => do
    let r ← setup_env_run P e
    pure (P.SLURM_SUCCESS, some r)

/-! ## Sample instances used in the worked examples -/

/-- A platform with the usual values of the constants (glibc's `BUFSIZ`,
`SLURM_SUCCESS = 0`, `SLURM_ERROR = SLURM_FAILURE = -1`) and sample values
for the enumerations. -/
def sample_platform : Platform where
  BUFSIZ := 8192
  putenv := fun _ => 0
  SLURM_SUCCESS := 0
  SLURM_ERROR := -1
  SLURM_FAILURE := -1
  SLURM_DIST_CYCLIC := 1
  SLURM_DIST_BLOCK := 2
  SLURM_DIST_ARBITRARY := 3
  CPU_BIND_VERBOSE := 16
  CPU_BIND_NONE := 1
  CPU_BIND_RANK := 2
  CPU_BIND_MAPCPU := 4
  CPU_BIND_MASKCPU := 8
  MEM_BIND_VERBOSE := 16
  MEM_BIND_NONE := 1
  MEM_BIND_RANK := 2
  MEM_BIND_MAPCPU := 4
  MEM_BIND_MASKCPU := 8
  HAVE_AIX := false
  debug_num := 0

/-- A context in which no field is set: counts and masks are zero, the
identifiers are -1, the distribution is negative, every pointer is NULL. -/
def blank_env_t : env_t where
  task_pid := 0
  nprocs := 0
  cpus_per_task := 0
  cpus_on_node := 0
  distribution := -1
  cpu_bind_type := 0
  cpu_bind := none
  mem_bind_type := 0
  mem_bind := none
  overcommit := 0
  slurmd_debug := 0
  labelio := 0
  select_jobinfo := none
  jobid := -1
  nodeid := -1
  procid := -1
  localid := -1
  stepid := -1
  nhosts := 0
  nodelist := none
  task_count := none
  comm_port := 0
  comm_hostname := none
  cli := none
  env := none

/-! ## Vectors and their entries

The vectors the routines build and expect: the real entries first, then one
or more NULL slots up to the end of the allocation. -/

/-- The array holding the entries `es` followed by `k + 1` NULL slots. -/
def vector_of (es : List CStr) (k : Nat) : Env :=
  es.map some ++ List.replicate (k + 1) none

/-- The predicate of the spec's data model: the last allocated slot is NULL
and exactly one slot of the array is NULL. -/
def single_terminator (env : Env) : Prop :=
  env.getLast? = some none ∧ env.count none = 1

instance (env : Env) : Decidable (single_terminator env) := by
  unfold single_terminator; infer_instance

/-- The last allocated slot is NULL and no real entry follows a NULL slot. -/
def nulls_at_end (env : Env) : Prop :=
  env.getLast? = some none ∧ (env.dropWhile Option.isSome).all Option.isNone = true

instance (env : Env) : Decidable (nulls_at_end env) := by
  unfold nulls_at_end; infer_instance

/-- Entries after `setenvf`: the first entry that matches `name` is replaced
by `str`, and `str` is appended when none matches. -/
def set_entry (name str : CStr) : List CStr → List CStr
  | [] => [str]
  | e :: es =>
    if name_matches e name then str :: es else e :: set_entry name str es

/-- Value of the first entry that matches `name`. -/
def lookup (name : CStr) : List CStr → Option CStr
  | [] => none
  | e :: es =>
    if name_matches e name then some (e.drop (name.length + 1))
    else lookup name es

/-- Entries after `unsetenvp`: a matching entry is dropped and the entry that
follows it is kept without being examined. -/
def remove_skip (name : CStr) : List CStr → List CStr
  | [] => []
  | e :: es =>
    if name_matches e name then
      match es with
      | [] => []
      | x :: rest => x :: remove_skip name rest
    else e :: remove_skip name es

/-- A sequence of calls `setenvf(&env, name, "%s", value)`, one for each pair
of the list in order; the result is the vector after the last call. -/
def setenvf_seq (P : Platform) : Option Env → List (CStr × CStr) →
    Except Fault (Option Env)
  | env, [] => .ok env
  | env, (name, value) :: ops => do
    let out ← setenvf P env name (.s value)
    setenvf_seq P out.env ops

/-- Entries after the calls of `setenvf_seq`: `set_entry` for each pair in
order. -/
def set_all : List CStr → List (CStr × CStr) → List CStr
  | es, [] => es
  | es, (name, value) :: ops => set_all (set_entry name (compose name value) es) ops

/-! ## The calls of `setup_env` as operations on the entries -/

/-- A change that a call made by `setup_env` makes to the entries of the
vector: `setenvf` under a name with the formatted value, or `unsetenvp` of a
name. -/
inductive Op where
  | set (name value : CStr)
  | unset (name : CStr)
deriving DecidableEq, Repr

/-- The variable name an operation is about. -/
def Op.name : Op → CStr
  | .set name _ => name
  | .unset name => name

/-- Entries after one operation. -/
def apply_op (es : List CStr) : Op → List CStr
  | .set name value => set_entry name (compose name value) es
  | .unset name => remove_skip name es

/-- Entries after a list of operations, in order. -/
def apply_ops (es : List CStr) (ops : List Op) : List CStr :=
  ops.foldl apply_op es

/-- The text `vsnprintf` leaves in `buf` (empty when the call faults). -/
def fmt_text (P : Platform) (fmt : Fmt) : CStr :=
  match vsnprintf P.BUFSIZ fmt with
  | .ok value => value
  | .error _ => []

/-- The operation of a call `setenvf(&env->env, name, fmt, ..)`. -/
def op_set (P : Platform) (name : String) (fmt : Fmt) : Op :=
  .set name.toList (fmt_text P fmt)

/-- The operations of a call guarded by `present`. -/
def ops_if (P : Platform) (present : Bool) (name : String) (fmt : Fmt) : List Op :=
  if present then [op_set P name fmt] else []

/-- The token of lines 259-272 for a non-negative distribution. -/
def dist_text (P : Platform) (d : Int) : String :=
  if d = P.SLURM_DIST_CYCLIC then "cyclic"
  else if d = P.SLURM_DIST_BLOCK then "block"
  else if d = P.SLURM_DIST_ARBITRARY then "arbitrary"
  else "unknown"

/-- The token of lines 283-287 and 338-342. -/
def verbose_text (type verbose : Nat) : String :=
  if type &&& verbose ≠ 0 then "verbose" else "quiet"

/-- The token of lines 294-306 and 349-361. -/
def bind_type_text (type verbose none rank mapcpu maskcpu : Nat) : String :=
  if type &&& none ≠ 0 then "none"
  else if type &&& rank ≠ 0 then "rank"
  else if type &&& mapcpu ≠ 0 then "map_cpu:"
  else if type &&& maskcpu ≠ 0 then "mask_cpu:"
  else if other_bits type verbose ≠ 0 then "unknown"
  else ""

/-- The format of a bind list string: the string itself, or the empty format
when the pointer is NULL. -/
def bind_list_fmt (b : Option CStr) : Fmt := .plain (b.getD [])

/-- The format line 318 passes: `env->cpu_bind` itself. -/
def bind_list_raw (b : Option CStr) : Fmt :=
  match b with
  | some s => .plain s
  | none => .null

/-- Operations of lines 280-333. -/
def cpu_bind_ops (P : Platform) (e : env_t) : List Op :=
  if e.cpu_bind_type ≠ 0 then
    [.unset "SLURM_CPU_BIND".toList,
     op_set P "SLURM_CPU_BIND_VERBOSE"
       (.plain (verbose_text e.cpu_bind_type P.CPU_BIND_VERBOSE).toList),
     op_set P "SLURM_CPU_BIND_TYPE"
       (.plain (bind_type_text e.cpu_bind_type P.CPU_BIND_VERBOSE P.CPU_BIND_NONE
         P.CPU_BIND_RANK P.CPU_BIND_MAPCPU P.CPU_BIND_MASKCPU).toList),
     op_set P "SLURM_CPU_BIND_LIST" (bind_list_fmt e.cpu_bind),
     op_set P "SLURM_CPU_BIND_LIST" (bind_list_raw e.cpu_bind)]
  else
    [.unset "SLURM_CPU_BIND".toList,
     op_set P "SLURM_CPU_BIND_VERBOSE" (.plain "quiet".toList),
     op_set P "SLURM_CPU_BIND_TYPE" (.plain []),
     op_set P "SLURM_CPU_BIND_LIST" (.plain [])]

/-- Operations of lines 335-390. -/
def mem_bind_ops (P : Platform) (e : env_t) : List Op :=
  if e.mem_bind_type ≠ 0 then
    [.unset "SLURM_MEM_BIND".toList,
     op_set P "SLURM_MEM_BIND_VERBOSE"
       (.plain (verbose_text e.mem_bind_type P.MEM_BIND_VERBOSE).toList),
     op_set P "SLURM_MEM_BIND_TYPE"
       (.plain (bind_type_text e.mem_bind_type P.MEM_BIND_VERBOSE P.MEM_BIND_NONE
         P.MEM_BIND_RANK P.MEM_BIND_MAPCPU P.MEM_BIND_MASKCPU).toList),
     op_set P "SLURM_MEM_BIND_LIST" (bind_list_fmt e.mem_bind)]
  else
    [.unset "SLURM_MEM_BIND".toList,
     op_set P "SLURM_MEM_BIND_VERBOSE" (.plain "quiet".toList),
     op_set P "SLURM_MEM_BIND_TYPE" (.plain []),
     op_set P "SLURM_MEM_BIND_LIST" (.plain [])]

/-- Operations of lines 410-429. -/
def select_ops (P : Platform) (e : env_t) : List Op :=
  match e.select_jobinfo with
  | some (some bgl_part_id) =>
    [op_set P "MPIRUN_PARTITION" (.s bgl_part_id),
     op_set P "MPIRUN_NOFREE" (.d 1),
     op_set P "MPIRUN_NOALLOCATE" (.d 1)]
  | _ => []

/-- Operations of lines 491-503. -/
def cli_ops (P : Platform) (e : env_t) : List Op :=
  match e.cli with
  | some addrbuf =>
    [op_set P "SLURM_LAUNCH_NODE_IPADDR" (.s (addrbuf.takeWhile (· ≠ ':')))]
  | none => []

/-- Operations of lines 505-527. -/
def aix_ops (P : Platform) : List Op :=
  if P.HAVE_AIX then
    [op_set P "MP_POERESTART_ENV"
       (.plain (("SLURM_LL_API_DEBUG=".toList ++ fmt_d P.debug_num).take 127)),
     op_set P "LOADLBATCH" (.plain "yes".toList),
     op_set P "LOADL_ACTIVE" (.plain "3.2.0".toList)]
  else []

/-- Operations of lines 232-429, before the identifiers. -/
def ops_before_ids (P : Platform) (e : env_t) : List Op :=
  ops_if P (e.task_pid ≠ 0) "SLURM_TASK_PID" (.d e.task_pid) ++
  (ops_if P (e.nprocs ≠ 0) "SLURM_NPROCS" (.d e.nprocs) ++
  (ops_if P (e.cpus_per_task ≠ 0) "SLURM_CPUS_PER_TASK" (.d e.cpus_per_task) ++
  (ops_if P (e.cpus_on_node ≠ 0) "SLURM_CPUS_ON_NODE" (.d e.cpus_on_node) ++
  (ops_if P (e.distribution ≥ 0) "SLURM_DISTRIBUTION"
      (.s (dist_text P e.distribution).toList) ++
  (cpu_bind_ops P e ++
  (mem_bind_ops P e ++
  (ops_if P (e.overcommit ≠ 0) "SLURM_OVERCOMMIT" (.plain "1".toList) ++
  (ops_if P (e.slurmd_debug ≠ 0) "SLURMD_DEBUG" (.d e.slurmd_debug) ++
  (ops_if P (e.labelio ≠ 0) "SLURM_LABELIO" (.plain "1".toList) ++
  select_ops P e)))))))))

/-- Operations of lines 443-527, after the job and node identifiers. -/
def ops_after_ids (P : Platform) (e : env_t) : List Op :=
  ops_if P (e.procid ≥ 0) "SLURM_PROCID" (.d e.procid) ++
  (ops_if P (e.localid ≥ 0) "SLURM_LOCALID" (.d e.localid) ++
  (ops_if P (e.stepid ≥ 0) "SLURM_STEPID" (.d e.stepid) ++
  (ops_if P (e.nhosts ≠ 0) "SLURM_NNODES" (.d e.nhosts) ++
  (ops_if P e.nodelist.isSome "SLURM_NODELIST" (.s (e.nodelist.getD [])) ++
  (ops_if P e.task_count.isSome "SLURM_TASKS_PER_NODE" (.s (e.task_count.getD [])) ++
  (ops_if P (e.comm_port ≠ 0) "SLURM_SRUN_COMM_PORT" (.u e.comm_port) ++
  (ops_if P e.comm_hostname.isSome "SLURM_SRUN_COMM_HOST"
      (.s (e.comm_hostname.getD [])) ++
  (cli_ops P e ++
  aix_ops P))))))))

/-- The operations of a run of `setup_env`, in the order of the calls. -/
def setup_ops (P : Platform) (e : env_t) : List Op :=
  ops_before_ids P e ++
  (ops_if P (e.jobid ≥ 0) "SLURM_JOBID" (.d e.jobid) ++
  (ops_if P (e.nodeid ≥ 0) "SLURM_NODEID" (.d e.nodeid) ++
  ops_after_ids P e))

/-- The vector of a state is `es` changed by the operations `ops`. -/
def Tracks (es : List CStr) (r : Run) (ops : List Op) : Prop :=
  ∃ k, r.env = some (vector_of (apply_ops es ops) k)

/-- Every completed run of the statement `f` changes the entries of a vector
by the operations `l`. -/
def Step (f : Run → Except Fault Run) (l : List Op) : Prop :=
  ∀ (es : List CStr) (ops : List Op) (r r1 : Run),
    Tracks es r ops → f r = .ok r1 → Tracks es r1 (ops ++ l)

/-! ## The binding blocks in the words of the spec -/

/-- One assignment with its check: `setstat = 0; setstat |= setenvf(&env->env,
name, fmt); if (setstat) { error(msg); rc = SLURM_FAILURE; }`. -/
def assign_checked (P : Platform) (r : Run) (name : String) (fmt : Fmt) (msg : String) :
    Except Fault Run := do
  let rs ← set_stat P (r, false) name fmt
  pure (check_stat P rs msg)

/-- Spec wording of the type token: among the tests for the none, rank,
map-by-cpu and mask-by-cpu bits, in this order, the first that succeeds gives
the token; when none does, `unknown` if a bit other than the verbose bit is
set, and the empty string otherwise. -/
def spec_bind_type (type verbose none rank mapcpu maskcpu : Nat) : String :=
  match [(none, "none"), (rank, "rank"), (mapcpu, "map_cpu:"),
      (maskcpu, "mask_cpu:")].find? (fun p => type &&& p.1 ≠ 0) with
  | some p => p.2
  | none =>
    if (List.range 32).any (fun i => type.testBit i && !verbose.testBit i) then "unknown"
    else ""

/-- Spec wording of the verbosity token. -/
def spec_verbose (type verbose : Nat) : String :=
  if type &&& verbose = 0 then "quiet" else "verbose"

/-- Spec wording of the CPU binding block for nonzero binding bits: unset the
inherited `SLURM_CPU_BIND`, then assign verbosity, type and list.  The list
part is lines 312-321 as they stand. -/
def cpu_bind_calls (P : Platform) (e : env_t) (r : Run) : Except Fault Run := do
  let r ← call_unsetenvp r "SLURM_CPU_BIND"
  let r ← assign_checked P r "SLURM_CPU_BIND_VERBOSE"
    (.plain (spec_verbose e.cpu_bind_type P.CPU_BIND_VERBOSE).toList)
    "Unable to set SLURM_CPU_BIND_VERBOSE"
  let r ← assign_checked P r "SLURM_CPU_BIND_TYPE"
    (.plain (spec_bind_type e.cpu_bind_type P.CPU_BIND_VERBOSE P.CPU_BIND_NONE
      P.CPU_BIND_RANK P.CPU_BIND_MAPCPU P.CPU_BIND_MASKCPU).toList)
    "Unable to set SLURM_CPU_BIND_TYPE"
  let rs ← set_stat P (r, false) "SLURM_CPU_BIND_LIST" (bind_list_fmt e.cpu_bind)
  set_if P rs.1 true "SLURM_CPU_BIND_LIST" (bind_list_raw e.cpu_bind)
    "Unable to set SLURM_CPU_BIND_LIST"

/-- Spec wording of the memory binding block for nonzero binding bits. -/
def mem_bind_calls (P : Platform) (e : env_t) (r : Run) : Except Fault Run := do
  let r ← call_unsetenvp r "SLURM_MEM_BIND"
  let r ← assign_checked P r "SLURM_MEM_BIND_VERBOSE"
    (.plain (spec_verbose e.mem_bind_type P.MEM_BIND_VERBOSE).toList)
    "Unable to set SLURM_MEM_BIND_VERBOSE"
  let r ← assign_checked P r "SLURM_MEM_BIND_TYPE"
    (.plain (spec_bind_type e.mem_bind_type P.MEM_BIND_VERBOSE P.MEM_BIND_NONE
      P.MEM_BIND_RANK P.MEM_BIND_MAPCPU P.MEM_BIND_MASKCPU).toList)
    "Unable to set SLURM_MEM_BIND_TYPE"
  assign_checked P r "SLURM_MEM_BIND_LIST" (bind_list_fmt e.mem_bind)
    "Unable to set SLURM_MEM_BIND_LIST"

/-- The blocks for binding bits all zero (lines 322-333 and 379-390): unset
the inherited variable, then the three default assignments. -/
def bind_defaults (P : Platform) (r : Run) (unset_name verbose_name type_name list_name
    msg : String) : Except Fault Run := do
  let r ← call_unsetenvp r unset_name
  let rs ← set_stat P (r, false) verbose_name (.plain "quiet".toList)
  let rs ← set_stat P rs type_name (.plain [])
  let rs ← set_stat P rs list_name (.plain [])
  pure (check_stat P rs msg)

/-- A variable name: a C string without `=`. -/
def valid_name (n : CStr) : Prop := NUL ∉ n ∧ '=' ∉ n

instance (n : CStr) : Decidable (valid_name n) := by
  unfold valid_name; infer_instance

/-- None of the operations is about the name `X`. -/
def avoids (X : CStr) (ops : List Op) : Prop := ∀ op ∈ ops, op.name ≠ X

instance (X : CStr) (ops : List Op) : Decidable (avoids X ops) := by
  unfold avoids; infer_instance

/-- The variable names that `setup_env` sets or unsets. -/
def setup_names : List CStr :=
  ["SLURM_TASK_PID", "SLURM_NPROCS", "SLURM_CPUS_PER_TASK", "SLURM_CPUS_ON_NODE",
   "SLURM_DISTRIBUTION", "SLURM_CPU_BIND", "SLURM_CPU_BIND_VERBOSE", "SLURM_CPU_BIND_TYPE",
   "SLURM_CPU_BIND_LIST", "SLURM_MEM_BIND", "SLURM_MEM_BIND_VERBOSE", "SLURM_MEM_BIND_TYPE",
   "SLURM_MEM_BIND_LIST", "SLURM_OVERCOMMIT", "SLURMD_DEBUG", "SLURM_LABELIO",
   "MPIRUN_PARTITION", "MPIRUN_NOFREE", "MPIRUN_NOALLOCATE", "SLURM_JOBID", "SLURM_NODEID",
   "SLURM_PROCID", "SLURM_LOCALID", "SLURM_STEPID", "SLURM_NNODES", "SLURM_NODELIST",
   "SLURM_TASKS_PER_NODE", "SLURM_SRUN_COMM_PORT", "SLURM_SRUN_COMM_HOST",
   "SLURM_LAUNCH_NODE_IPADDR", "MP_POERESTART_ENV", "LOADLBATCH", "LOADL_ACTIVE"].map
    String.toList

/-! ## The slots read by `_extend_env` -/

/-- The indices of the slots read by the loop `while (*ep == NULL) --ep;`
started at slot `i` of the array `a`, in the order of the reads.  After a NULL
at slot 0 the next read is at slot -1; the trace ends with the first read
outside the allocation. -/
def scan_reads (a : Env) : Nat → List Int
  | 0 =>
    match a[0]? with
    | some none => [0, -1]
    | _ => [0]
  | i + 1 =>
    match a[i + 1]? with
    | some none => ((i + 1 : Nat) : Int) :: scan_reads a i
    | _ => [((i + 1 : Nat) : Int)]

/-- The indices read by the scan of `_extend_env(envp)` on a vector of at
least one slot: the scan runs on the grown array from slot `newcnt - 2`. -/
def extend_reads (env : Env) : List Int :=
  scan_reads (env ++ [none]) (env.length + 1 - 2)

/-! ## Variable names of entries -/

/-- The variable name of an entry: the bytes before its first `=`. -/
def var_name (e : CStr) : CStr := e.takeWhile (· ≠ '=')

/-- Every entry contains `=` and no two entries have the same variable
name. -/
def unique_names (es : List CStr) : Prop :=
  (∀ e ∈ es, '=' ∈ e) ∧ (es.map var_name).Nodup

instance (es : List CStr) : Decidable (unique_names es) := by
  unfold unique_names; infer_instance

/-- No two consecutive entries both consist of the name followed by `=`. -/
def no_adjacent_entries_for (name : CStr) : List CStr → Prop
  | a :: b :: rest =>
    ¬ (is_entry_for name a ∧ is_entry_for name b) ∧ no_adjacent_entries_for name (b :: rest)
  | _ => True

instance no_adjacent_decidable (name : CStr) :
    (es : List CStr) → Decidable (no_adjacent_entries_for name es)
  | [] => inferInstanceAs (Decidable True)
  | [_] => inferInstanceAs (Decidable True)
  | a :: b :: rest =>
    have := no_adjacent_decidable name (b :: rest)
    inferInstanceAs (Decidable (¬ (is_entry_for name a ∧ is_entry_for name b) ∧
      no_adjacent_entries_for name (b :: rest)))

/-! ## The calls of `setup_env` on the vector -/

/-- A call that `setup_env` makes on `env->env`: `setenvf(&env->env, name,
fmt, ..)` or `unsetenvp(env->env, name)`. -/
inductive Call where
  | set (name : String) (fmt : Fmt)
  | unset (name : String)
deriving DecidableEq

/-- The variable name of a call. -/
def Call.name : Call → String
  | .set n _ => n
  | .unset n => n

/-- The vector `env->env` after one call. -/
def run_call (P : Platform) (env : Option Env) : Call → Except Fault (Option Env)
  | .set n f => (setenvf P env n.toList f).map (fun out => out.env)
  | .unset n => unsetenvp env n.toList

/-- The vector `env->env` after a sequence of calls. -/
def run_calls (P : Platform) (env : Option Env) : List Call → Except Fault (Option Env)
  | [] => .ok env
  | c :: cs => do
    let env1 ← run_call P env c
    run_calls P env1 cs

/-- The call of `if (cond && setenvf(&env->env, name, fmt, ..))`. -/
def calls_if (c : Bool) (name : String) (fmt : Fmt) : List Call :=
  if c then [.set name fmt] else []

/-- Calls of lines 280-333. -/
def cpu_bind_call_list (P : Platform) (e : env_t) : List Call :=
  if e.cpu_bind_type ≠ 0 then
    [.unset "SLURM_CPU_BIND",
     .set "SLURM_CPU_BIND_VERBOSE"
       (.plain (verbose_text e.cpu_bind_type P.CPU_BIND_VERBOSE).toList),
     .set "SLURM_CPU_BIND_TYPE"
       (.plain (bind_type_text e.cpu_bind_type P.CPU_BIND_VERBOSE P.CPU_BIND_NONE
         P.CPU_BIND_RANK P.CPU_BIND_MAPCPU P.CPU_BIND_MASKCPU).toList),
     .set "SLURM_CPU_BIND_LIST" (bind_list_fmt e.cpu_bind),
     .set "SLURM_CPU_BIND_LIST" (bind_list_raw e.cpu_bind)]
  else
    [.unset "SLURM_CPU_BIND",
     .set "SLURM_CPU_BIND_VERBOSE" (.plain "quiet".toList),
     .set "SLURM_CPU_BIND_TYPE" (.plain []),
     .set "SLURM_CPU_BIND_LIST" (.plain [])]

/-- Calls of lines 335-390. -/
def mem_bind_call_list (P : Platform) (e : env_t) : List Call :=
  if e.mem_bind_type ≠ 0 then
    [.unset "SLURM_MEM_BIND",
     .set "SLURM_MEM_BIND_VERBOSE"
       (.plain (verbose_text e.mem_bind_type P.MEM_BIND_VERBOSE).toList),
     .set "SLURM_MEM_BIND_TYPE"
       (.plain (bind_type_text e.mem_bind_type P.MEM_BIND_VERBOSE P.MEM_BIND_NONE
         P.MEM_BIND_RANK P.MEM_BIND_MAPCPU P.MEM_BIND_MASKCPU).toList),
     .set "SLURM_MEM_BIND_LIST" (bind_list_fmt e.mem_bind)]
  else
    [.unset "SLURM_MEM_BIND",
     .set "SLURM_MEM_BIND_VERBOSE" (.plain "quiet".toList),
     .set "SLURM_MEM_BIND_TYPE" (.plain []),
     .set "SLURM_MEM_BIND_LIST" (.plain [])]

/-- Calls of lines 410-429. -/
def select_call_list (e : env_t) : List Call :=
  match e.select_jobinfo with
  | some (some bgl_part_id) =>
    [.set "MPIRUN_PARTITION" (.s bgl_part_id),
     .set "MPIRUN_NOFREE" (.d 1),
     .set "MPIRUN_NOALLOCATE" (.d 1)]
  | _ => []

/-- Calls of lines 491-503. -/
def cli_call_list (e : env_t) : List Call :=
  match e.cli with
  | some addrbuf => [.set "SLURM_LAUNCH_NODE_IPADDR" (.s (addrbuf.takeWhile (· ≠ ':')))]
  | none => []

/-- Calls of lines 505-527. -/
def aix_call_list (P : Platform) : List Call :=
  if P.HAVE_AIX then
    [.set "MP_POERESTART_ENV"
       (.plain (("SLURM_LL_API_DEBUG=".toList ++ fmt_d P.debug_num).take 127)),
     .set "LOADLBATCH" (.plain "yes".toList),
     .set "LOADL_ACTIVE" (.plain "3.2.0".toList)]
  else []

/-- The calls that a run of `setup_env` makes on `env->env`, in order. -/
def setup_calls (P : Platform) (e : env_t) : List Call :=
  calls_if (e.task_pid ≠ 0) "SLURM_TASK_PID" (.d e.task_pid) ++
  (calls_if (e.nprocs ≠ 0) "SLURM_NPROCS" (.d e.nprocs) ++
  (calls_if (e.cpus_per_task ≠ 0) "SLURM_CPUS_PER_TASK" (.d e.cpus_per_task) ++
  (calls_if (e.cpus_on_node ≠ 0) "SLURM_CPUS_ON_NODE" (.d e.cpus_on_node) ++
  (calls_if (e.distribution ≥ 0) "SLURM_DISTRIBUTION"
      (.s (dist_text P e.distribution).toList) ++
  (cpu_bind_call_list P e ++
  (mem_bind_call_list P e ++
  (calls_if (e.overcommit ≠ 0) "SLURM_OVERCOMMIT" (.plain "1".toList) ++
  (calls_if (e.slurmd_debug ≠ 0) "SLURMD_DEBUG" (.d e.slurmd_debug) ++
  (calls_if (e.labelio ≠ 0) "SLURM_LABELIO" (.plain "1".toList) ++
  (select_call_list e ++
  (calls_if (e.jobid ≥ 0) "SLURM_JOBID" (.d e.jobid) ++
  (calls_if (e.nodeid ≥ 0) "SLURM_NODEID" (.d e.nodeid) ++
  (calls_if (e.procid ≥ 0) "SLURM_PROCID" (.d e.procid) ++
  (calls_if (e.localid ≥ 0) "SLURM_LOCALID" (.d e.localid) ++
  (calls_if (e.stepid ≥ 0) "SLURM_STEPID" (.d e.stepid) ++
  (calls_if (e.nhosts ≠ 0) "SLURM_NNODES" (.d e.nhosts) ++
  (calls_if e.nodelist.isSome "SLURM_NODELIST" (.s (e.nodelist.getD [])) ++
  (calls_if e.task_count.isSome "SLURM_TASKS_PER_NODE" (.s (e.task_count.getD [])) ++
  (calls_if (e.comm_port ≠ 0) "SLURM_SRUN_COMM_PORT" (.u e.comm_port) ++
  (calls_if e.comm_hostname.isSome "SLURM_SRUN_COMM_HOST"
      (.s (e.comm_hostname.getD [])) ++
  (cli_call_list e ++
  aix_call_list P)))))))))))))))))))))

/-- The statement `f` leaves in `env->env` what the calls `cs` leave there,
fault for fault. -/
def Exact (P : Platform) (f : Run → Except Fault Run) (cs : List Call) : Prop :=
  ∀ r : Run, (f r).map (fun r1 => r1.env) = run_calls P r.env cs

/-- The entries `es` show the effect of the call: for an assignment its
string is among them, for a removal none of them is for its name. -/
def settled (P : Platform) (es : List CStr) : Call → Prop
  | .set n f => ∃ v, vsnprintf P.BUFSIZ f = .ok v ∧ compose n.toList v ∈ es
  | .unset n => ∀ x ∈ es, ¬ is_entry_for n.toList x

/-- Calls with the same variable name are the same call, and every name is
among `names`. -/
def distinct_calls (cs : List Call) (names : List String) : Prop :=
  (∀ c1 ∈ cs, ∀ c2 ∈ cs, c1.name = c2.name → c1 = c2) ∧ ∀ c ∈ cs, c.name ∈ names

/-- The variable names of the calls of `setup_env`. -/
def setup_call_names : List String :=
  ["SLURM_TASK_PID", "SLURM_NPROCS", "SLURM_CPUS_PER_TASK", "SLURM_CPUS_ON_NODE",
   "SLURM_DISTRIBUTION", "SLURM_CPU_BIND", "SLURM_CPU_BIND_VERBOSE", "SLURM_CPU_BIND_TYPE",
   "SLURM_CPU_BIND_LIST", "SLURM_MEM_BIND", "SLURM_MEM_BIND_VERBOSE", "SLURM_MEM_BIND_TYPE",
   "SLURM_MEM_BIND_LIST", "SLURM_OVERCOMMIT", "SLURMD_DEBUG", "SLURM_LABELIO",
   "MPIRUN_PARTITION", "MPIRUN_NOFREE", "MPIRUN_NOALLOCATE", "SLURM_JOBID", "SLURM_NODEID",
   "SLURM_PROCID", "SLURM_LOCALID", "SLURM_STEPID", "SLURM_NNODES", "SLURM_NODELIST",
   "SLURM_TASKS_PER_NODE", "SLURM_SRUN_COMM_PORT", "SLURM_SRUN_COMM_HOST",
   "SLURM_LAUNCH_NODE_IPADDR", "MP_POERESTART_ENV", "LOADLBATCH", "LOADL_ACTIVE"]

/-- The statement `f` only adds to the diagnostics: what was logged before a
completed run of it is still logged afterwards. -/
def keeps_log (f : Run → Except Fault Run) : Prop :=
  ∀ r r1 : Run, f r = .ok r1 → ∀ m ∈ r.log, m ∈ r1.log

/-! ## Lemmas on strings and on the match test -/

theorem charAt_nil (i : Nat) : charAt [] i = NUL := by
  simp [charAt]

theorem charAt_cons_succ (c : Char) (s : CStr) (i : Nat) :
    charAt (c :: s) (i + 1) = charAt s i := by
  simp [charAt]

theorem charAt_cons_zero (c : Char) (s : CStr) : charAt (c :: s) 0 = c := by
  simp [charAt]

theorem eq_char_ne_NUL : ('=' : Char) ≠ NUL := by decide

/-- For a name without NUL byte, the test of `_find_name_in_env` succeeds on
exactly the entries that start with the bytes of the name followed by `=`. -/
theorem name_matches_iff (name : CStr) (hname : NUL ∉ name) (e : CStr) :
    name_matches e name = true ↔ is_entry_for name e := by
  induction name generalizing e with
  | nil =>
    cases e with
    | nil =>
      simp [name_matches, match_cnt, charAt_nil, is_entry_for]
      exact fun h => eq_char_ne_NUL h.symm
    | cons c e =>
      simp [name_matches, match_cnt, charAt_nil, charAt_cons_zero, is_entry_for]
      exact eq_comm
  | cons d n ih =>
    have hd : d ≠ NUL := fun h => hname (by simp [h])
    have hn : NUL ∉ n := fun h => hname (by simp [h])
    cases e with
    | nil =>
      simp [name_matches, match_cnt, charAt_cons_zero, is_entry_for, hd]
    | cons c e =>
      by_cases hcd : c = d
      · subst hcd
        have := ih hn e
        simp only [name_matches, is_entry_for] at this ⊢
        simp [match_cnt, hd, charAt_cons_succ, this]
      · simp [name_matches, match_cnt, hcd, charAt_cons_zero, hd, is_entry_for]
        intro h; exact fun _ => hcd h.symm

theorem name_matches_false_iff (name : CStr) (hname : NUL ∉ name) (e : CStr) :
    name_matches e name = false ↔ ¬ is_entry_for name e := by
  rw [← name_matches_iff name hname e]; simp

theorem is_entry_for_compose (name v : CStr) : is_entry_for name (compose name v) := by
  refine ⟨v, ?_⟩
  simp [compose]

theorem is_entry_for_iff (name e : CStr) :
    is_entry_for name e ↔ ∃ v, e = compose name v := by
  constructor
  · rintro ⟨v, hv⟩
    exact ⟨v, by simp [compose, ← hv]⟩
  · rintro ⟨v, rfl⟩
    exact is_entry_for_compose name v

/-! ## Lemmas on `_find_name_in_env` and `envcount` -/

theorem find_absent (name : CStr) (es : List CStr) (rest : Env)
    (h : ∀ e ∈ es, name_matches e name = false) :
    _find_name_in_env (es.map some ++ none :: rest) name = .ok es.length := by
  induction es with
  | nil => simp [_find_name_in_env]
  | cons e es ih =>
    have he : name_matches e name = false := h e (by simp)
    have ih2 := ih (fun x hx => h x (by simp [hx]))
    simp [_find_name_in_env, he, ih2, Except.map]

theorem find_present (name : CStr) (es : List CStr) (e0 : CStr) (rest : Env)
    (h : ∀ e ∈ es, name_matches e name = false) (h0 : name_matches e0 name = true) :
    _find_name_in_env (es.map some ++ some e0 :: rest) name = .ok es.length := by
  induction es with
  | nil => simp [_find_name_in_env, h0]
  | cons e es ih =>
    have he : name_matches e name = false := h e (by simp)
    have ih2 := ih (fun x hx => h x (by simp [hx]))
    simp [_find_name_in_env, he, ih2, Except.map]

theorem find_sound (name : CStr) (env : Env) (i : Nat) (e : CStr)
    (h : _find_name_in_env env name = .ok i) (hi : env[i]? = some (some e)) :
    name_matches e name = true := by
  induction env generalizing i with
  | nil => simp [_find_name_in_env] at h
  | cons s env ih =>
    cases s with
    | none =>
      simp [_find_name_in_env] at h
      subst h
      simp at hi
    | some e1 =>
      by_cases h1 : name_matches e1 name = true
      · simp [_find_name_in_env, h1] at h
        subst h
        simp at hi
        subst hi
        exact h1
      · simp [_find_name_in_env, h1] at h
        cases hf : _find_name_in_env env name with
        | error f => simp [hf, Except.map] at h
        | ok j =>
          simp [hf, Except.map] at h
          subst h
          simp at hi
          exact ih j hf hi

theorem envcount_entries (es : List CStr) (rest : Env) :
    envcount (es.map some ++ none :: rest) = .ok es.length := by
  induction es with
  | nil => simp [envcount]
  | cons e es ih => simp [envcount, ih, Except.map]

/-! ## Lemmas on `getenvp` -/

theorem lookup_absent (name : CStr) (es : List CStr)
    (h : ∀ e ∈ es, name_matches e name = false) : lookup name es = none := by
  induction es with
  | nil => rfl
  | cons e es ih =>
    simp [lookup, h e (by simp), ih (fun x hx => h x (by simp [hx]))]

theorem lookup_present (name : CStr) (es : List CStr) (e0 : CStr) (post : List CStr)
    (h : ∀ e ∈ es, name_matches e name = false) (h0 : name_matches e0 name = true) :
    lookup name (es ++ e0 :: post) = some (e0.drop (name.length + 1)) := by
  induction es with
  | nil => simp [lookup, h0]
  | cons e es ih =>
    simp [lookup, h e (by simp), ih (fun x hx => h x (by simp [hx]))]

/-- Entries either all fail the match test or split at the first one that
passes it. -/
theorem first_match_cases (name : CStr) (es : List CStr) :
    (∀ e ∈ es, name_matches e name = false) ∨
    ∃ pre e0 post, es = pre ++ e0 :: post ∧
      (∀ e ∈ pre, name_matches e name = false) ∧ name_matches e0 name = true := by
  induction es with
  | nil => left; simp
  | cons e es ih =>
    by_cases he : name_matches e name = true
    · right; exact ⟨[], e, es, rfl, by simp, he⟩
    · have he2 : name_matches e name = false := by simpa using he
      rcases ih with h | ⟨pre, e0, post, rfl, hpre, h0⟩
      · left
        intro x hx
        rcases List.mem_cons.mp hx with rfl | hx
        · exact he2
        · exact h x hx
      · right
        refine ⟨e :: pre, e0, post, rfl, ?_, h0⟩
        intro x hx
        rcases List.mem_cons.mp hx with rfl | hx
        · exact he2
        · exact hpre x hx

theorem getElem?_entries_length (es : List CStr) (x : Option CStr) (rest : Env) :
    (es.map some ++ x :: rest)[es.length]? = some x := by
  rw [List.getElem?_append_right (by simp)]
  simp

theorem getenvp_entries (name : CStr) (es : List CStr) (rest : Env) :
    getenvp (some (es.map some ++ none :: rest)) name = .ok (lookup name es) := by
  cases es with
  | nil => simp [getenvp, lookup]
  | cons e1 es1 =>
    rcases first_match_cases name (e1 :: es1) with h | ⟨pre, e0, post, hsplit, hpre, h0⟩
    · have hf := find_absent name (e1 :: es1) rest h
      simp only [List.map_cons, List.cons_append] at hf
      have hg := getElem?_entries_length (e1 :: es1) none rest
      simp only [List.map_cons, List.cons_append] at hg
      simp only [getenvp, List.map_cons, List.cons_append, hf, lookup_absent name _ h,
        bind, Except.bind, hg]
      rfl
    · have hf := find_present name pre e0 (post.map some ++ none :: rest) hpre h0
      have hlist : (e1 :: es1).map some ++ none :: rest
          = pre.map some ++ some e0 :: (post.map some ++ none :: rest) := by
        rw [hsplit]; simp
      have hlook := lookup_present name pre e0 post hpre h0
      rw [← hsplit] at hlook
      rw [hlook]
      simp only [List.map_cons, List.cons_append] at hlist
      simp only [getenvp, List.map_cons, List.cons_append]
      rw [hlist, hf]
      simp only [bind, Except.bind, getElem?_entries_length]
      rfl

/-! ## Lemmas on `_extend_env` and `setenvf` -/

theorem getElem?_entries_lt (es : List CStr) (t : Env) (i : Nat) (h : i < es.length) :
    (es.map some ++ t)[i]? = some (some (es.get ⟨i, h⟩)) := by
  rw [List.getElem?_append_left (by simpa using h)]
  simp

theorem getElem?_entries_nulls (es : List CStr) (m j : Nat) (h : j < m) :
    (es.map some ++ List.replicate m none)[es.length + j]? = some none := by
  rw [List.getElem?_append_right (by simp)]
  simp [h]

/-- On entries followed by NULL slots the backward scan stops at the last
entry, from any start at or after it. -/
theorem scan_back_entries (es : List CStr) (e : CStr) (m j : Nat) (h : j ≤ m) :
    scan_back ((es ++ [e]).map some ++ List.replicate m none) (es.length + j)
      = .ok es.length := by
  induction j with
  | zero =>
    obtain ⟨x, hx⟩ : ∃ x, ((es ++ [e]).map some ++ List.replicate m none)[es.length]?
        = some (some x) :=
      ⟨_, getElem?_entries_lt (es ++ [e]) (List.replicate m none) es.length (by simp)⟩
    generalize es.length = n at hx
    cases n with
    | zero => simp only [Nat.add_zero, scan_back, hx]
    | succ n => simp only [Nat.add_zero, scan_back, hx]
  | succ j ih =>
    have hg := getElem?_entries_nulls (es ++ [e]) m j (by omega)
    have hidx : (es ++ [e]).length + j = es.length + j + 1 := by
      simp only [List.length_append, List.length_singleton]; omega
    rw [hidx] at hg
    show scan_back _ (es.length + j + 1) = _
    simp only [scan_back, hg]
    exact ih (by omega)

theorem length_vector_of (es : List CStr) (k : Nat) :
    (vector_of es k).length = es.length + k + 1 := by
  simp only [vector_of, List.length_append, List.length_map, List.length_replicate]
  omega

theorem extend_env_vector (es : List CStr) (e : CStr) (k : Nat) :
    _extend_env (vector_of (es ++ [e]) k)
      = .ok (vector_of (es ++ [e]) (k + 1), es.length + 1) := by
  have hl := length_vector_of (es ++ [e]) k
  simp only [List.length_append, List.length_singleton] at hl
  have hlen : (vector_of (es ++ [e]) k).length + 1 - 2 = es.length + (k + 1) := by
    omega
  have happ : vector_of (es ++ [e]) k ++ [none] = vector_of (es ++ [e]) (k + 1) := by
    simp [vector_of, List.replicate_succ']
  have hscan := scan_back_entries es e (k + 1 + 1) (k + 1) (by omega)
  have hlt : ¬ (vector_of (es ++ [e]) k).length + 1 < 2 := by
    omega
  simp only [_extend_env, hlt, if_false, hlen, happ]
  unfold vector_of
  rw [hscan]
  rfl

theorem set_entry_absent (name str : CStr) (es : List CStr)
    (h : ∀ e ∈ es, name_matches e name = false) :
    set_entry name str es = es ++ [str] := by
  induction es with
  | nil => rfl
  | cons e es ih =>
    simp [set_entry, h e (by simp), ih (fun x hx => h x (by simp [hx]))]

theorem set_entry_present (name str : CStr) (pre : List CStr) (e0 : CStr)
    (post : List CStr) (h : ∀ e ∈ pre, name_matches e name = false)
    (h0 : name_matches e0 name = true) :
    set_entry name str (pre ++ e0 :: post) = pre ++ str :: post := by
  induction pre with
  | nil => simp [set_entry, h0]
  | cons e es ih =>
    simp [set_entry, h e (by simp), ih (fun x hx => h x (by simp [hx]))]

theorem set_entries_length (pre : List CStr) (x y : Option CStr) (t : Env) :
    (pre.map some ++ x :: t).set pre.length y = pre.map some ++ y :: t := by
  induction pre with
  | nil => rfl
  | cons e es ih => simp [ih]

/-- When some entry matches, `setenvf` overwrites the first match in place;
this holds on every array, whatever follows the match. -/
theorem setenvf_vector_present (name str : CStr) (pre : List CStr) (e0 : CStr)
    (rest : Env) (h : ∀ e ∈ pre, name_matches e name = false)
    (h0 : name_matches e0 name = true) :
    setenvf_vector (pre.map some ++ some e0 :: rest) name str
      = .ok (pre.map some ++ some str :: rest) := by
  simp only [setenvf_vector, find_present name pre e0 rest h h0, bind, Except.bind,
    getElem?_entries_length, set_entries_length]
  rfl

/-- When no entry matches and there is at least one entry, `setenvf` stores
the new string right after the last entry and the array grows by one slot. -/
theorem setenvf_vector_absent (name str : CStr) (es : List CStr) (e : CStr) (k : Nat)
    (h : ∀ x ∈ es ++ [e], name_matches x name = false) :
    setenvf_vector (vector_of (es ++ [e]) k) name str
      = .ok (vector_of (es ++ [e] ++ [str]) k) := by
  have hf := find_absent name (es ++ [e]) (List.replicate k none) h
  have hv : vector_of (es ++ [e]) k
      = (es ++ [e]).map some ++ none :: List.replicate k none := by
    simp [vector_of, List.replicate_succ]
  have hg := getElem?_entries_length (es ++ [e]) none (List.replicate k none)
  have hset : (vector_of (es ++ [e]) (k + 1)).set (es.length + 1) (some str)
      = vector_of (es ++ [e] ++ [str]) k := by
    have := set_entries_length (es ++ [e]) none (some str) (List.replicate (k + 1) none)
    simp only [List.length_append, List.length_singleton] at this
    simp only [vector_of, List.replicate_succ (n := k + 1)]
    rw [this]
    simp
  have hfind : _find_name_in_env (vector_of (es ++ [e]) k) name
      = .ok (es ++ [e]).length := by rw [hv]; exact hf
  have hget : (vector_of (es ++ [e]) k)[(es ++ [e]).length]? = some none := by
    rw [hv]; exact hg
  simp only [setenvf_vector, hfind, bind, Except.bind, hget, extend_env_vector, pure,
    Except.pure, hset]

/-- The vector branch of `setenvf` on a vector with at least one entry. -/
theorem setenvf_vector_entries (name str : CStr) (es : List CStr) (k : Nat)
    (hes : es ≠ []) :
    setenvf_vector (vector_of es k) name str = .ok (vector_of (set_entry name str es) k) := by
  rcases first_match_cases name es with h | ⟨pre, e0, post, rfl, hpre, h0⟩
  · obtain ⟨es1, e, rfl⟩ : ∃ es1 e, es = es1 ++ [e] :=
      ⟨es.dropLast, es.getLast hes, (List.dropLast_append_getLast hes).symm⟩
    rw [setenvf_vector_absent name str es1 e k h, set_entry_absent name str _ h]
  · rw [set_entry_present name str pre e0 post hpre h0]
    have := setenvf_vector_present name str pre e0
      (post.map some ++ List.replicate (k + 1) none) hpre h0
    simpa [vector_of] using this

theorem setenvf_entries (P : Platform) (name : CStr) (fmt : Fmt) (value : CStr)
    (es : List CStr) (k : Nat) (hes : es ≠ [])
    (hfmt : vsnprintf P.BUFSIZ fmt = .ok value) :
    setenvf P (some (vector_of es k)) name fmt
      = .ok { env := some (vector_of (set_entry name (compose name value) es) k),
              put := none, rc := 0 } := by
  simp only [setenvf, hfmt, bind, Except.bind, setenvf_vector_entries name _ es k hes]
  rfl

theorem vsnprintf_s (size : Nat) (value : CStr) (h : value.length < size) :
    vsnprintf size (.s value) = .ok value := by
  simp only [vsnprintf]
  rw [List.take_of_length_le (by omega)]

/-! ## Lemmas on `unsetenvp` -/

theorem remove_skip_cons_false (name e : CStr) (es : List CStr)
    (he : name_matches e name = false) :
    remove_skip name (e :: es) = e :: remove_skip name es := by
  cases es with
  | nil => simp [remove_skip, he]
  | cons x rest => simp [remove_skip, he]

theorem remove_skip_length_le_aux (name : CStr) (n : Nat) :
    ∀ es : List CStr, es.length ≤ n → (remove_skip name es).length ≤ es.length := by
  induction n with
  | zero =>
    intro es h
    cases es with
    | nil => simp [remove_skip]
    | cons e es => simp at h
  | succ n ih =>
    intro es h
    cases es with
    | nil => simp [remove_skip]
    | cons e es =>
      by_cases he : name_matches e name = true
      · cases es with
        | nil => simp [remove_skip, he]
        | cons x rest =>
          have := ih rest (by simp at h; omega)
          simp only [remove_skip, he, if_true, List.length_cons]
          omega
      · have := ih es (by simp at h; omega)
        have he2 : name_matches e name = false := by simpa using he
        rw [remove_skip_cons_false name e es he2]
        simpa using this

theorem remove_skip_length_le (name : CStr) (es : List CStr) :
    (remove_skip name es).length ≤ es.length :=
  remove_skip_length_le_aux name es.length es (Nat.le_refl _)

theorem shift_down_entries (x : Option CStr) (post : List CStr) (m : Nat) :
    shift_down (x :: (post.map some ++ List.replicate (m + 1) none))
      = .ok (post.map some ++ List.replicate (m + 2) none) := by
  induction post generalizing x with
  | nil => simp [shift_down, List.replicate_succ]
  | cons p ps ih =>
    simp only [List.map_cons, List.cons_append]
    rw [shift_down, ih]
    rfl

theorem drop_length_append (A T : Env) : (A ++ T).drop A.length = T := by
  simp

theorem take_length_append (A T : Env) : (A ++ T).take A.length = A := by
  simp

theorem getElem?_length_append (A : Env) (x : Option CStr) (T : Env) :
    (A ++ x :: T)[A.length]? = some x := by
  rw [List.getElem?_append_right (by simp)]
  simp

/-- An entry that does not match is stepped over: starting the loop of
`unsetenvp` at it or right after it gives the same result. -/
theorem unsetenvp_loop_skip (name : CStr) (fuel : Nat) (A : Env) (e : CStr) (T : Env)
    (he : name_matches e name = false) :
    unsetenvp_loop name fuel (A ++ some e :: T) A.length
      = unsetenvp_loop name fuel (A ++ some e :: T) (A.length + 1) := by
  cases fuel with
  | zero => rfl
  | succ f =>
    have hd1 : (A ++ some e :: T).drop A.length = some e :: T := drop_length_append A _
    have hd2 : (A ++ some e :: T).drop (A.length + 1) = T := by
      have := drop_length_append (A ++ [some e]) T
      simpa using this
    have hfind : _find_name_in_env (some e :: T) name
        = (_find_name_in_env T name).map (· + 1) := by
      simp [_find_name_in_env, he]
    simp only [unsetenvp_loop, hd1, hd2, hfind]
    cases hf : _find_name_in_env T name with
    | error f1 => rfl
    | ok k =>
      have hk : A.length + (k + 1) = A.length + 1 + k := by omega
      simp only [Except.map, bind, Except.bind, hk]

theorem unsetenvp_loop_entries_aux (name : CStr) (n : Nat) :
    ∀ (todo : List CStr) (A : Env) (m fuel : Nat), todo.length ≤ n → todo.length < fuel →
    unsetenvp_loop name fuel (A ++ (todo.map some ++ List.replicate (m + 1) none)) A.length
      = .ok (A ++ ((remove_skip name todo).map some ++
          List.replicate (m + 1 + todo.length - (remove_skip name todo).length) none)) := by
  have hnil : ∀ (A : Env) (m fuel : Nat), 0 < fuel →
      unsetenvp_loop name fuel (A ++ (([] : List CStr).map some ++ List.replicate (m + 1) none))
        A.length
      = .ok (A ++ ((remove_skip name []).map some ++
          List.replicate (m + 1 + ([] : List CStr).length - (remove_skip name []).length) none)) := by
    intro A m fuel hfuel
    obtain ⟨f, rfl⟩ : ∃ f, fuel = f + 1 := ⟨fuel - 1, by omega⟩
    have hd : (A ++ (([] : List CStr).map some ++ List.replicate (m + 1) none)).drop A.length
        = none :: List.replicate m none := by
      rw [drop_length_append]; simp [List.replicate_succ]
    have hg : (A ++ (([] : List CStr).map some ++ List.replicate (m + 1) none))[A.length + 0]?
        = some none := by
      have := getElem?_length_append A none (List.replicate m none)
      simpa [List.replicate_succ] using this
    simp only [unsetenvp_loop, hd, _find_name_in_env, bind, Except.bind, hg]
    simp [remove_skip, pure, Except.pure]
  induction n with
  | zero =>
    intro todo A m fuel hn hfuel
    cases todo with
    | nil => exact hnil A m fuel hfuel
    | cons e es => simp at hn
  | succ n ih =>
    intro todo A m fuel hn hfuel
    cases todo with
    | nil => exact hnil A m fuel hfuel
    | cons e es =>
      by_cases he : name_matches e name = true
      · obtain ⟨f, rfl⟩ : ∃ f, fuel = f + 1 := ⟨fuel - 1, by omega⟩
        have hd : (A ++ ((e :: es).map some ++ List.replicate (m + 1) none)).drop A.length
            = some e :: (es.map some ++ List.replicate (m + 1) none) := by
          rw [drop_length_append]; simp
        have hg : (A ++ ((e :: es).map some ++ List.replicate (m + 1) none))[A.length + 0]?
            = some (some e) := by
          have := getElem?_length_append A (some e) (es.map some ++ List.replicate (m + 1) none)
          simpa using this
        have ht : (A ++ ((e :: es).map some ++ List.replicate (m + 1) none)).take (A.length + 0)
            = A := by
          simp
        have hd0 : (A ++ ((e :: es).map some ++ List.replicate (m + 1) none)).drop (A.length + 0)
            = some e :: (es.map some ++ List.replicate (m + 1) none) := by
          simp
        simp only [unsetenvp_loop, hd, _find_name_in_env, he, if_true, bind, Except.bind, hg,
          ht, hd0, shift_down_entries]
        cases es with
        | nil =>
          have hA : A ++ (([] : List CStr).map some ++ List.replicate (m + 2) none)
              = (A ++ [none]) ++ (([] : List CStr).map some ++ List.replicate (m + 1) none) := by
            simp [List.replicate_succ]
          have hlen : A.length + 0 + 1 = (A ++ [none]).length := by simp
          rw [hA, hlen, hnil (A ++ [none]) m f (by simp at hfuel; omega)]
          simp [remove_skip, he, List.replicate_succ]
        | cons x rest =>
          have hA : A ++ ((x :: rest).map some ++ List.replicate (m + 2) none)
              = (A ++ [some x]) ++ (rest.map some ++ List.replicate (m + 1 + 1) none) := by
            simp
          have hlen : A.length + 0 + 1 = (A ++ [some x]).length := by simp
          have hle := remove_skip_length_le name rest
          rw [hA, hlen, ih rest (A ++ [some x]) (m + 1) f (by simp at hn; omega)
            (by simp at hfuel; omega)]
          have hcnt : m + 1 + 1 + rest.length - (remove_skip name rest).length
              = m + 1 + (e :: x :: rest).length - (x :: remove_skip name rest).length := by
            simp only [List.length_cons]; omega
          simp only [remove_skip, he, if_true, hcnt]
          simp
      · have he2 : name_matches e name = false := by simpa using he
        have hA : A ++ ((e :: es).map some ++ List.replicate (m + 1) none)
            = A ++ some e :: (es.map some ++ List.replicate (m + 1) none) := by simp
        have hB : A ++ some e :: (es.map some ++ List.replicate (m + 1) none)
            = (A ++ [some e]) ++ (es.map some ++ List.replicate (m + 1) none) := by simp
        have hlen : A.length + 1 = (A ++ [some e]).length := by simp
        have hle := remove_skip_length_le name es
        rw [hA, unsetenvp_loop_skip name fuel A e _ he2, hB, hlen,
          ih es (A ++ [some e]) m fuel (by simp at hn; omega) (by simp at hfuel; omega)]
        have hcnt : m + 1 + es.length - (remove_skip name es).length
            = m + 1 + (e :: es).length - (e :: remove_skip name es).length := by
          simp only [List.length_cons]; omega
        rw [remove_skip_cons_false name e es he2, ← hcnt]
        simp

/-- The loop of `unsetenvp` started at the first of the entries `todo`, which
are followed by NULL slots only: it ends within the budget, and leaves
`remove_skip name todo` in their place, with one more NULL slot for each entry
dropped. -/
theorem unsetenvp_loop_entries (name : CStr) (todo : List CStr) (A : Env) (m fuel : Nat)
    (hfuel : todo.length < fuel) :
    unsetenvp_loop name fuel (A ++ (todo.map some ++ List.replicate (m + 1) none)) A.length
      = .ok (A ++ ((remove_skip name todo).map some ++
          List.replicate (m + 1 + todo.length - (remove_skip name todo).length) none)) :=
  unsetenvp_loop_entries_aux name todo.length todo A m fuel (Nat.le_refl _) hfuel

/-- The call `unsetenvp(env, name)` on a vector: it returns, and the entries
are `remove_skip name es`, followed by the old NULL slots and one more for
each entry dropped. -/
theorem unsetenvp_entries (name : CStr) (es : List CStr) (k : Nat) :
    unsetenvp (some (vector_of es k)) name
      = .ok (some (vector_of (remove_skip name es)
          (k + es.length - (remove_skip name es).length))) := by
  have h := unsetenvp_loop_entries name es [] k ((vector_of es k).length + 1)
    (by rw [length_vector_of]; omega)
  have hle := remove_skip_length_le name es
  have hcnt : k + 1 + es.length - (remove_skip name es).length
      = k + es.length - (remove_skip name es).length + 1 := by omega
  simp only [List.nil_append, List.length_nil] at h
  simp only [unsetenvp, vector_of] at h ⊢
  rw [h, hcnt]
  rfl

/-! ## C1: `_find_name_in_env` -/

/-- C1. For a name (a C string, so without NUL byte) and entries `es` none of
which consists of the bytes of the name followed by `=`:
`_find_name_in_env` returns the index `es.length` when the slot after `es`
holds an entry `name=v`, whatever follows it (the first such entry is found);
it returns the index of the terminator slot, which is `envcount`, when the
slot after `es` is the NULL terminator; and a slot it returns never holds an
entry whose variable name extends the name by further bytes, such as
`FOOBAR=1` for the name `FOO`. -/
theorem C1_find_name_in_env (name : CStr) (hname : NUL ∉ name) (es : List CStr)
    (hes : ∀ e ∈ es, ¬ is_entry_for name e) :
    (∀ (v : CStr) (rest : Env),
      _find_name_in_env (es.map some ++ some (name ++ '=' :: v) :: rest) name
        = .ok es.length) ∧
    (∀ rest : Env,
      _find_name_in_env (es.map some ++ none :: rest) name = .ok es.length ∧
      envcount (es.map some ++ none :: rest) = .ok es.length) ∧
    (∀ (env : Env) (i : Nat) (ext v : CStr), ext ≠ [] → '=' ∉ ext →
      _find_name_in_env env name = .ok i →
      env[i]? ≠ some (some (name ++ ext ++ '=' :: v))) := by
  have hb : ∀ e ∈ es, name_matches e name = false :=
    fun e he => (name_matches_false_iff name hname e).mpr (hes e he)
  refine ⟨?_, ?_, ?_⟩
  · intro v rest
    exact find_present name es _ rest hb
      ((name_matches_iff name hname _).mpr (is_entry_for_compose name v))
  · intro rest
    exact ⟨find_absent name es rest hb, envcount_entries es rest⟩
  · intro env i ext v hext heq hfind hslot
    have hm := find_sound name env i _ hfind hslot
    rw [name_matches_iff name hname] at hm
    obtain ⟨t, ht⟩ := hm
    cases ext with
    | nil => exact hext rfl
    | cons c ext =>
      have h2 : name ++ ('=' :: t) = name ++ (c :: (ext ++ '=' :: v)) := by
        simpa using ht
      have h3 := List.append_cancel_left h2
      simp only [List.cons.injEq] at h3
      exact heq (by simp [← h3.1])

/-- C1 at the name `FOO` in the vector `FOOBAR=1`, `FOO=2`, NULL: the entry
`FOOBAR=1` is passed over and index 1 is returned. -/
theorem C1_find_name_in_env_witness :
    NUL ∉ "FOO".toList ∧
    _find_name_in_env [some "FOOBAR=1".toList, some "FOO=2".toList, none] "FOO".toList
      = .ok 1 :=
  ⟨by decide,
   (C1_find_name_in_env "FOO".toList (by decide) ["FOOBAR=1".toList] (by decide)).1
      "2".toList [none]⟩

/-! ## C7: `getenvp` -/

theorem getenvp_present (name : CStr) (pre : List CStr) (e0 : CStr) (rest : Env)
    (h : ∀ e ∈ pre, name_matches e name = false) (h0 : name_matches e0 name = true) :
    getenvp (some (pre.map some ++ some e0 :: rest)) name
      = .ok (some (e0.drop (name.length + 1))) := by
  have hf := find_present name pre e0 rest h h0
  have hg := getElem?_entries_length pre (some e0) rest
  cases pre with
  | nil =>
    simp only [List.map_nil, List.nil_append, List.length_nil] at hf hg ⊢
    simp only [getenvp, hf, bind, Except.bind, hg]
    rfl
  | cons p ps =>
    simp only [List.map_cons, List.cons_append] at hf hg ⊢
    simp only [getenvp, hf, bind, Except.bind, hg]
    rfl

/-- C7. For a name (a C string, so without NUL byte): `getenvp` returns NULL
when `env` is NULL, when the vector is empty (its first slot is NULL) and when
none of the entries before the terminator consists of the name followed by
`=`; and when the first entry that does is `name=v`, it returns `v`, the bytes
after the `=` at position `strlen(name)`. -/
theorem C7_getenvp (name : CStr) (hname : NUL ∉ name) :
    getenvp none name = .ok none ∧
    (∀ rest : Env, getenvp (some (none :: rest)) name = .ok none) ∧
    (∀ (es : List CStr) (rest : Env), (∀ e ∈ es, ¬ is_entry_for name e) →
      getenvp (some (es.map some ++ none :: rest)) name = .ok none) ∧
    (∀ (pre : List CStr) (v : CStr) (rest : Env), (∀ e ∈ pre, ¬ is_entry_for name e) →
      getenvp (some (pre.map some ++ some (name ++ '=' :: v) :: rest)) name
        = .ok (some v)) := by
  refine ⟨rfl, fun _ => rfl, ?_, ?_⟩
  · intro es rest hes
    have hb : ∀ e ∈ es, name_matches e name = false :=
      fun e he => (name_matches_false_iff name hname e).mpr (hes e he)
    rw [getenvp_entries, lookup_absent name es hb]
  · intro pre v rest hpre
    have hb : ∀ e ∈ pre, name_matches e name = false :=
      fun e he => (name_matches_false_iff name hname e).mpr (hpre e he)
    have h0 : name_matches (name ++ '=' :: v) name = true :=
      (name_matches_iff name hname _).mpr (is_entry_for_compose name v)
    rw [getenvp_present name pre _ rest hb h0]
    simp

/-- C7 at the name `FOO`: in the vector `FOOBAR=1`, `FOO=bar`, `FOO=baz`, NULL
the value of the first matching entry, `bar`, is returned. -/
theorem C7_getenvp_witness :
    NUL ∉ "FOO".toList ∧
    getenvp (some [some "FOOBAR=1".toList, some "FOO=bar".toList, some "FOO=baz".toList,
      none]) "FOO".toList = .ok (some "bar".toList) :=
  ⟨by decide,
   (C7_getenvp "FOO".toList (by decide)).2.2.2 ["FOOBAR=1".toList] "bar".toList
      [some "FOO=baz".toList, none] (by decide)⟩

/-! ## C3: `unsetenvp` followed by `getenvp` -/

/-- C3 (the code departs from the claim). In the vector `FOO=1`, `FOO=2`,
NULL the call `unsetenvp(env, "FOO")` removes the first entry only: after the
slots are shifted down `ep` is advanced past the slot that now holds `FOO=2`.
The entry stays and `getenvp(env, "FOO")` returns `2`. -/
theorem C3_unsetenvp_keeps_adjacent_duplicate :
    unsetenvp (some [some "FOO=1".toList, some "FOO=2".toList, none]) "FOO".toList
      = .ok (some [some "FOO=2".toList, none, none]) ∧
    getenvp (some [some "FOO=2".toList, none, none]) "FOO".toList
      = .ok (some "2".toList) := by
  decide

/-! ## C2: values set under distinct names are read back -/

theorem set_entry_ne_nil (name str : CStr) (es : List CStr) :
    set_entry name str es ≠ [] := by
  cases es with
  | nil => simp [set_entry]
  | cons e es =>
    by_cases he : name_matches e name = true
    · simp [set_entry, he]
    · simp [set_entry, he]

theorem setenvf_seq_entries (P : Platform) (ops : List (CStr × CStr)) (es : List CStr)
    (k : Nat) (hes : es ≠ []) (hv : ∀ p ∈ ops, p.2.length < P.BUFSIZ) :
    setenvf_seq P (some (vector_of es k)) ops = .ok (some (vector_of (set_all es ops) k)) := by
  induction ops generalizing es with
  | nil => rfl
  | cons p ops ih =>
    obtain ⟨name, value⟩ := p
    have hfmt := vsnprintf_s P.BUFSIZ value (hv (name, value) (by simp))
    simp only [setenvf_seq, setenvf_entries P name _ value es k hes hfmt, bind, Except.bind,
      set_all]
    exact ih _ (set_entry_ne_nil _ _ _) (fun q hq => hv q (by simp [hq]))

theorem getenvp_vector_of (name : CStr) (es : List CStr) (k : Nat) :
    getenvp (some (vector_of es k)) name = .ok (lookup name es) := by
  have := getenvp_entries name es (List.replicate k none)
  simpa [vector_of, List.replicate_succ] using this

/-- An entry has a single variable name: it cannot consist of two different
names without `=`, each followed by `=`. -/
theorem entry_name_unique (n1 n2 e : CStr) (h1 : '=' ∉ n1) (h2 : '=' ∉ n2)
    (he1 : is_entry_for n1 e) (he2 : is_entry_for n2 e) : n1 = n2 := by
  induction n1 generalizing n2 e with
  | nil =>
    cases n2 with
    | nil => rfl
    | cons d n2 =>
      cases e with
      | nil => simp [is_entry_for] at he1
      | cons c e =>
        simp only [is_entry_for, List.nil_append, List.cons_append,
          List.cons_prefix_cons] at he1 he2
        exact absurd (by simp [he2.1, ← he1.1]) h2
  | cons c n1 ih =>
    cases e with
    | nil => simp [is_entry_for] at he1
    | cons x e =>
      cases n2 with
      | nil =>
        simp only [is_entry_for, List.nil_append, List.cons_append,
          List.cons_prefix_cons] at he1 he2
        exact absurd (by simp [he1.1, ← he2.1]) h1
      | cons d n2 =>
        simp only [is_entry_for, List.cons_append, List.cons_prefix_cons] at he1 he2
        have hc : c = d := he1.1.trans he2.1.symm
        have := ih n2 e (fun h => h1 (by simp [h])) (fun h => h2 (by simp [h])) he1.2 he2.2
        rw [hc, this]

theorem name_matches_compose_self (name v : CStr) (hname : NUL ∉ name) :
    name_matches (compose name v) name = true :=
  (name_matches_iff name hname _).mpr (is_entry_for_compose name v)

theorem name_matches_compose_other (n1 n2 v : CStr) (hn2 : NUL ∉ n2)
    (h1 : '=' ∉ n1) (h2 : '=' ∉ n2) (hne : n1 ≠ n2) :
    name_matches (compose n1 v) n2 = false := by
  rw [name_matches_false_iff n2 hn2]
  intro h
  exact hne (entry_name_unique n1 n2 _ h1 h2 (is_entry_for_compose n1 v) h)

theorem drop_compose (name v : CStr) : (compose name v).drop (name.length + 1) = v := by
  simp [compose]

theorem lookup_set_same (name v : CStr) (hname : NUL ∉ name) (es : List CStr) :
    lookup name (set_entry name (compose name v) es) = some v := by
  induction es with
  | nil => simp [set_entry, lookup, name_matches_compose_self name v hname, drop_compose]
  | cons e es ih =>
    by_cases he : name_matches e name = true
    · simp [set_entry, he, lookup, name_matches_compose_self name v hname, drop_compose]
    · simp [set_entry, he, lookup, ih]

theorem lookup_set_other (n1 n2 v : CStr) (hn1 : NUL ∉ n1) (hn2 : NUL ∉ n2)
    (h1 : '=' ∉ n1) (h2 : '=' ∉ n2) (hne : n1 ≠ n2) (es : List CStr) :
    lookup n2 (set_entry n1 (compose n1 v) es) = lookup n2 es := by
  have hc := name_matches_compose_other n1 n2 v hn2 h1 h2 hne
  induction es with
  | nil => simp [set_entry, lookup, hc]
  | cons e es ih =>
    by_cases he : name_matches e n1 = true
    · have he2 : name_matches e n2 = false := by
        rw [name_matches_false_iff n2 hn2]
        intro h
        exact hne (entry_name_unique n1 n2 e h1 h2 ((name_matches_iff n1 hn1 e).mp he) h)
      simp [set_entry, he, lookup, hc, he2]
    · simp [set_entry, he, lookup, ih]

theorem lookup_set_all_other (name : CStr) (hname : NUL ∉ name) (h : '=' ∉ name)
    (ops : List (CStr × CStr)) (hops : ∀ p ∈ ops, NUL ∉ p.1 ∧ '=' ∉ p.1)
    (hnot : name ∉ ops.map Prod.fst) (es : List CStr) :
    lookup name (set_all es ops) = lookup name es := by
  induction ops generalizing es with
  | nil => rfl
  | cons p ops ih =>
    obtain ⟨n, v⟩ := p
    have hp := hops (n, v) (by simp)
    have hne : n ≠ name := fun hn => hnot (by simp [hn])
    simp only [set_all]
    rw [ih (fun q hq => hops q (by simp [hq])) (fun hm => hnot (by simp [hm])),
      lookup_set_other n name v hp.1 hname hp.2 h hne]

theorem lookup_set_all (ops : List (CStr × CStr)) (hd : (ops.map Prod.fst).Nodup)
    (hops : ∀ p ∈ ops, NUL ∉ p.1 ∧ '=' ∉ p.1) (es : List CStr) :
    ∀ p ∈ ops, lookup p.1 (set_all es ops) = some p.2 := by
  induction ops generalizing es with
  | nil => simp
  | cons q ops ih =>
    obtain ⟨n, v⟩ := q
    have hq := hops (n, v) (by simp)
    simp only [List.map_cons, List.nodup_cons] at hd
    intro p hp
    rcases List.mem_cons.mp hp with rfl | hp
    · simp only [set_all]
      rw [lookup_set_all_other n hq.1 hq.2 ops (fun r hr => hops r (by simp [hr])) hd.1,
        lookup_set_same n v hq.1]
    · exact ih hd.2 (fun r hr => hops r (by simp [hr])) _ p hp

/-- C2 (as stated, refuted). The names `A=B` and `A` are distinct, and after
`setenvf(A=B, c)` and `setenvf(A, x)` on the vector `X=1`, NULL the second
call has overwritten the entry of the first: `getenvp(A=B)` returns NULL and
not `c`. -/
theorem C2_counterexample_name_with_separator :
    ("A=B".toList ≠ "A".toList) ∧
    setenvf_seq sample_platform (some [some "X=1".toList, none])
        [("A=B".toList, "c".toList), ("A".toList, "x".toList)]
      = .ok (some [some "X=1".toList, some "A=x".toList, none]) ∧
    getenvp (some [some "X=1".toList, some "A=x".toList, none]) "A=B".toList = .ok none := by
  decide

/-- C2 (amended). On a vector that holds at least one entry, after a sequence
of calls `setenvf(&env, name, "%s", value)` whose names are pairwise distinct
C strings without `=` and whose values fit the buffer, every call of the
sequence has returned and `getenvp` returns, for each name, exactly the value
set under it. -/
theorem C2_setenvf_then_getenvp (P : Platform) (es : List CStr) (k : Nat)
    (ops : List (CStr × CStr)) (hes : es ≠ [])
    (hdistinct : (ops.map Prod.fst).Nodup)
    (hnames : ∀ p ∈ ops, NUL ∉ p.1 ∧ '=' ∉ p.1)
    (hvalues : ∀ p ∈ ops, p.2.length < P.BUFSIZ) :
    ∃ env1 : Env, setenvf_seq P (some (vector_of es k)) ops = .ok (some env1) ∧
      ∀ p ∈ ops, getenvp (some env1) p.1 = .ok (some p.2) := by
  refine ⟨vector_of (set_all es ops) k, setenvf_seq_entries P ops es k hes hvalues, ?_⟩
  intro p hp
  rw [getenvp_vector_of, lookup_set_all ops hdistinct hnames es p hp]

/-- C2 (amended) on the vector `X=1`, NULL with the calls `A=c`, `B=d`,
`A2=e`. -/
theorem C2_setenvf_then_getenvp_witness :
    ∃ env1 : Env,
      setenvf_seq sample_platform (some (vector_of ["X=1".toList] 0))
        [("A".toList, "c".toList), ("B".toList, "d".toList), ("A2".toList, "e".toList)]
        = .ok (some env1) ∧
      ∀ p ∈ [("A".toList, "c".toList), ("B".toList, "d".toList), ("A2".toList, "e".toList)],
        getenvp (some env1) p.1 = .ok (some p.2) :=
  C2_setenvf_then_getenvp sample_platform ["X=1".toList] 0
    [("A".toList, "c".toList), ("B".toList, "d".toList), ("A2".toList, "e".toList)]
    (by decide) (by decide) (by decide) (by decide)

/-! ## C4, C5, C6: `setenvf` on a vector -/

/-- On an array of NULL slots the backward scan of `_extend_env` leaves the
allocation, wherever it starts. -/
theorem scan_back_nulls (m i : Nat) :
    scan_back (List.replicate m none) i = .error .outside := by
  induction i with
  | zero =>
    cases m with
    | zero => rfl
    | succ m => simp [scan_back, List.replicate_succ]
  | succ i ih =>
    by_cases h : i + 1 < m
    · have hg : (List.replicate m (none : Option CStr))[i + 1]? = some none := by
        simp [h]
      simp only [scan_back, hg]
      exact ih
    · have hg : (List.replicate m (none : Option CStr))[i + 1]? = none := by
        simp; omega
      simp only [scan_back, hg]

theorem extend_env_no_entry (k : Nat) :
    _extend_env (vector_of [] k) = .error .outside := by
  have happ : vector_of [] k ++ [none] = List.replicate (k + 2) none := by
    simp [vector_of, List.replicate_succ']
  have hlt : ¬ (vector_of [] k).length + 1 < 2 := by
    rw [length_vector_of]; omega
  simp only [_extend_env, hlt, if_false, happ, scan_back_nulls, bind, Except.bind]

theorem setenvf_vector_no_entry (k : Nat) (name str : CStr) :
    setenvf_vector (vector_of [] k) name str = .error .outside := by
  have hv : vector_of [] k = none :: List.replicate k none := by
    simp [vector_of, List.replicate_succ]
  have hf : _find_name_in_env (vector_of [] k) name = .ok 0 := by
    rw [hv]; rfl
  have hg : (vector_of [] k)[0]? = some none := by
    rw [hv]; simp
  simp only [setenvf_vector, hf, bind, Except.bind, hg, extend_env_no_entry]

theorem set_entry_length (name str : CStr) (es : List CStr) :
    (set_entry name str es).length
      = if es.any (fun e => name_matches e name) then es.length else es.length + 1 := by
  induction es with
  | nil => simp [set_entry]
  | cons e es ih =>
    by_cases he : name_matches e name = true
    · simp [set_entry, he]
    · have he2 : name_matches e name = false := by simpa using he
      simp only [set_entry, he2, Bool.false_eq_true, if_false, List.length_cons, ih,
        List.any_cons, Bool.false_or]
      split <;> rfl

theorem envcount_vector_of (es : List CStr) (k : Nat) :
    envcount (vector_of es k) = .ok es.length := by
  have := envcount_entries es (List.replicate k none)
  simpa [vector_of, List.replicate_succ] using this

/-- On a vector that holds at least one entry `setenvf` returns 0, and
`envcount` afterwards is the old count when an entry matched the name and the
old count plus one when none did. -/
theorem setenvf_envcount (P : Platform) (name : CStr) (fmt : Fmt) (value : CStr)
    (es : List CStr) (k : Nat) (hes : es ≠ [])
    (hfmt : vsnprintf P.BUFSIZ fmt = .ok value) :
    ∃ env1 : Env,
      setenvf P (some (vector_of es k)) name fmt
        = .ok { env := some env1, put := none, rc := 0 } ∧
      envcount env1 = .ok
        (if es.any (fun e => name_matches e name) then es.length else es.length + 1) := by
  refine ⟨_, setenvf_entries P name fmt value es k hes hfmt, ?_⟩
  rw [envcount_vector_of, set_entry_length]

/-- On a vector that holds at least one entry `setenvf` changes one slot:
the slot of the first matching entry when there is one, and otherwise the
slot right after the last entry, in an allocation grown by one slot. -/
theorem setenvf_frame (P : Platform) (name : CStr) (fmt : Fmt) (value : CStr)
    (hfmt : vsnprintf P.BUFSIZ fmt = .ok value) (k : Nat) :
    (∀ (pre : List CStr) (e0 : CStr) (post : List CStr),
      (∀ e ∈ pre, name_matches e name = false) → name_matches e0 name = true →
      setenvf P (some (vector_of (pre ++ e0 :: post) k)) name fmt
        = .ok { env := some ((vector_of (pre ++ e0 :: post) k).set pre.length
                  (some (compose name value))),
                put := none, rc := 0 }) ∧
    (∀ es : List CStr, es ≠ [] → (∀ e ∈ es, name_matches e name = false) →
      setenvf P (some (vector_of es k)) name fmt
        = .ok { env := some ((vector_of es k ++ [none]).set es.length
                  (some (compose name value))),
                put := none, rc := 0 }) := by
  constructor
  · intro pre e0 post hpre h0
    rw [setenvf_entries P name fmt value _ k (by simp) hfmt,
      set_entry_present name _ pre e0 post hpre h0]
    have := set_entries_length pre (some e0) (some (compose name value))
      (post.map some ++ List.replicate (k + 1) none)
    simp only [vector_of, List.map_append, List.map_cons, List.append_assoc,
      List.cons_append] at this ⊢
    rw [this]
  · intro es hes hno
    rw [setenvf_entries P name fmt value es k hes hfmt, set_entry_absent name _ es hno]
    have := set_entries_length es none (some (compose name value)) (List.replicate (k + 1) none)
    have happ : vector_of es k ++ [none] = es.map some ++ none :: List.replicate (k + 1) none := by
      simp only [vector_of, List.append_assoc]
      rw [← List.replicate_succ', List.replicate_succ]
    rw [happ, this]
    simp [vector_of]

/-- C4 (the code departs from the claim). On a vector without entries, that
is an array of NULL slots only, `envcount` is 0 and no entry matches, but
`setenvf` does not return 0 with `envcount` 1: the scan of `_extend_env`
reads slot -1, outside the allocation. -/
theorem C4_setenvf_no_entry_faults (P : Platform) (k : Nat) (name value : CStr) :
    envcount (vector_of [] k) = .ok 0 ∧
    setenvf P (some (vector_of [] k)) name (.s value) = .error .outside := by
  refine ⟨envcount_vector_of [] k, ?_⟩
  simp only [setenvf, vsnprintf, bind, Except.bind, setenvf_vector_no_entry]

/-- C5 (the code departs from the claim). On the empty vector, an array that
holds the terminator only, the first step `setenvf(FOO, bar)` of the scenario
faults in `_extend_env`.  Started from the vector that this step is meant to
produce, the remaining steps behave as the scenario says: `FOO=baz` replaces
the entry in place, `BAZ=qux` is appended, and `unsetenvp(FOO)` leaves
`BAZ=qux` as the only entry. -/
theorem C5_scenario_first_step_faults :
    setenvf sample_platform (some [none]) "FOO".toList (.s "bar".toList)
      = .error .outside ∧
    setenvf sample_platform (some [some "FOO=bar".toList, none]) "FOO".toList
        (.s "baz".toList)
      = .ok { env := some [some "FOO=baz".toList, none], put := none, rc := 0 } ∧
    getenvp (some [some "FOO=baz".toList, none]) "FOO".toList = .ok (some "baz".toList) ∧
    setenvf sample_platform (some [some "FOO=baz".toList, none]) "BAZ".toList
        (.s "qux".toList)
      = .ok { env := some [some "FOO=baz".toList, some "BAZ=qux".toList, none],
              put := none, rc := 0 } ∧
    unsetenvp (some [some "FOO=baz".toList, some "BAZ=qux".toList, none]) "FOO".toList
      = .ok (some [some "BAZ=qux".toList, none, none]) ∧
    envcount [some "BAZ=qux".toList, none, none] = .ok 1 := by
  decide

/-- C6 (the code departs from the claim). On a vector without entries the
lookup returns slot 0, which is the slot at index `envcount`, and
`_extend_env` faults before it returns a slot: no slot receives the new
string, with any of the formats. -/
theorem C6_setenvf_no_entry_stores_nothing (P : Platform) (k : Nat) (name : CStr)
    (fmt : Fmt) :
    _find_name_in_env (vector_of [] k) name = .ok 0 ∧
    _extend_env (vector_of [] k) = .error .outside ∧
    ∀ out : SetenvOut, setenvf P (some (vector_of [] k)) name fmt ≠ .ok out := by
  refine ⟨?_, extend_env_no_entry k, ?_⟩
  · have hv : vector_of [] k = none :: List.replicate k none := by
      simp [vector_of, List.replicate_succ]
    rw [hv]; rfl
  · intro out
    cases hf : vsnprintf P.BUFSIZ fmt with
    | error f => simp [setenvf, hf, bind, Except.bind]
    | ok value => simp [setenvf, hf, bind, Except.bind, setenvf_vector_no_entry]

/-! ## C8: the terminator invariant -/

theorem getLast?_vector_of (es : List CStr) (k : Nat) :
    (vector_of es k).getLast? = some none := by
  simp [vector_of, List.replicate_succ']

theorem dropWhile_vector_of (es : List CStr) (k : Nat) :
    (vector_of es k).dropWhile Option.isSome = List.replicate (k + 1) none := by
  induction es with
  | nil => simp [vector_of, List.replicate_succ, List.dropWhile]
  | cons e es ih =>
    simpa [vector_of, List.dropWhile] using ih

theorem nulls_at_end_vector_of (es : List CStr) (k : Nat) : nulls_at_end (vector_of es k) := by
  refine ⟨getLast?_vector_of es k, ?_⟩
  rw [dropWhile_vector_of]
  simp

theorem all_isNone_eq_replicate (t : Env) (h : t.all Option.isNone = true) :
    t = List.replicate t.length none := by
  induction t with
  | nil => rfl
  | cons x t ih =>
    simp only [List.all_cons, Bool.and_eq_true] at h
    cases x with
    | none =>
      simp only [List.length_cons, List.replicate_succ, List.cons.injEq, true_and]
      exact ih h.2
    | some e => simp at h

/-- The arrays with the NULL slots at the end are the arrays `vector_of es k`. -/
theorem nulls_at_end_iff (env : Env) :
    nulls_at_end env ↔ ∃ es k, env = vector_of es k := by
  constructor
  · intro h
    induction env with
    | nil => simp [nulls_at_end] at h
    | cons x t ih =>
      cases x with
      | none =>
        have hall : t.all Option.isNone = true := by
          have := h.2
          simpa [List.dropWhile] using this
        refine ⟨[], t.length, ?_⟩
        have := all_isNone_eq_replicate t hall
        simp only [vector_of, List.map_nil, List.nil_append, List.replicate_succ,
          List.cons.injEq, true_and]
        exact this
      | some e =>
        cases t with
        | nil => simp [nulls_at_end] at h
        | cons y t =>
          have ht : nulls_at_end (y :: t) := by
            refine ⟨?_, ?_⟩
            · have := h.1
              simpa [List.getLast?_cons_cons] using this
            · have := h.2
              simpa [List.dropWhile] using this
          obtain ⟨es, k, hk⟩ := ih ht
          exact ⟨e :: es, k, by rw [hk]; simp [vector_of]⟩
  · rintro ⟨es, k, rfl⟩
    exact nulls_at_end_vector_of es k

theorem count_none_vector_of (es : List CStr) (k : Nat) :
    (vector_of es k).count none = k + 1 := by
  induction es with
  | nil => simp [vector_of]
  | cons e es ih =>
    simpa [vector_of, List.count_cons] using ih

/-- The arrays with a single NULL slot, at the end, are the arrays
`vector_of es 0`. -/
theorem single_terminator_iff (env : Env) :
    single_terminator env ↔ ∃ es, env = vector_of es 0 := by
  constructor
  · intro h
    induction env with
    | nil => simp [single_terminator] at h
    | cons x t ih =>
      cases x with
      | none =>
        cases t with
        | nil => exact ⟨[], rfl⟩
        | cons y t =>
          exfalso
          have h1 : (y :: t).getLast? = some none := by
            have := h.1
            simpa [List.getLast?_cons_cons] using this
          have h2 : (y :: t).count none = 0 := by
            have := h.2
            simpa [List.count_cons] using this
          have hmem : none ∈ (y :: t) := List.mem_of_getLast?_eq_some h1
          exact (List.count_pos_iff.mpr hmem).ne' h2
      | some e =>
        cases t with
        | nil => simp [single_terminator] at h
        | cons y t =>
          have ht : single_terminator (y :: t) := by
            refine ⟨?_, ?_⟩
            · have := h.1
              simpa [List.getLast?_cons_cons] using this
            · have := h.2
              simpa [List.count_cons] using this
          obtain ⟨es, hk⟩ := ih ht
          exact ⟨e :: es, by rw [hk]; simp [vector_of]⟩
  · rintro ⟨es, rfl⟩
    exact ⟨getLast?_vector_of es 0, count_none_vector_of es 0⟩

/-- C8 (as stated, refuted). The array `FOO=1`, NULL has its single NULL slot
at the end; after `unsetenvp(env, "FOO")` it is NULL, NULL, with two NULL
slots. -/
theorem C8_counterexample_unsetenvp_adds_null :
    single_terminator [some "FOO=1".toList, none] ∧
    unsetenvp (some [some "FOO=1".toList, none]) "FOO".toList = .ok (some [none, none]) ∧
    ¬ single_terminator [none, none] := by
  decide

/-- C8 (amended). Let the last allocated slot be NULL and no entry follow a
NULL slot.  Then `unsetenvp` returns, the array has the same number of slots
and again the last slot is NULL and no entry follows a NULL slot.  If moreover
the first slot holds an entry, `setenvf` returns 0 and the same holds for the
array it leaves, which has as many NULL slots as before: in particular a
single NULL slot stays a single NULL slot under `setenvf`. -/
theorem C8_nulls_at_end_preserved (P : Platform) (env : Env) (name : CStr) (fmt : Fmt)
    (value : CStr) (hfmt : vsnprintf P.BUFSIZ fmt = .ok value) (henv : nulls_at_end env) :
    (∃ env1 : Env, unsetenvp (some env) name = .ok (some env1) ∧
      nulls_at_end env1 ∧ env1.length = env.length) ∧
    (env.head? ≠ some none →
      ∃ env1 : Env,
        setenvf P (some env) name fmt = .ok { env := some env1, put := none, rc := 0 } ∧
        nulls_at_end env1 ∧ env1.count none = env.count none ∧
        (single_terminator env → single_terminator env1)) := by
  obtain ⟨es, k, rfl⟩ := (nulls_at_end_iff env).mp henv
  constructor
  · have hle := remove_skip_length_le name es
    refine ⟨_, unsetenvp_entries name es k, nulls_at_end_vector_of _ _, ?_⟩
    rw [length_vector_of, length_vector_of]
    omega
  · intro hhead
    have hes : es ≠ [] := by
      rintro rfl
      exact hhead (by simp [vector_of, List.replicate_succ])
    refine ⟨_, setenvf_entries P name fmt value es k hes hfmt, nulls_at_end_vector_of _ _, ?_, ?_⟩
    · rw [count_none_vector_of, count_none_vector_of]
    · intro hs
      refine ⟨getLast?_vector_of _ _, ?_⟩
      rw [count_none_vector_of]
      have := hs.2
      rw [count_none_vector_of] at this
      exact this

/-- C8 (amended) on the array `A=1`, `FOO=2`, NULL with the name `FOO`. -/
theorem C8_nulls_at_end_preserved_witness :
    (∃ env1 : Env,
      unsetenvp (some [some "A=1".toList, some "FOO=2".toList, none]) "FOO".toList
        = .ok (some env1) ∧
      nulls_at_end env1 ∧ env1.length = 3) ∧
    (∃ env1 : Env,
      setenvf sample_platform (some [some "A=1".toList, some "FOO=2".toList, none])
        "FOO".toList (.s "bar".toList) = .ok { env := some env1, put := none, rc := 0 } ∧
      nulls_at_end env1 ∧ env1.count none = 1 ∧ single_terminator env1) :=
  have h := C8_nulls_at_end_preserved sample_platform
    [some "A=1".toList, some "FOO=2".toList, none] "FOO".toList (.s "bar".toList)
    "bar".toList (by decide) (by decide)
  ⟨h.1, (h.2 (by decide)).imp fun _ hx => ⟨hx.1, hx.2.1, hx.2.2.1, hx.2.2.2 (by decide)⟩⟩

/-! ## C9, C10: `setup_env` -/

/-- C9 (the code departs from the claim). With job id 5 and node id -1:
on the empty vector `setup_env` faults in the first `setenvf` it reaches, in
`_extend_env`; and on the vector `A=1`, NULL with the rank bit of
`cpu_bind_type` set and no `cpu_bind` string it faults at line 318, where the
NULL `env->cpu_bind` is the format string.  In neither run is there a vector
with `SLURM_JOBID=5` afterwards.  With the same vector and no binding bits the
run completes and `SLURM_JOBID=5` is there, without a `SLURM_NODEID` entry. -/
theorem C9_setup_env_faults :
    setup_env sample_platform
        (some { blank_env_t with jobid := 5, nodeid := -1, env := some [none] })
      = .error .outside ∧
    setup_env sample_platform
        (some { blank_env_t with jobid := 5, nodeid := -1, cpu_bind_type := 2,
                                 env := some [some "A=1".toList, none] })
      = .error .null_format ∧
    (setup_env sample_platform
        (some { blank_env_t with jobid := 5, nodeid := -1,
                                 env := some [some "A=1".toList, none] })).map
        (fun out => out.2.map (fun r => r.env))
      = .ok (some (some
          [some "A=1".toList, some "SLURM_CPU_BIND_VERBOSE=quiet".toList,
           some "SLURM_CPU_BIND_TYPE=".toList, some "SLURM_CPU_BIND_LIST=".toList,
           some "SLURM_MEM_BIND_VERBOSE=quiet".toList, some "SLURM_MEM_BIND_TYPE=".toList,
           some "SLURM_MEM_BIND_LIST=".toList, some "SLURM_JOBID=5".toList, none])) := by
  decide

/-- C10 (the code departs from the claim). With `cpu_bind_type = 0`:
on the empty vector, and on the vector `SLURM_CPU_BIND=x`, NULL, which
`unsetenvp` empties first, `setup_env` faults in `_extend_env` at the call
that sets `SLURM_CPU_BIND_VERBOSE`, so that no vector with the three entries
results.  On the vector `SLURM_CPU_BIND_LIST=0x3`, NULL the run completes: the
old entry is replaced in place and each of the three names has one entry, with
the values `quiet`, empty and empty. -/
theorem C10_setup_env_faults :
    setup_env sample_platform (some { blank_env_t with env := some [none] })
      = .error .outside ∧
    setup_env sample_platform
        (some { blank_env_t with env := some [some "SLURM_CPU_BIND=x".toList, none] })
      = .error .outside ∧
    (setup_env sample_platform
        (some { blank_env_t with
                  env := some [some "SLURM_CPU_BIND_LIST=0x3".toList, none] })).map
        (fun out => out.2.map (fun r => r.env))
      = .ok (some (some
          [some "SLURM_CPU_BIND_LIST=".toList, some "SLURM_CPU_BIND_VERBOSE=quiet".toList,
           some "SLURM_CPU_BIND_TYPE=".toList, some "SLURM_MEM_BIND_VERBOSE=quiet".toList,
           some "SLURM_MEM_BIND_TYPE=".toList, some "SLURM_MEM_BIND_LIST=".toList,
           none])) := by
  decide

/-! ## The vector through a run of `setup_env` -/

theorem bind_eq_ok {α β : Type} {x : Except Fault α} {f : α → Except Fault β} {b : β}
    (h : (x >>= f) = .ok b) : ∃ a, x = .ok a ∧ f a = .ok b := by
  cases x with
  | error e => simp [bind, Except.bind] at h
  | ok a => exact ⟨a, rfl, h⟩

theorem apply_ops_append (es : List CStr) (ops l : List Op) :
    apply_ops es (ops ++ l) = apply_ops (apply_ops es ops) l := by
  simp [apply_ops, List.foldl_append]

theorem Tracks.append_nil {es : List CStr} {r : Run} {ops : List Op}
    (h : Tracks es r ops) : Tracks es r (ops ++ []) := by
  simpa using h

/-- A completed call of `setenvf` on a tracked vector returns 0 and adds its
operation. -/
theorem call_setenvf_tracks (P : Platform) (name : String) (fmt : Fmt) (es : List CStr)
    (ops : List Op) (r r1 : Run) (st : Int) (ht : Tracks es r ops)
    (h : call_setenvf P r name fmt = .ok (r1, st)) :
    Tracks es r1 (ops ++ [op_set P name fmt]) ∧ st = 0 ∧ r1.rc = r.rc ∧ r1.log = r.log := by
  obtain ⟨k, hk⟩ := ht
  simp only [call_setenvf] at h
  obtain ⟨out, hout, hpure⟩ := bind_eq_ok h
  simp only [pure, Except.pure, Except.ok.injEq, Prod.mk.injEq] at hpure
  obtain ⟨hr1, hst⟩ := hpure
  rw [hk] at hout
  cases hf : vsnprintf P.BUFSIZ fmt with
  | error f => simp [setenvf, hf, bind, Except.bind] at hout
  | ok value =>
    by_cases hes : apply_ops es ops = []
    · rw [hes] at hout
      simp [setenvf, hf, bind, Except.bind, setenvf_vector_no_entry] at hout
    · rw [setenvf_entries P name.toList fmt value _ k hes hf] at hout
      simp only [Except.ok.injEq] at hout
      subst hout
      subst hr1
      refine ⟨⟨k, ?_⟩, hst.symm, rfl, rfl⟩
      simp [apply_ops_append, apply_ops, apply_op, op_set, fmt_text, hf]

/-- A call of `unsetenvp` on a tracked vector adds its operation. -/
theorem call_unsetenvp_tracks (name : String) (es : List CStr) (ops : List Op)
    (r r1 : Run) (ht : Tracks es r ops) (h : call_unsetenvp r name = .ok r1) :
    Tracks es r1 (ops ++ [.unset name.toList]) ∧ r1.rc = r.rc ∧ r1.log = r.log := by
  obtain ⟨k, hk⟩ := ht
  simp only [call_unsetenvp, hk, unsetenvp_entries, bind, Except.bind, pure, Except.pure,
    Except.ok.injEq] at h
  subst h
  refine ⟨⟨k + (apply_ops es ops).length
      - (remove_skip name.toList (apply_ops es ops)).length, ?_⟩, rfl, rfl⟩
  simp [apply_ops_append, apply_ops, apply_op]

theorem report_tracks (P : Platform) (msg : String) {es : List CStr} {r : Run}
    {ops : List Op} (h : Tracks es r ops) : Tracks es (report P r msg) ops := h

theorem Step.comp {f : Run → Except Fault Run} {g : Run → Except Fault Run}
    {l1 l2 : List Op} (hf : Step f l1) (hg : Step g l2) :
    Step (fun r => f r >>= g) (l1 ++ l2) := by
  intro es ops r r1 ht h
  obtain ⟨r2, h2, h3⟩ := bind_eq_ok h
  have := hg es (ops ++ l1) r2 r1 (hf es ops r r2 ht h2) h3
  simpa [List.append_assoc] using this

theorem set_if_step (P : Platform) (present : Bool) (name : String) (fmt : Fmt)
    (msg : String) :
    Step (fun r => set_if P r present name fmt msg) (ops_if P present name fmt) := by
  intro es ops r r1 ht h
  cases present with
  | false =>
    simp only [set_if, Bool.false_eq_true, if_false, pure, Except.pure, Except.ok.injEq] at h
    subst h
    simpa [ops_if] using ht
  | true =>
    simp only [set_if, if_true] at h
    obtain ⟨⟨r2, st⟩, h2, h3⟩ := bind_eq_ok h
    obtain ⟨ht2, hst, _, _⟩ := call_setenvf_tracks P name fmt es ops r r2 st ht h2
    simp only [hst, ne_eq, not_true_eq_false, if_false, pure, Except.pure,
      Except.ok.injEq] at h3
    subst h3
    simpa [ops_if] using ht2

theorem set_stat_tracks (P : Platform) (name : String) (fmt : Fmt) (es : List CStr)
    (ops : List Op) (rs rs1 : Run × Bool) (ht : Tracks es rs.1 ops)
    (h : set_stat P rs name fmt = .ok rs1) :
    Tracks es rs1.1 (ops ++ [op_set P name fmt]) ∧ rs1.2 = rs.2 := by
  simp only [set_stat] at h
  obtain ⟨⟨r2, st⟩, h2, h3⟩ := bind_eq_ok h
  obtain ⟨ht2, hst, _, _⟩ := call_setenvf_tracks P name fmt es ops rs.1 r2 st ht h2
  simp only [pure, Except.pure, Except.ok.injEq] at h3
  subst h3
  exact ⟨ht2, by simp [hst]⟩

theorem check_stat_tracks (P : Platform) (msg : String) {es : List CStr}
    {rs : Run × Bool} {ops : List Op} (h : Tracks es rs.1 ops) :
    Tracks es (check_stat P rs msg) ops := by
  unfold check_stat
  split
  · exact h
  · exact h

theorem set_quiet_step (P : Platform) (name : String) (fmt : Fmt) :
    Step (fun r => set_quiet P r name fmt) [op_set P name fmt] := by
  intro es ops r r1 ht h
  simp only [set_quiet] at h
  obtain ⟨⟨r2, st⟩, h2, h3⟩ := bind_eq_ok h
  obtain ⟨ht2, hst, _, _⟩ := call_setenvf_tracks P name fmt es ops r r2 st ht h2
  simp only [hst, ne_eq, not_true_eq_false, if_false, pure, Except.pure,
    Except.ok.injEq] at h3
  subst h3
  exact ht2

theorem Step.of_eq {f g : Run → Except Fault Run} {l : List Op} (h : ∀ r, f r = g r)
    (hg : Step g l) : Step f l := by
  intro es ops r r1 ht hr
  exact hg es ops r r1 ht (by rw [← h r]; exact hr)

theorem Step.pure_map (g : Run → Run) (hg : ∀ r, (g r).env = r.env) :
    Step (fun r => pure (g r)) [] := by
  intro es ops r r1 ht h
  simp only [pure, Except.pure, Except.ok.injEq] at h
  subst h
  obtain ⟨k, hk⟩ := ht
  exact ⟨k, by simp [hg, hk]⟩

theorem unset_step (name : String) :
    Step (fun r => call_unsetenvp r name) [.unset name.toList] := by
  intro es ops r r1 ht h
  exact (call_unsetenvp_tracks name es ops r r1 ht h).1

/-- The statements `setstat = 0; setstat |= setenvf(..); if (setstat) {..}`. -/
theorem set_stat_check_step (P : Platform) (name : String) (fmt : Fmt) (msg : String) :
    Step (fun r => do
        let rs ← set_stat P (r, false) name fmt
        pure (check_stat P rs msg)) [op_set P name fmt] := by
  intro es ops r r1 ht h
  obtain ⟨rs, h2, h3⟩ := bind_eq_ok h
  have := (set_stat_tracks P name fmt es ops (r, false) rs ht h2).1
  simp only [pure, Except.pure, Except.ok.injEq] at h3
  subst h3
  exact check_stat_tracks P msg this

theorem dist_choice (P : Platform) (d : Int) (r : Run) :
    (if d = P.SLURM_DIST_CYCLIC then (("cyclic", r) : String × Run)
      else if d = P.SLURM_DIST_BLOCK then ("block", r)
      else if d = P.SLURM_DIST_ARBITRARY then ("arbitrary", r)
      else ("unknown",
        { r with log := r.log ++ ["unknown dist, type " ++ String.mk (fmt_d d)] })).1
      = dist_text P d := by
  unfold dist_text
  split_ifs <;> rfl

theorem dist_choice_env (P : Platform) (d : Int) (r : Run) :
    (if d = P.SLURM_DIST_CYCLIC then (("cyclic", r) : String × Run)
      else if d = P.SLURM_DIST_BLOCK then ("block", r)
      else if d = P.SLURM_DIST_ARBITRARY then ("arbitrary", r)
      else ("unknown",
        { r with log := r.log ++ ["unknown dist, type " ++ String.mk (fmt_d d)] })).2.env
      = r.env := by
  split_ifs <;> rfl

theorem setup_distribution_step (P : Platform) (e : env_t) :
    Step (setup_distribution P e)
      (ops_if P (e.distribution ≥ 0) "SLURM_DISTRIBUTION"
        (.s (dist_text P e.distribution).toList)) := by
  intro es ops r r1 ht h
  by_cases hd : e.distribution ≥ 0
  · simp only [setup_distribution, hd, if_true] at h
    rw [dist_choice] at h
    have ht2 : Tracks es (if e.distribution = P.SLURM_DIST_CYCLIC then (("cyclic", r) : String × Run)
      else if e.distribution = P.SLURM_DIST_BLOCK then ("block", r)
      else if e.distribution = P.SLURM_DIST_ARBITRARY then ("arbitrary", r)
      else ("unknown",
        { r with log := r.log ++
            ["unknown dist, type " ++ String.mk (fmt_d e.distribution)] })).2 ops := by
      obtain ⟨k, hk⟩ := ht
      exact ⟨k, by rw [dist_choice_env, hk]⟩
    have := set_if_step P true "SLURM_DISTRIBUTION" (.s (dist_text P e.distribution).toList)
      "Can't set SLURM_DISTRIBUTION env variable" es ops _ r1 ht2 h
    simpa [hd] using this
  · simp only [setup_distribution, hd, if_false, pure, Except.pure, Except.ok.injEq] at h
    subst h
    simpa [ops_if, hd] using ht

/-! ## The binding blocks -/

/-- The test `type & ~VERBOSE` of the code succeeds exactly when one of the 32
bits of the mask is set in `type` and not in `VERBOSE`. -/
theorem other_bits_ne_zero_iff (type verbose : Nat) (h : type < 2 ^ 32) :
    other_bits type verbose ≠ 0 ↔
      (List.range 32).any (fun i => type.testBit i && !verbose.testBit i) = true := by
  constructor
  · intro hne
    obtain ⟨i, hi⟩ := Nat.ne_zero_implies_bit_true hne
    have h32 : (0xFFFFFFFF : Nat) = 2 ^ 32 - 1 := by norm_num
    simp only [other_bits, h32, Nat.testBit_and, Nat.testBit_xor, Nat.testBit_two_pow_sub_one,
      Bool.and_eq_true] at hi
    have hlt : i < 32 := by
      by_contra hge
      have : type.testBit i = false :=
        Nat.testBit_lt_two_pow (lt_of_lt_of_le h (Nat.pow_le_pow_right (by norm_num) (by omega)))
      rw [this] at hi
      exact absurd hi.1 (by simp)
    simp only [List.any_eq_true, List.mem_range, Bool.and_eq_true, Bool.not_eq_true']
    refine ⟨i, hlt, hi.1, ?_⟩
    have := hi.2
    simpa [hlt] using this
  · intro hany hz
    simp only [List.any_eq_true, List.mem_range, Bool.and_eq_true, Bool.not_eq_true'] at hany
    obtain ⟨i, hlt, ht, hv⟩ := hany
    have h32 : (0xFFFFFFFF : Nat) = 2 ^ 32 - 1 := by norm_num
    have : (other_bits type verbose).testBit i = true := by
      simp only [other_bits, h32, Nat.testBit_and, Nat.testBit_xor,
        Nat.testBit_two_pow_sub_one, ht, hv]
      simp [hlt]
    rw [hz] at this
    simp at this

theorem bind_type_text_eq_spec (type verbose none rank mapcpu maskcpu : Nat)
    (h : type < 2 ^ 32) :
    bind_type_text type verbose none rank mapcpu maskcpu
      = spec_bind_type type verbose none rank mapcpu maskcpu := by
  unfold bind_type_text spec_bind_type
  by_cases h1 : type &&& none ≠ 0
  · simp [List.find?, h1]
  · by_cases h2 : type &&& rank ≠ 0
    · simp [List.find?, h1, h2]
    · by_cases h3 : type &&& mapcpu ≠ 0
      · simp [List.find?, h1, h2, h3]
      · by_cases h4 : type &&& maskcpu ≠ 0
        · simp [List.find?, h1, h2, h3, h4]
        · by_cases h5 : other_bits type verbose ≠ 0
          · have := (other_bits_ne_zero_iff type verbose h).mp h5
            simp only [List.find?, h1, h2, h3, h4, decide_False, if_false, this]
            rw [if_pos h5]
            rfl
          · have : ¬ ((List.range 32).any
                (fun i => type.testBit i && !verbose.testBit i) = true) :=
              fun hh => h5 ((other_bits_ne_zero_iff type verbose h).mpr hh)
            simp only [List.find?, h1, h2, h3, h4, decide_False, if_false, this]
            rw [if_neg h5]
            simp

theorem verbose_text_eq_spec (type verbose : Nat) :
    verbose_text type verbose = spec_verbose type verbose := by
  unfold verbose_text spec_verbose
  split_ifs <;> simp_all

/-- The CPU binding block for nonzero bits, with the tokens as text. -/
theorem setup_cpu_bind_eq (P : Platform) (e : env_t) (r : Run) (h : e.cpu_bind_type ≠ 0) :
    setup_cpu_bind P e r = (do
      let r ← call_unsetenvp r "SLURM_CPU_BIND"
      let r ← assign_checked P r "SLURM_CPU_BIND_VERBOSE"
        (.plain (verbose_text e.cpu_bind_type P.CPU_BIND_VERBOSE).toList)
        "Unable to set SLURM_CPU_BIND_VERBOSE"
      let r ← assign_checked P r "SLURM_CPU_BIND_TYPE"
        (.plain (bind_type_text e.cpu_bind_type P.CPU_BIND_VERBOSE P.CPU_BIND_NONE
          P.CPU_BIND_RANK P.CPU_BIND_MAPCPU P.CPU_BIND_MASKCPU).toList)
        "Unable to set SLURM_CPU_BIND_TYPE"
      let rs ← set_stat P (r, false) "SLURM_CPU_BIND_LIST" (bind_list_fmt e.cpu_bind)
      set_if P rs.1 true "SLURM_CPU_BIND_LIST" (bind_list_raw e.cpu_bind)
        "Unable to set SLURM_CPU_BIND_LIST") := by
  unfold setup_cpu_bind
  rw [if_pos h]
  simp only [verbose_text, bind_type_text, assign_checked, bind_assoc, pure_bind]
  congr 1
  funext ra
  split_ifs <;> cases e.cpu_bind <;> rfl

/-- The memory binding block for nonzero bits, with the tokens as text. -/
theorem setup_mem_bind_eq (P : Platform) (e : env_t) (r : Run) (h : e.mem_bind_type ≠ 0) :
    setup_mem_bind P e r = (do
      let r ← call_unsetenvp r "SLURM_MEM_BIND"
      let r ← assign_checked P r "SLURM_MEM_BIND_VERBOSE"
        (.plain (verbose_text e.mem_bind_type P.MEM_BIND_VERBOSE).toList)
        "Unable to set SLURM_MEM_BIND_VERBOSE"
      let r ← assign_checked P r "SLURM_MEM_BIND_TYPE"
        (.plain (bind_type_text e.mem_bind_type P.MEM_BIND_VERBOSE P.MEM_BIND_NONE
          P.MEM_BIND_RANK P.MEM_BIND_MAPCPU P.MEM_BIND_MASKCPU).toList)
        "Unable to set SLURM_MEM_BIND_TYPE"
      assign_checked P r "SLURM_MEM_BIND_LIST" (bind_list_fmt e.mem_bind)
        "Unable to set SLURM_MEM_BIND_LIST") := by
  unfold setup_mem_bind
  rw [if_pos h]
  simp only [verbose_text, bind_type_text, assign_checked, bind_assoc, pure_bind]
  congr 1
  funext ra
  split_ifs <;> cases e.mem_bind <;> rfl

theorem setup_cpu_bind_zero (P : Platform) (e : env_t) (r : Run) (h : e.cpu_bind_type = 0) :
    setup_cpu_bind P e r = bind_defaults P r "SLURM_CPU_BIND" "SLURM_CPU_BIND_VERBOSE"
      "SLURM_CPU_BIND_TYPE" "SLURM_CPU_BIND_LIST" "Unable to set SLURM_CPU_BIND_*" := by
  unfold setup_cpu_bind
  rw [if_neg (by simp [h])]
  rfl

theorem setup_mem_bind_zero (P : Platform) (e : env_t) (r : Run) (h : e.mem_bind_type = 0) :
    setup_mem_bind P e r = bind_defaults P r "SLURM_MEM_BIND" "SLURM_MEM_BIND_VERBOSE"
      "SLURM_MEM_BIND_TYPE" "SLURM_MEM_BIND_LIST" "Unable to set SLURM_MEM_BIND_*" := by
  unfold setup_mem_bind
  rw [if_neg (by simp [h])]
  rfl

/-! ## Steps of the blocks -/

theorem assign_checked_step (P : Platform) (name : String) (fmt : Fmt) (msg : String) :
    Step (fun r => assign_checked P r name fmt msg) [op_set P name fmt] :=
  set_stat_check_step P name fmt msg

theorem set_stat_step (P : Platform) (name : String) (fmt : Fmt) (b : Bool)
    (es : List CStr) (ops : List Op) (r : Run) (rs : Run × Bool)
    (ht : Tracks es r ops) (h : set_stat P (r, b) name fmt = .ok rs) :
    Tracks es rs.1 (ops ++ [op_set P name fmt]) :=
  (set_stat_tracks P name fmt es ops (r, b) rs ht h).1

theorem bind_defaults_step (P : Platform) (u n1 n2 n3 msg : String) :
    Step (fun r => bind_defaults P r u n1 n2 n3 msg)
      [.unset u.toList, op_set P n1 (.plain "quiet".toList), op_set P n2 (.plain []),
       op_set P n3 (.plain [])] := by
  intro es ops r r1 ht h
  simp only [bind_defaults] at h
  obtain ⟨ra, h0, h⟩ := bind_eq_ok h
  obtain ⟨rs1, h1, h⟩ := bind_eq_ok h
  obtain ⟨rs2, h2, h⟩ := bind_eq_ok h
  obtain ⟨rs3, h3, h⟩ := bind_eq_ok h
  have t0 := unset_step u es ops r ra ht h0
  have t1 := set_stat_step P n1 _ false es _ ra rs1 t0 h1
  have t2 := set_stat_step P n2 _ rs1.2 es _ rs1.1 rs2 t1 h2
  have t3 := set_stat_step P n3 _ rs2.2 es _ rs2.1 rs3 t2 h3
  simp only [pure, Except.pure, Except.ok.injEq] at h
  subst h
  have := check_stat_tracks P msg t3
  simpa [List.append_assoc] using this

theorem setup_cpu_bind_step (P : Platform) (e : env_t) :
    Step (setup_cpu_bind P e) (cpu_bind_ops P e) := by
  intro es ops r r1 ht h
  by_cases ht0 : e.cpu_bind_type ≠ 0
  · rw [setup_cpu_bind_eq P e r ht0] at h
    obtain ⟨ra, h1, h⟩ := bind_eq_ok h
    obtain ⟨rb, h2, h⟩ := bind_eq_ok h
    obtain ⟨rc, h3, h⟩ := bind_eq_ok h
    obtain ⟨rs, h4, h⟩ := bind_eq_ok h
    have t1 := unset_step "SLURM_CPU_BIND" es ops r ra ht h1
    have t2 := assign_checked_step P _ _ _ es _ ra rb t1 h2
    have t3 := assign_checked_step P _ _ _ es _ rb rc t2 h3
    have t4 := set_stat_step P _ _ false es _ rc rs t3 h4
    have t5 := set_if_step P true "SLURM_CPU_BIND_LIST" (bind_list_raw e.cpu_bind)
      "Unable to set SLURM_CPU_BIND_LIST" es _ rs.1 r1 t4 h
    simpa [cpu_bind_ops, ht0, ops_if, List.append_assoc] using t5
  · have hz : e.cpu_bind_type = 0 := by simpa using ht0
    rw [setup_cpu_bind_zero P e r hz] at h
    have := bind_defaults_step P _ _ _ _ _ es ops r r1 ht h
    simpa [cpu_bind_ops, hz] using this

theorem setup_mem_bind_step (P : Platform) (e : env_t) :
    Step (setup_mem_bind P e) (mem_bind_ops P e) := by
  intro es ops r r1 ht h
  by_cases ht0 : e.mem_bind_type ≠ 0
  · rw [setup_mem_bind_eq P e r ht0] at h
    obtain ⟨ra, h1, h⟩ := bind_eq_ok h
    obtain ⟨rb, h2, h⟩ := bind_eq_ok h
    obtain ⟨rc, h3, h⟩ := bind_eq_ok h
    have t1 := unset_step "SLURM_MEM_BIND" es ops r ra ht h1
    have t2 := assign_checked_step P _ _ _ es _ ra rb t1 h2
    have t3 := assign_checked_step P _ _ _ es _ rb rc t2 h3
    have t4 := assign_checked_step P _ _ _ es _ rc r1 t3 h
    simpa [mem_bind_ops, ht0, List.append_assoc] using t4
  · have hz : e.mem_bind_type = 0 := by simpa using ht0
    rw [setup_mem_bind_zero P e r hz] at h
    have := bind_defaults_step P _ _ _ _ _ es ops r r1 ht h
    simpa [mem_bind_ops, hz] using this

theorem tracks_of_env_eq {es : List CStr} {r r1 : Run} {ops : List Op}
    (h : Tracks es r ops) (henv : r1.env = r.env) : Tracks es r1 ops := by
  obtain ⟨k, hk⟩ := h
  exact ⟨k, by rw [henv, hk]⟩

theorem setup_select_jobinfo_step (P : Platform) (e : env_t) :
    Step (setup_select_jobinfo P e) (select_ops P e) := by
  intro es ops r r1 ht h
  cases hs : e.select_jobinfo with
  | none =>
    simp only [setup_select_jobinfo, hs, pure, Except.pure, Except.ok.injEq] at h
    subst h
    simpa [select_ops, hs] using ht
  | some answer =>
    cases answer with
    | none =>
      simp only [setup_select_jobinfo, hs, pure, Except.pure, bind, Except.bind,
        Except.ok.injEq] at h
      subst h
      have : Tracks es r (ops ++ select_ops P e) := by simpa [select_ops, hs] using ht
      refine tracks_of_env_eq this ?_
      split <;> rfl
    | some id =>
      rw [setup_select_jobinfo, hs] at h
      simp only [bind_assoc] at h
      obtain ⟨rb, h2, h⟩ := bind_eq_ok h
      obtain ⟨rc, h3, h⟩ := bind_eq_ok h
      obtain ⟨ra, h1, h⟩ := bind_eq_ok h
      have t1 := set_quiet_step P "MPIRUN_PARTITION" (.s id) es ops r rb ht h2
      have t2 := set_quiet_step P "MPIRUN_NOFREE" (.d 1) es _ rb rc t1 h3
      have t3 := set_quiet_step P "MPIRUN_NOALLOCATE" (.d 1) es _ rc ra t2 h1
      simp only [pure, Except.pure, Except.ok.injEq] at h
      subst h
      have : Tracks es ra (ops ++ select_ops P e) := by
        simpa [select_ops, hs, List.append_assoc] using t3
      refine tracks_of_env_eq this ?_
      split <;> rfl

theorem setup_cli_step (P : Platform) (e : env_t) :
    Step (setup_cli P e) (cli_ops P e) := by
  intro es ops r r1 ht h
  cases hc : e.cli with
  | none =>
    simp only [setup_cli, hc, pure, Except.pure, Except.ok.injEq] at h
    subst h
    simpa [cli_ops, hc] using ht
  | some addrbuf =>
    rw [setup_cli, hc] at h
    obtain ⟨⟨ra, st⟩, h1, h⟩ := bind_eq_ok h
    have t1 := (call_setenvf_tracks P _ _ es ops r ra st ht h1).1
    simp only [pure, Except.pure, Except.ok.injEq] at h
    subst h
    simpa [cli_ops, hc] using t1

theorem setup_aix_step (P : Platform) : Step (setup_aix P) (aix_ops P) := by
  intro es ops r r1 ht h
  by_cases ha : P.HAVE_AIX = true
  · rw [setup_aix, if_pos ha] at h
    obtain ⟨⟨ra, s1⟩, h1, h⟩ := bind_eq_ok h
    obtain ⟨⟨rb, s2⟩, h2, h⟩ := bind_eq_ok h
    obtain ⟨⟨rc, s3⟩, h3, h⟩ := bind_eq_ok h
    have t1 := (call_setenvf_tracks P _ _ es ops r ra s1 ht h1).1
    have t2 := (call_setenvf_tracks P _ _ es _ ra rb s2 t1 h2).1
    have t3 := (call_setenvf_tracks P _ _ es _ rb rc s3 t2 h3).1
    simp only [pure, Except.pure, Except.ok.injEq] at h
    subst h
    simpa [aix_ops, ha, List.append_assoc] using t3
  · rw [setup_aix, if_neg ha] at h
    simp only [pure, Except.pure, Except.ok.injEq] at h
    subst h
    simpa [aix_ops, ha] using ht

/-- The vector after a completed run of `setup_env` on a vector: the entries
changed by the operations `setup_ops P e`, in order. -/
theorem setup_env_run_tracks (P : Platform) (e : env_t) (es : List CStr) (k : Nat) (r : Run)
    (henv : e.env = some (vector_of es k)) (h : setup_env_run P e = .ok r) :
    Tracks es r (setup_ops P e) := by
  have t0 : Tracks es ({ env := e.env, put := [], rc := P.SLURM_SUCCESS, log := [] } : Run) [] :=
    ⟨k, by simp [apply_ops, henv]⟩
  unfold setup_env_run at h
  obtain ⟨r1, h1, h⟩ := bind_eq_ok h
  have t1 := set_if_step P _ _ _ _ es _ _ r1 t0 h1
  obtain ⟨r2, h2, h⟩ := bind_eq_ok h
  have t2 := set_if_step P _ _ _ _ es _ _ r2 t1 h2
  obtain ⟨r3, h3, h⟩ := bind_eq_ok h
  have t3 := set_if_step P _ _ _ _ es _ _ r3 t2 h3
  obtain ⟨r4, h4, h⟩ := bind_eq_ok h
  have t4 := set_if_step P _ _ _ _ es _ _ r4 t3 h4
  obtain ⟨r5, h5, h⟩ := bind_eq_ok h
  have t5 := setup_distribution_step P e es _ _ r5 t4 h5
  obtain ⟨r6, h6, h⟩ := bind_eq_ok h
  have t6 := setup_cpu_bind_step P e es _ _ r6 t5 h6
  obtain ⟨r7, h7, h⟩ := bind_eq_ok h
  have t7 := setup_mem_bind_step P e es _ _ r7 t6 h7
  obtain ⟨r8, h8, h⟩ := bind_eq_ok h
  have t8 := set_if_step P _ _ _ _ es _ _ r8 t7 h8
  obtain ⟨r9, h9, h⟩ := bind_eq_ok h
  have t9 := set_if_step P _ _ _ _ es _ _ r9 t8 h9
  obtain ⟨r10, h10, h⟩ := bind_eq_ok h
  have t10 := set_if_step P _ _ _ _ es _ _ r10 t9 h10
  obtain ⟨r11, h11, h⟩ := bind_eq_ok h
  have t11 := setup_select_jobinfo_step P e es _ _ r11 t10 h11
  obtain ⟨r12, h12, h⟩ := bind_eq_ok h
  have t12 := set_if_step P _ _ _ _ es _ _ r12 t11 h12
  obtain ⟨r13, h13, h⟩ := bind_eq_ok h
  have t13 := set_if_step P _ _ _ _ es _ _ r13 t12 h13
  obtain ⟨r14, h14, h⟩ := bind_eq_ok h
  have t14 := set_if_step P _ _ _ _ es _ _ r14 t13 h14
  obtain ⟨r15, h15, h⟩ := bind_eq_ok h
  have t15 := set_if_step P _ _ _ _ es _ _ r15 t14 h15
  obtain ⟨r16, h16, h⟩ := bind_eq_ok h
  have t16 := set_if_step P _ _ _ _ es _ _ r16 t15 h16
  obtain ⟨r17, h17, h⟩ := bind_eq_ok h
  have t17 := set_if_step P _ _ _ _ es _ _ r17 t16 h17
  obtain ⟨r18, h18, h⟩ := bind_eq_ok h
  have t18 := set_if_step P _ _ _ _ es _ _ r18 t17 h18
  obtain ⟨r19, h19, h⟩ := bind_eq_ok h
  have t19 := set_if_step P _ _ _ _ es _ _ r19 t18 h19
  obtain ⟨r20, h20, h⟩ := bind_eq_ok h
  have t20 := set_if_step P _ _ _ _ es _ _ r20 t19 h20
  obtain ⟨r21, h21, h⟩ := bind_eq_ok h
  have t21 := set_if_step P _ _ _ _ es _ _ r21 t20 h21
  obtain ⟨r22, h22, h⟩ := bind_eq_ok h
  have t22 := setup_cli_step P e es _ _ r22 t21 h22
  have tlast := setup_aix_step P es _ _ r t22 h
  simpa [setup_ops, ops_before_ids, ops_after_ids, List.append_assoc] using tlast

/-! ## Lookups through operations -/

theorem setup_names_valid : ∀ n ∈ setup_names, valid_name n := by decide

theorem name_matches_other (X Y e : CStr) (hX : valid_name X) (hY : valid_name Y)
    (hne : Y ≠ X) (h : name_matches e Y = true) : name_matches e X = false := by
  rw [name_matches_false_iff X hX.1]
  intro hx
  exact hne (entry_name_unique Y X e hY.2 hX.2 ((name_matches_iff Y hY.1 e).mp h) hx)

theorem lookup_cons_false (X e : CStr) (es : List CStr) (h : name_matches e X = false) :
    lookup X (e :: es) = lookup X es := by
  simp [lookup, h]

theorem lookup_remove_skip_other_aux (X Y : CStr)
    (hm : ∀ e, name_matches e Y = true → name_matches e X = false) (n : Nat) :
    ∀ es : List CStr, es.length ≤ n → lookup X (remove_skip Y es) = lookup X es := by
  induction n with
  | zero =>
    intro es h
    cases es with
    | nil => rfl
    | cons e es => simp at h
  | succ n ih =>
    intro es h
    cases es with
    | nil => rfl
    | cons e es =>
      by_cases he : name_matches e Y = true
      · cases es with
        | nil => simp [remove_skip, he, lookup, hm e he]
        | cons x rest =>
          have := ih rest (by simp at h; omega)
          simp only [remove_skip, he, if_true]
          rw [lookup_cons_false X e _ (hm e he)]
          simp only [lookup, this]
      · have he2 : name_matches e Y = false := by simpa using he
        have := ih es (by simp at h; omega)
        rw [remove_skip_cons_false Y e es he2]
        simp only [lookup, this]

theorem lookup_remove_skip_other (X Y : CStr) (hX : valid_name X) (hY : valid_name Y)
    (hne : Y ≠ X) (es : List CStr) : lookup X (remove_skip Y es) = lookup X es :=
  lookup_remove_skip_other_aux X Y (fun e h => name_matches_other X Y e hX hY hne h)
    es.length es (Nat.le_refl _)

theorem lookup_apply_op_other (X : CStr) (hX : valid_name X) (op : Op)
    (hop : valid_name op.name) (hne : op.name ≠ X) (es : List CStr) :
    lookup X (apply_op es op) = lookup X es := by
  cases op with
  | set name value =>
    exact lookup_set_other name X value hop.1 hX.1 hop.2 hX.2 hne es
  | unset name =>
    exact lookup_remove_skip_other X name hX hop hne es

theorem lookup_apply_ops_avoid (X : CStr) (hX : valid_name X) (ops : List Op)
    (hv : ∀ op ∈ ops, valid_name op.name) (ha : avoids X ops) (es : List CStr) :
    lookup X (apply_ops es ops) = lookup X es := by
  induction ops generalizing es with
  | nil => rfl
  | cons op ops ih =>
    have h1 : apply_ops es (op :: ops) = apply_ops (apply_op es op) ops := rfl
    rw [h1, ih (fun o ho => hv o (by simp [ho])) (fun o ho => ha o (by simp [ho])),
      lookup_apply_op_other X hX op (hv op (by simp)) (ha op (by simp))]

/-- After operations whose last one about the name `X` is `set X v`, the first
entry for `X` carries the value `v`. -/
theorem lookup_apply_ops_set (X v : CStr) (hX : valid_name X) (A B : List Op)
    (hB : ∀ op ∈ B, valid_name op.name) (ha : avoids X B) (es : List CStr) :
    lookup X (apply_ops es (A ++ .set X v :: B)) = some v := by
  have h1 : apply_ops es (A ++ .set X v :: B)
      = apply_ops (apply_op (apply_ops es A) (.set X v)) B := by
    simp [apply_ops, List.foldl_append]
  rw [h1, lookup_apply_ops_avoid X hX B hB ha]
  exact lookup_set_same X v hX.1 _

theorem getenvp_tracks (X : CStr) (es : List CStr) (r : Run) (ops : List Op)
    (h : Tracks es r ops) : getenvp r.env X = .ok (lookup X (apply_ops es ops)) := by
  obtain ⟨k, hk⟩ := h
  rw [hk, getenvp_vector_of]

/-! ## The names in the operations of `setup_env` -/

theorem avoids_append (X : CStr) (l1 l2 : List Op) :
    avoids X (l1 ++ l2) ↔ avoids X l1 ∧ avoids X l2 := by
  simp only [avoids, List.mem_append]
  constructor
  · intro h
    exact ⟨fun op ho => h op (Or.inl ho), fun op ho => h op (Or.inr ho)⟩
  · rintro ⟨h1, h2⟩ op (ho | ho)
    · exact h1 op ho
    · exact h2 op ho

theorem avoids_nil (X : CStr) : avoids X [] := by
  intro op ho
  simp at ho

theorem avoids_ops_if (X : CStr) (P : Platform) (c : Bool) (name : String) (fmt : Fmt)
    (h : name.toList ≠ X) : avoids X (ops_if P c name fmt) := by
  intro op ho
  cases c with
  | false => simp [ops_if] at ho
  | true =>
    simp only [ops_if, if_true, List.mem_singleton] at ho
    subst ho
    exact h

theorem avoids_of_names (X : CStr) (l : List Op) (names : List CStr)
    (hn : ∀ op ∈ l, op.name ∈ names) (hX : X ∉ names) : avoids X l := by
  intro op ho hx
  exact hX (hx ▸ hn op ho)

theorem names_ops_if (P : Platform) (c : Bool) (name : String) (fmt : Fmt) :
    ∀ op ∈ ops_if P c name fmt, op.name ∈ [name.toList] := by
  intro op ho
  cases c with
  | false => simp [ops_if] at ho
  | true =>
    simp only [ops_if, if_true, List.mem_singleton] at ho
    subst ho
    simp [op_set, Op.name]

theorem names_cpu_bind_ops (P : Platform) (e : env_t) :
    ∀ op ∈ cpu_bind_ops P e, op.name ∈
      ["SLURM_CPU_BIND".toList, "SLURM_CPU_BIND_VERBOSE".toList,
       "SLURM_CPU_BIND_TYPE".toList, "SLURM_CPU_BIND_LIST".toList] := by
  intro op ho
  unfold cpu_bind_ops at ho
  split at ho <;>
    · simp only [List.mem_cons, List.mem_singleton, List.not_mem_nil, or_false] at ho
      rcases ho with rfl | rfl | rfl | rfl | rfl <;> simp [op_set, Op.name]

theorem names_mem_bind_ops (P : Platform) (e : env_t) :
    ∀ op ∈ mem_bind_ops P e, op.name ∈
      ["SLURM_MEM_BIND".toList, "SLURM_MEM_BIND_VERBOSE".toList,
       "SLURM_MEM_BIND_TYPE".toList, "SLURM_MEM_BIND_LIST".toList] := by
  intro op ho
  unfold mem_bind_ops at ho
  split at ho <;>
    · simp only [List.mem_cons, List.mem_singleton, List.not_mem_nil, or_false] at ho
      rcases ho with rfl | rfl | rfl | rfl <;> simp [op_set, Op.name]

theorem names_select_ops (P : Platform) (e : env_t) :
    ∀ op ∈ select_ops P e, op.name ∈
      ["MPIRUN_PARTITION".toList, "MPIRUN_NOFREE".toList, "MPIRUN_NOALLOCATE".toList] := by
  intro op ho
  unfold select_ops at ho
  split at ho
  · simp only [List.mem_cons, List.mem_singleton, List.not_mem_nil, or_false] at ho
    rcases ho with rfl | rfl | rfl <;> simp [op_set, Op.name]
  · simp at ho

theorem names_cli_ops (P : Platform) (e : env_t) :
    ∀ op ∈ cli_ops P e, op.name ∈ ["SLURM_LAUNCH_NODE_IPADDR".toList] := by
  intro op ho
  unfold cli_ops at ho
  split at ho
  · simp only [List.mem_singleton] at ho
    subst ho
    simp [op_set, Op.name]
  · simp at ho

theorem names_aix_ops (P : Platform) :
    ∀ op ∈ aix_ops P, op.name ∈
      ["MP_POERESTART_ENV".toList, "LOADLBATCH".toList, "LOADL_ACTIVE".toList] := by
  intro op ho
  unfold aix_ops at ho
  split at ho
  · simp only [List.mem_cons, List.mem_singleton, List.not_mem_nil, or_false] at ho
    rcases ho with rfl | rfl | rfl <;> simp [op_set, Op.name]
  · simp at ho

theorem in_setup_names_append {l1 l2 : List Op}
    (h1 : ∀ op ∈ l1, op.name ∈ setup_names) (h2 : ∀ op ∈ l2, op.name ∈ setup_names) :
    ∀ op ∈ l1 ++ l2, op.name ∈ setup_names := by
  intro op ho
  rcases List.mem_append.mp ho with h | h
  · exact h1 op h
  · exact h2 op h

theorem in_setup_names_if (P : Platform) (c : Bool) (name : String) (fmt : Fmt)
    (h : name.toList ∈ setup_names) : ∀ op ∈ ops_if P c name fmt, op.name ∈ setup_names := by
  intro op ho
  have := names_ops_if P c name fmt op ho
  simp only [List.mem_singleton] at this
  rw [this]
  exact h

theorem in_setup_names_of {l : List Op} {names : List CStr}
    (h : ∀ op ∈ l, op.name ∈ names) (hs : ∀ n ∈ names, n ∈ setup_names) :
    ∀ op ∈ l, op.name ∈ setup_names :=
  fun op ho => hs _ (h op ho)

/-- Every operation of `setup_env` is about one of the names `setup_names`. -/
theorem names_setup_ops (P : Platform) (e : env_t) :
    ∀ op ∈ setup_ops P e, op.name ∈ setup_names := by
  simp only [setup_ops, ops_before_ids, ops_after_ids, List.append_assoc]
  refine in_setup_names_append (in_setup_names_if P _ _ _ (by decide)) ?_
  refine in_setup_names_append (in_setup_names_if P _ _ _ (by decide)) ?_
  refine in_setup_names_append (in_setup_names_if P _ _ _ (by decide)) ?_
  refine in_setup_names_append (in_setup_names_if P _ _ _ (by decide)) ?_
  refine in_setup_names_append (in_setup_names_if P _ _ _ (by decide)) ?_
  refine in_setup_names_append (in_setup_names_of (names_cpu_bind_ops P e) (by decide)) ?_
  refine in_setup_names_append (in_setup_names_of (names_mem_bind_ops P e) (by decide)) ?_
  refine in_setup_names_append (in_setup_names_if P _ _ _ (by decide)) ?_
  refine in_setup_names_append (in_setup_names_if P _ _ _ (by decide)) ?_
  refine in_setup_names_append (in_setup_names_if P _ _ _ (by decide)) ?_
  refine in_setup_names_append (in_setup_names_of (names_select_ops P e) (by decide)) ?_
  refine in_setup_names_append (in_setup_names_if P _ _ _ (by decide)) ?_
  refine in_setup_names_append (in_setup_names_if P _ _ _ (by decide)) ?_
  refine in_setup_names_append (in_setup_names_if P _ _ _ (by decide)) ?_
  refine in_setup_names_append (in_setup_names_if P _ _ _ (by decide)) ?_
  refine in_setup_names_append (in_setup_names_if P _ _ _ (by decide)) ?_
  refine in_setup_names_append (in_setup_names_if P _ _ _ (by decide)) ?_
  refine in_setup_names_append (in_setup_names_if P _ _ _ (by decide)) ?_
  refine in_setup_names_append (in_setup_names_if P _ _ _ (by decide)) ?_
  refine in_setup_names_append (in_setup_names_if P _ _ _ (by decide)) ?_
  refine in_setup_names_append (in_setup_names_if P _ _ _ (by decide)) ?_
  refine in_setup_names_append (in_setup_names_of (names_cli_ops P e) (by decide)) ?_
  exact in_setup_names_of (names_aix_ops P) (by decide)

theorem valid_setup_ops (P : Platform) (e : env_t) :
    ∀ op ∈ setup_ops P e, valid_name op.name :=
  fun op ho => setup_names_valid _ (names_setup_ops P e op ho)

/-! ## C12: the status returned by `setup_env` -/

/-- C12 (the code departs from the claim). Whatever happened in the sub-steps,
a run of `setup_env` that reaches its end returns `SLURM_SUCCESS` (line 529),
not the local `rc`.  With the placement information present and the query
without answer, in the process environment as well as on the vector `A=1`,
NULL, `rc` is set to `SLURM_FAILURE` and the diagnostic is logged, and the
value returned is 0, which is `SLURM_SUCCESS`. -/
theorem C12_setup_env_returns_success :
    (∀ (P : Platform) (e : env_t),
      (setup_env P (some e)).map Prod.fst
        = (setup_env_run P e).map (fun _ => P.SLURM_SUCCESS)) ∧
    sample_platform.SLURM_SUCCESS = 0 ∧ sample_platform.SLURM_FAILURE = -1 ∧
    (setup_env sample_platform
        (some { blank_env_t with select_jobinfo := some none, env := none })).map
        (fun out => (out.1, out.2.map (fun r => (r.rc, r.log))))
      = .ok (0, some (-1, ["Can't set MPIRUN_PARTITION environment variable"])) ∧
    (setup_env sample_platform
        (some { blank_env_t with select_jobinfo := some none,
                                 env := some [some "A=1".toList, none] })).map
        (fun out => (out.1, out.2.map (fun r => (r.rc, r.log))))
      = .ok (0, some (-1, ["Can't set MPIRUN_PARTITION environment variable"])) := by
  refine ⟨?_, by decide, by decide, by decide, by decide⟩
  intro P e
  simp only [setup_env]
  cases setup_env_run P e <;> rfl

/-! ## C14: the binding lists -/

/-- C14 (the code departs from the claim). With the rank bit of
`cpu_bind_type` set and no `cpu_bind` string, on the vector `A=1`, NULL:
line 316 sets the list to the empty string and line 318 then calls `setenvf`
with the NULL `env->cpu_bind` as format, a fault; no vector results.  With a
`cpu_bind` string the string is the format of both calls: `50%%` is stored as
`50%`.  On the memory side an absent `mem_bind` gives the empty value. -/
theorem C14_bind_list_faults :
    setup_env sample_platform
        (some { blank_env_t with cpu_bind_type := 2, cpu_bind := none,
                                 env := some [some "A=1".toList, none] })
      = .error .null_format ∧
    (setup_env sample_platform
        (some { blank_env_t with cpu_bind_type := 2, cpu_bind := some "50%%".toList,
                                 env := some [some "A=1".toList, none] })).map
        (fun out => out.2.map (fun r => getenvp r.env "SLURM_CPU_BIND_LIST".toList))
      = .ok (some (.ok (some "50%".toList))) ∧
    (setup_env sample_platform
        (some { blank_env_t with mem_bind_type := 2, mem_bind := none,
                                 env := some [some "A=1".toList, none] })).map
        (fun out => out.2.map (fun r => getenvp r.env "SLURM_MEM_BIND_LIST".toList))
      = .ok (some (.ok (some []))) := by
  decide

/-! ## C16, C17: `_extend_env` -/

/-- C16 (the code departs from the claim). On a vector without entries,
`n = 0`, `_extend_env` faults: its scan reads outside the allocation.  On a
vector of `n >= 1` entries and `k + 1` NULL slots it does what the claim says:
the array grows by one slot, the entries are unchanged, slot `n` is returned,
and slot `n + 1` exists and is NULL. -/
theorem C16_extend_env :
    (∀ k : Nat, _extend_env (vector_of [] k) = .error .outside) ∧
    (∀ (es : List CStr) (e : CStr) (k : Nat),
      _extend_env (vector_of (es ++ [e]) k)
        = .ok (vector_of (es ++ [e]) (k + 1), (es ++ [e]).length) ∧
      (vector_of (es ++ [e]) (k + 1)).length = (vector_of (es ++ [e]) k).length + 1 ∧
      (vector_of (es ++ [e]) (k + 1))[(es ++ [e]).length + 1]? = some none) := by
  refine ⟨extend_env_no_entry, ?_⟩
  intro es e k
  refine ⟨?_, ?_, ?_⟩
  · rw [extend_env_vector]
    simp
  · rw [length_vector_of, length_vector_of]
    omega
  · have := getElem?_entries_nulls (es ++ [e]) (k + 1 + 1) 1 (by omega)
    simpa [vector_of] using this

theorem scan_reads_nulls (m i : Nat) (h : i < m) :
    (-1 : Int) ∈ scan_reads (List.replicate m none) i := by
  induction i with
  | zero =>
    have hg : (List.replicate m (none : Option CStr))[0]? = some none := by simp [h]
    simp [scan_reads, hg]
  | succ i ih =>
    have hg : (List.replicate m (none : Option CStr))[i + 1]? = some none := by simp [h]
    simp only [scan_reads, hg, List.mem_cons]
    exact Or.inr (ih (by omega))

theorem scan_reads_entries (es : List CStr) (e : CStr) (m j : Nat) (h : j ≤ m) :
    ∀ x ∈ scan_reads ((es ++ [e]).map some ++ List.replicate m none) (es.length + j),
      (es.length : Int) ≤ x ∧ x ≤ ((es.length + j : Nat) : Int) := by
  induction j with
  | zero =>
    obtain ⟨y, hy⟩ : ∃ y, ((es ++ [e]).map some ++ List.replicate m none)[es.length]?
        = some (some y) :=
      ⟨_, getElem?_entries_lt (es ++ [e]) (List.replicate m none) es.length (by simp)⟩
    intro x hx
    generalize hn : es.length = n at hy hx ⊢
    cases n with
    | zero =>
      simp only [Nat.add_zero, scan_reads, hy, List.mem_singleton] at hx
      subst hx
      simp
    | succ n =>
      simp only [Nat.add_zero, scan_reads, hy, List.mem_singleton] at hx
      subst hx
      simp
  | succ j ih =>
    have hg := getElem?_entries_nulls (es ++ [e]) m j (by omega)
    have hidx : (es ++ [e]).length + j = es.length + j + 1 := by
      simp only [List.length_append, List.length_singleton]; omega
    rw [hidx] at hg
    intro x hx
    have hx2 : x ∈ scan_reads ((es ++ [e]).map some ++ List.replicate m none)
        (es.length + j + 1) := hx
    simp only [scan_reads, hg, List.mem_cons] at hx2
    rcases hx2 with rfl | hx2
    · constructor
      · push_cast; omega
      · push_cast; omega
    · have := ih (by omega) x hx2
      constructor
      · exact this.1
      · have h2 := this.2
        push_cast at h2 ⊢
        omega

/-- C17 (the code departs from the claim). On the empty vector, which holds
the terminator only, the scan of `_extend_env` reads slot 0 and then slot -1;
on every vector without entries slot -1 is among the slots read.  On a vector
with at least one entry every slot read lies between the last entry and slot
`newcnt - 2`, inside the allocation. -/
theorem C17_extend_env_reads :
    extend_reads [none] = [0, -1] ∧
    (∀ k : Nat, (-1 : Int) ∈ extend_reads (vector_of [] k)) ∧
    (∀ (es : List CStr) (e : CStr) (k : Nat),
      ∀ x ∈ extend_reads (vector_of (es ++ [e]) k),
        0 ≤ x ∧ x < (((vector_of (es ++ [e]) k).length + 1 : Nat) : Int)) := by
  refine ⟨by decide, ?_, ?_⟩
  · intro k
    have happ : vector_of [] k ++ [none] = List.replicate (k + 2) none := by
      simp [vector_of, List.replicate_succ']
    have hlen : (vector_of [] k).length + 1 - 2 = k := by
      rw [length_vector_of]; simp
    rw [extend_reads, happ, hlen]
    exact scan_reads_nulls (k + 2) k (by omega)
  · intro es e k x hx
    have hl := length_vector_of (es ++ [e]) k
    simp only [List.length_append, List.length_singleton] at hl
    have hlen : (vector_of (es ++ [e]) k).length + 1 - 2 = es.length + (k + 1) := by
      omega
    have happ : vector_of (es ++ [e]) k ++ [none]
        = (es ++ [e]).map some ++ List.replicate (k + 1 + 1) none := by
      simp [vector_of, List.replicate_succ']
    rw [extend_reads, happ, hlen] at hx
    have := scan_reads_entries es e (k + 1 + 1) (k + 1) (by omega) x hx
    have h1 := this.1
    have h2 := this.2
    rw [hl]
    push_cast at h2 ⊢
    constructor <;> omega

/-! ## C11: the distribution -/

theorem lookup_setup_ops (P : Platform) (e : env_t) (X v : CStr) (A B : List Op)
    (hX : valid_name X) (hd : setup_ops P e = A ++ .set X v :: B) (ha : avoids X B)
    (es : List CStr) : lookup X (apply_ops es (setup_ops P e)) = some v := by
  have hB : ∀ op ∈ B, valid_name op.name := by
    intro op ho
    exact valid_setup_ops P e op (by rw [hd]; simp [ho])
  rw [hd]
  exact lookup_apply_ops_set X v hX A B hB ha es

theorem lookup_setup_ops_avoid (P : Platform) (e : env_t) (X : CStr) (hX : valid_name X)
    (ha : avoids X (setup_ops P e)) (es : List CStr) :
    lookup X (apply_ops es (setup_ops P e)) = lookup X es :=
  lookup_apply_ops_avoid X hX _ (valid_setup_ops P e) ha es

theorem fmt_text_s (P : Platform) (v : CStr) (h : v.length < P.BUFSIZ) :
    fmt_text P (.s v) = v := by
  simp [fmt_text, vsnprintf_s P.BUFSIZ v h]

/-- A guarded call that is made on a vector with at least one entry, with a
string that fits the buffer: it returns, nothing is reported, and the variable
has the string as its value. -/
theorem set_if_entries (P : Platform) (r : Run) (name : String) (v : CStr) (msg : String)
    (es : List CStr) (k : Nat) (hr : r.env = some (vector_of es k)) (hes : es ≠ [])
    (hname : NUL ∉ name.toList) (hv : v.length < P.BUFSIZ) :
    ∃ r1 : Run, set_if P r true name (.s v) msg = .ok r1 ∧
      getenvp r1.env name.toList = .ok (some v) ∧ r1.rc = r.rc ∧ r1.log = r.log := by
  have hs := setenvf_entries P name.toList (.s v) v es k hes (vsnprintf_s P.BUFSIZ v hv)
  refine ⟨{ r with env := some (vector_of (set_entry name.toList (compose name.toList v) es) k) },
    ?_, ?_, rfl, rfl⟩
  · simp only [set_if, call_setenvf, hr, hs, bind, Except.bind, pure, Except.pure, if_true]
    simp
  · show getenvp (some _) _ = _
    rw [getenvp_vector_of, lookup_set_same name.toList v hname]

theorem avoids_after_distribution (P : Platform) (e : env_t) :
    avoids "SLURM_DISTRIBUTION".toList
      (cpu_bind_ops P e ++
      (mem_bind_ops P e ++
      (ops_if P (e.overcommit ≠ 0) "SLURM_OVERCOMMIT" (.plain "1".toList) ++
      (ops_if P (e.slurmd_debug ≠ 0) "SLURMD_DEBUG" (.d e.slurmd_debug) ++
      (ops_if P (e.labelio ≠ 0) "SLURM_LABELIO" (.plain "1".toList) ++
      (select_ops P e ++
      (ops_if P (e.jobid ≥ 0) "SLURM_JOBID" (.d e.jobid) ++
      (ops_if P (e.nodeid ≥ 0) "SLURM_NODEID" (.d e.nodeid) ++
      ops_after_ids P e)))))))) := by
  simp only [avoids_append, ops_after_ids]
  and_intros
  all_goals first
    | exact avoids_ops_if _ P _ _ _ (by decide)
    | exact avoids_of_names _ _ _ (names_cpu_bind_ops P e) (by decide)
    | exact avoids_of_names _ _ _ (names_mem_bind_ops P e) (by decide)
    | exact avoids_of_names _ _ _ (names_select_ops P e) (by decide)
    | exact avoids_of_names _ _ _ (names_cli_ops P e) (by decide)
    | exact avoids_of_names _ _ _ (names_aix_ops P) (by decide)

theorem setup_ops_distribution (P : Platform) (e : env_t) (h : 0 ≤ e.distribution) :
    setup_ops P e
      = (ops_if P (e.task_pid ≠ 0) "SLURM_TASK_PID" (.d e.task_pid) ++
        (ops_if P (e.nprocs ≠ 0) "SLURM_NPROCS" (.d e.nprocs) ++
        (ops_if P (e.cpus_per_task ≠ 0) "SLURM_CPUS_PER_TASK" (.d e.cpus_per_task) ++
        ops_if P (e.cpus_on_node ≠ 0) "SLURM_CPUS_ON_NODE" (.d e.cpus_on_node)))) ++
        .set "SLURM_DISTRIBUTION".toList (fmt_text P (.s (dist_text P e.distribution).toList)) ::
        (cpu_bind_ops P e ++
        (mem_bind_ops P e ++
        (ops_if P (e.overcommit ≠ 0) "SLURM_OVERCOMMIT" (.plain "1".toList) ++
        (ops_if P (e.slurmd_debug ≠ 0) "SLURMD_DEBUG" (.d e.slurmd_debug) ++
        (ops_if P (e.labelio ≠ 0) "SLURM_LABELIO" (.plain "1".toList) ++
        (select_ops P e ++
        (ops_if P (e.jobid ≥ 0) "SLURM_JOBID" (.d e.jobid) ++
        (ops_if P (e.nodeid ≥ 0) "SLURM_NODEID" (.d e.nodeid) ++
        ops_after_ids P e)))))))) := by
  have hd : ops_if P (decide (e.distribution ≥ 0)) "SLURM_DISTRIBUTION"
      (.s (dist_text P e.distribution).toList)
      = [.set "SLURM_DISTRIBUTION".toList
          (fmt_text P (.s (dist_text P e.distribution).toList))] := by
    simp [ops_if, h, op_set]
  simp only [setup_ops, ops_before_ids, hd, List.append_assoc, List.singleton_append,
    List.cons_append, List.nil_append]

theorem avoids_before_distribution (P : Platform) (e : env_t) :
    avoids "SLURM_DISTRIBUTION".toList
      (ops_if P (e.task_pid ≠ 0) "SLURM_TASK_PID" (.d e.task_pid) ++
      (ops_if P (e.nprocs ≠ 0) "SLURM_NPROCS" (.d e.nprocs) ++
      (ops_if P (e.cpus_per_task ≠ 0) "SLURM_CPUS_PER_TASK" (.d e.cpus_per_task) ++
      ops_if P (e.cpus_on_node ≠ 0) "SLURM_CPUS_ON_NODE" (.d e.cpus_on_node)))) := by
  simp only [avoids_append]
  and_intros
  all_goals exact avoids_ops_if _ P _ _ _ (by decide)

theorem dist_text_length (P : Platform) (d : Int) : (dist_text P d).toList.length < 256 := by
  unfold dist_text
  split_ifs <;> decide

/-- Lines 258-278 case by case, for distribution constants that are
non-negative and pairwise distinct. -/
theorem setup_distribution_cases (P : Platform) (e : env_t)
    (hpos : 0 ≤ P.SLURM_DIST_CYCLIC ∧ 0 ≤ P.SLURM_DIST_BLOCK ∧ 0 ≤ P.SLURM_DIST_ARBITRARY)
    (hne : P.SLURM_DIST_CYCLIC ≠ P.SLURM_DIST_BLOCK ∧
      P.SLURM_DIST_CYCLIC ≠ P.SLURM_DIST_ARBITRARY ∧
      P.SLURM_DIST_BLOCK ≠ P.SLURM_DIST_ARBITRARY) :
    (∀ r : Run, e.distribution < 0 → setup_distribution P e r = .ok r) ∧
    (∀ r : Run, e.distribution = P.SLURM_DIST_CYCLIC →
      setup_distribution P e r = set_if P r true "SLURM_DISTRIBUTION" (.s "cyclic".toList)
        "Can't set SLURM_DISTRIBUTION env variable") ∧
    (∀ r : Run, e.distribution = P.SLURM_DIST_BLOCK →
      setup_distribution P e r = set_if P r true "SLURM_DISTRIBUTION" (.s "block".toList)
        "Can't set SLURM_DISTRIBUTION env variable") ∧
    (∀ r : Run, e.distribution = P.SLURM_DIST_ARBITRARY →
      setup_distribution P e r = set_if P r true "SLURM_DISTRIBUTION" (.s "arbitrary".toList)
        "Can't set SLURM_DISTRIBUTION env variable") ∧
    (∀ r : Run, 0 ≤ e.distribution → e.distribution ≠ P.SLURM_DIST_CYCLIC →
      e.distribution ≠ P.SLURM_DIST_BLOCK → e.distribution ≠ P.SLURM_DIST_ARBITRARY →
      setup_distribution P e r
        = set_if P
            { r with log := r.log ++
                ["unknown dist, type " ++ String.mk (fmt_d e.distribution)] }
            true "SLURM_DISTRIBUTION" (.s "unknown".toList)
            "Can't set SLURM_DISTRIBUTION env variable") := by
  obtain ⟨hc, hb, ha⟩ := hpos
  obtain ⟨hcb, hca, hba⟩ := hne
  refine ⟨?_, ?_, ?_, ?_, ?_⟩
  · intro r h
    have h0 : ¬ e.distribution ≥ 0 := by omega
    rw [setup_distribution, if_neg h0]
    rfl
  · intro r h
    have h0 : e.distribution ≥ 0 := by omega
    rw [setup_distribution, if_pos h0, if_pos h]
  · intro r h
    have h0 : e.distribution ≥ 0 := by omega
    have h1 : ¬ e.distribution = P.SLURM_DIST_CYCLIC := fun hh => hcb (hh.symm.trans h)
    rw [setup_distribution, if_pos h0, if_neg h1, if_pos h]
  · intro r h
    have h0 : e.distribution ≥ 0 := by omega
    have h1 : ¬ e.distribution = P.SLURM_DIST_CYCLIC := fun hh => hca (hh.symm.trans h)
    have h2 : ¬ e.distribution = P.SLURM_DIST_BLOCK := fun hh => hba (hh.symm.trans h)
    rw [setup_distribution, if_pos h0, if_neg h1, if_neg h2, if_pos h]
  · intro r h0 h1 h2 h3
    have h0' : e.distribution ≥ 0 := h0
    rw [setup_distribution, if_pos h0', if_neg h1, if_neg h2, if_neg h3]

/-- After a completed run on a vector the distribution variable has the token
of the distribution, and for a negative distribution the value it had. -/
theorem getenvp_distribution_after (P : Platform) (e : env_t) (hbuf : 256 ≤ P.BUFSIZ)
    (es : List CStr) (k : Nat) (r : Run) (henv : e.env = some (vector_of es k))
    (hrun : setup_env_run P e = .ok r) :
    getenvp r.env "SLURM_DISTRIBUTION".toList
      = if 0 ≤ e.distribution then
          .ok (some
            (if e.distribution = P.SLURM_DIST_CYCLIC then "cyclic".toList
             else if e.distribution = P.SLURM_DIST_BLOCK then "block".toList
             else if e.distribution = P.SLURM_DIST_ARBITRARY then "arbitrary".toList
             else "unknown".toList))
        else getenvp e.env "SLURM_DISTRIBUTION".toList := by
  have ht := setup_env_run_tracks P e es k r henv hrun
  rw [getenvp_tracks _ es r _ ht]
  by_cases h0 : 0 ≤ e.distribution
  · rw [if_pos h0,
      lookup_setup_ops P e "SLURM_DISTRIBUTION".toList _ _ _ (by decide)
        (setup_ops_distribution P e h0) (avoids_after_distribution P e) es,
      fmt_text_s P _ (by have := dist_text_length P e.distribution; omega)]
    unfold dist_text
    split_ifs <;> rfl
  · rw [if_neg h0, henv, getenvp_vector_of]
    congr 1
    apply lookup_setup_ops_avoid P e _ (by decide)
    have hd : ops_if P (decide (e.distribution ≥ 0)) "SLURM_DISTRIBUTION"
        (.s (dist_text P e.distribution).toList) = [] := by
      simp [ops_if, h0]
    simp only [setup_ops, ops_before_ids, hd, List.append_assoc, List.nil_append]
    have h1 := avoids_before_distribution P e
    have h2 := avoids_after_distribution P e
    simp only [avoids_append] at h1 h2 ⊢
    exact ⟨h1.1, h1.2.1, h1.2.2.1, h1.2.2.2, h2⟩

/-! ## C13: the binding tokens -/

theorem expand_plain_no_percent (v : CStr) (h : '%' ∉ v) : expand_plain v = .ok v := by
  induction v with
  | nil => rfl
  | cons c rest ih =>
    have hc : c ≠ '%' := fun hh => h (by simp [hh])
    have hr : '%' ∉ rest := fun hh => h (by simp [hh])
    rw [expand_plain.eq_def]
    simp only [if_neg hc, ih hr]
    rfl

theorem vsnprintf_plain (size : Nat) (v : CStr) (h : '%' ∉ v) (hlen : v.length < size) :
    vsnprintf size (.plain v) = .ok v := by
  simp only [vsnprintf, expand_plain_no_percent v h]
  show Except.ok (List.take (size - 1) v) = Except.ok v
  rw [List.take_of_length_le (by omega)]

theorem fmt_text_plain (P : Platform) (v : CStr) (h : '%' ∉ v) (hlen : v.length < P.BUFSIZ) :
    fmt_text P (.plain v) = v := by
  simp [fmt_text, vsnprintf_plain P.BUFSIZ v h hlen]

/-- An assignment with its check, made on a vector with at least one entry,
with a format without conversions that fits the buffer: it returns, nothing is
reported, and the variable has the text as its value. -/
theorem assign_checked_entries (P : Platform) (r : Run) (name : String) (v : CStr)
    (msg : String) (es : List CStr) (k : Nat) (hr : r.env = some (vector_of es k))
    (hes : es ≠ []) (hname : NUL ∉ name.toList) (hp : '%' ∉ v) (hv : v.length < P.BUFSIZ) :
    ∃ r1 : Run, assign_checked P r name (.plain v) msg = .ok r1 ∧
      getenvp r1.env name.toList = .ok (some v) ∧ r1.rc = r.rc ∧ r1.log = r.log := by
  have hs := setenvf_entries P name.toList (.plain v) v es k hes
    (vsnprintf_plain P.BUFSIZ v hp hv)
  refine ⟨{ r with env := some (vector_of (set_entry name.toList (compose name.toList v) es) k) },
    ?_, ?_, rfl, rfl⟩
  · simp only [assign_checked, set_stat, check_stat, call_setenvf, hr, hs, bind, Except.bind,
      pure, Except.pure]
    simp
  · show getenvp (some _) _ = _
    rw [getenvp_vector_of, lookup_set_same name.toList v hname]

theorem bind_type_text_plain (type verbose none rank mapcpu maskcpu : Nat) :
    '%' ∉ (bind_type_text type verbose none rank mapcpu maskcpu).toList ∧
    (bind_type_text type verbose none rank mapcpu maskcpu).toList.length < 16 := by
  unfold bind_type_text
  split_ifs <;> decide

theorem verbose_text_plain (type verbose : Nat) :
    '%' ∉ (verbose_text type verbose).toList ∧
    (verbose_text type verbose).toList.length < 16 := by
  unfold verbose_text
  split_ifs <;> decide

/-- The operations of `setup_env` around those of the CPU binding block. -/
theorem setup_ops_cpu_bind (P : Platform) (e : env_t) :
    setup_ops P e
      = (ops_if P (e.task_pid ≠ 0) "SLURM_TASK_PID" (.d e.task_pid) ++
      (ops_if P (e.nprocs ≠ 0) "SLURM_NPROCS" (.d e.nprocs) ++
      (ops_if P (e.cpus_per_task ≠ 0) "SLURM_CPUS_PER_TASK" (.d e.cpus_per_task) ++
      (ops_if P (e.cpus_on_node ≠ 0) "SLURM_CPUS_ON_NODE" (.d e.cpus_on_node) ++
      ops_if P (e.distribution ≥ 0) "SLURM_DISTRIBUTION"
        (.s (dist_text P e.distribution).toList))))) ++
        (cpu_bind_ops P e ++
          (mem_bind_ops P e ++
      (ops_if P (e.overcommit ≠ 0) "SLURM_OVERCOMMIT" (.plain "1".toList) ++
      (ops_if P (e.slurmd_debug ≠ 0) "SLURMD_DEBUG" (.d e.slurmd_debug) ++
      (ops_if P (e.labelio ≠ 0) "SLURM_LABELIO" (.plain "1".toList) ++
      (select_ops P e ++
      (ops_if P (e.jobid ≥ 0) "SLURM_JOBID" (.d e.jobid) ++
      (ops_if P (e.nodeid ≥ 0) "SLURM_NODEID" (.d e.nodeid) ++
      ops_after_ids P e)))))))) := by
  simp only [setup_ops, ops_before_ids, List.append_assoc]

/-- The operations of `setup_env` around those of the memory binding block. -/
theorem setup_ops_mem_bind (P : Platform) (e : env_t) :
    setup_ops P e
      = ((ops_if P (e.task_pid ≠ 0) "SLURM_TASK_PID" (.d e.task_pid) ++
      (ops_if P (e.nprocs ≠ 0) "SLURM_NPROCS" (.d e.nprocs) ++
      (ops_if P (e.cpus_per_task ≠ 0) "SLURM_CPUS_PER_TASK" (.d e.cpus_per_task) ++
      (ops_if P (e.cpus_on_node ≠ 0) "SLURM_CPUS_ON_NODE" (.d e.cpus_on_node) ++
      ops_if P (e.distribution ≥ 0) "SLURM_DISTRIBUTION"
        (.s (dist_text P e.distribution).toList))))) ++
        cpu_bind_ops P e) ++
        (mem_bind_ops P e ++
      (ops_if P (e.overcommit ≠ 0) "SLURM_OVERCOMMIT" (.plain "1".toList) ++
      (ops_if P (e.slurmd_debug ≠ 0) "SLURMD_DEBUG" (.d e.slurmd_debug) ++
      (ops_if P (e.labelio ≠ 0) "SLURM_LABELIO" (.plain "1".toList) ++
      (select_ops P e ++
      (ops_if P (e.jobid ≥ 0) "SLURM_JOBID" (.d e.jobid) ++
      (ops_if P (e.nodeid ≥ 0) "SLURM_NODEID" (.d e.nodeid) ++
      ops_after_ids P e))))))) := by
  simp only [setup_ops, ops_before_ids, List.append_assoc]

theorem avoids_after_cpu_bind (P : Platform) (e : env_t) (X : CStr)
    (hX : X = "SLURM_CPU_BIND_VERBOSE".toList ∨ X = "SLURM_CPU_BIND_TYPE".toList ∨
      X = "SLURM_CPU_BIND_LIST".toList) :
    avoids X
      (mem_bind_ops P e ++
      (ops_if P (e.overcommit ≠ 0) "SLURM_OVERCOMMIT" (.plain "1".toList) ++
      (ops_if P (e.slurmd_debug ≠ 0) "SLURMD_DEBUG" (.d e.slurmd_debug) ++
      (ops_if P (e.labelio ≠ 0) "SLURM_LABELIO" (.plain "1".toList) ++
      (select_ops P e ++
      (ops_if P (e.jobid ≥ 0) "SLURM_JOBID" (.d e.jobid) ++
      (ops_if P (e.nodeid ≥ 0) "SLURM_NODEID" (.d e.nodeid) ++
      ops_after_ids P e))))))) := by
  simp only [avoids_append, ops_after_ids]
  rcases hX with rfl | rfl | rfl
  · and_intros
    all_goals first
      | exact avoids_ops_if _ P _ _ _ (by decide)
      | exact avoids_of_names _ _ _ (names_cpu_bind_ops P e) (by decide)
      | exact avoids_of_names _ _ _ (names_mem_bind_ops P e) (by decide)
      | exact avoids_of_names _ _ _ (names_select_ops P e) (by decide)
      | exact avoids_of_names _ _ _ (names_cli_ops P e) (by decide)
      | exact avoids_of_names _ _ _ (names_aix_ops P) (by decide)
  · and_intros
    all_goals first
      | exact avoids_ops_if _ P _ _ _ (by decide)
      | exact avoids_of_names _ _ _ (names_cpu_bind_ops P e) (by decide)
      | exact avoids_of_names _ _ _ (names_mem_bind_ops P e) (by decide)
      | exact avoids_of_names _ _ _ (names_select_ops P e) (by decide)
      | exact avoids_of_names _ _ _ (names_cli_ops P e) (by decide)
      | exact avoids_of_names _ _ _ (names_aix_ops P) (by decide)
  · and_intros
    all_goals first
      | exact avoids_ops_if _ P _ _ _ (by decide)
      | exact avoids_of_names _ _ _ (names_cpu_bind_ops P e) (by decide)
      | exact avoids_of_names _ _ _ (names_mem_bind_ops P e) (by decide)
      | exact avoids_of_names _ _ _ (names_select_ops P e) (by decide)
      | exact avoids_of_names _ _ _ (names_cli_ops P e) (by decide)
      | exact avoids_of_names _ _ _ (names_aix_ops P) (by decide)

theorem avoids_after_mem_bind (P : Platform) (e : env_t) (X : CStr)
    (hX : X = "SLURM_MEM_BIND_VERBOSE".toList ∨ X = "SLURM_MEM_BIND_TYPE".toList ∨
      X = "SLURM_MEM_BIND_LIST".toList) :
    avoids X
      (ops_if P (e.overcommit ≠ 0) "SLURM_OVERCOMMIT" (.plain "1".toList) ++
      (ops_if P (e.slurmd_debug ≠ 0) "SLURMD_DEBUG" (.d e.slurmd_debug) ++
      (ops_if P (e.labelio ≠ 0) "SLURM_LABELIO" (.plain "1".toList) ++
      (select_ops P e ++
      (ops_if P (e.jobid ≥ 0) "SLURM_JOBID" (.d e.jobid) ++
      (ops_if P (e.nodeid ≥ 0) "SLURM_NODEID" (.d e.nodeid) ++
      ops_after_ids P e)))))) := by
  simp only [avoids_append, ops_after_ids]
  rcases hX with rfl | rfl | rfl
  · and_intros
    all_goals first
      | exact avoids_ops_if _ P _ _ _ (by decide)
      | exact avoids_of_names _ _ _ (names_cpu_bind_ops P e) (by decide)
      | exact avoids_of_names _ _ _ (names_mem_bind_ops P e) (by decide)
      | exact avoids_of_names _ _ _ (names_select_ops P e) (by decide)
      | exact avoids_of_names _ _ _ (names_cli_ops P e) (by decide)
      | exact avoids_of_names _ _ _ (names_aix_ops P) (by decide)
  · and_intros
    all_goals first
      | exact avoids_ops_if _ P _ _ _ (by decide)
      | exact avoids_of_names _ _ _ (names_cpu_bind_ops P e) (by decide)
      | exact avoids_of_names _ _ _ (names_mem_bind_ops P e) (by decide)
      | exact avoids_of_names _ _ _ (names_select_ops P e) (by decide)
      | exact avoids_of_names _ _ _ (names_cli_ops P e) (by decide)
      | exact avoids_of_names _ _ _ (names_aix_ops P) (by decide)
  · and_intros
    all_goals first
      | exact avoids_ops_if _ P _ _ _ (by decide)
      | exact avoids_of_names _ _ _ (names_cpu_bind_ops P e) (by decide)
      | exact avoids_of_names _ _ _ (names_mem_bind_ops P e) (by decide)
      | exact avoids_of_names _ _ _ (names_select_ops P e) (by decide)
      | exact avoids_of_names _ _ _ (names_cli_ops P e) (by decide)
      | exact avoids_of_names _ _ _ (names_aix_ops P) (by decide)

theorem avoids_cons (X : CStr) (op : Op) (l : List Op) :
    avoids X (op :: l) ↔ op.name ≠ X ∧ avoids X l := by
  simp [avoids]

theorem op_set_name_ne (P : Platform) (name : String) (fmt : Fmt) (X : CStr)
    (h : name.toList ≠ X) : (op_set P name fmt).name ≠ X := h

theorem lookup_apply_ops_mid (X v : CStr) (hX : valid_name X) (A M1 M2 B : List Op)
    (hv : ∀ op ∈ M2 ++ B, valid_name op.name) (hM : avoids X M2) (hB : avoids X B)
    (es : List CStr) :
    lookup X (apply_ops es (A ++ ((M1 ++ .set X v :: M2) ++ B))) = some v := by
  have h : A ++ ((M1 ++ .set X v :: M2) ++ B) = (A ++ M1) ++ .set X v :: (M2 ++ B) := by
    simp
  rw [h]
  exact lookup_apply_ops_set X v hX _ _ hv ((avoids_append X M2 B).2 ⟨hM, hB⟩) es

/-- After a completed run on a vector, with CPU binding bits set, the type and
verbosity variables have the tokens of lines 283-306. -/
theorem lookup_cpu_bind_tokens (P : Platform) (e : env_t) (es : List CStr)
    (h : e.cpu_bind_type ≠ 0) (hbuf : 16 ≤ P.BUFSIZ) :
    lookup "SLURM_CPU_BIND_TYPE".toList (apply_ops es (setup_ops P e))
      = some (bind_type_text e.cpu_bind_type P.CPU_BIND_VERBOSE P.CPU_BIND_NONE
          P.CPU_BIND_RANK P.CPU_BIND_MAPCPU P.CPU_BIND_MASKCPU).toList ∧
    lookup "SLURM_CPU_BIND_VERBOSE".toList (apply_ops es (setup_ops P e))
      = some (verbose_text e.cpu_bind_type P.CPU_BIND_VERBOSE).toList := by
  have hty := bind_type_text_plain e.cpu_bind_type P.CPU_BIND_VERBOSE P.CPU_BIND_NONE
    P.CPU_BIND_RANK P.CPU_BIND_MAPCPU P.CPU_BIND_MASKCPU
  have hvb := verbose_text_plain e.cpu_bind_type P.CPU_BIND_VERBOSE
  have hd := setup_ops_cpu_bind P e
  rw [cpu_bind_ops, if_pos h] at hd
  have hval := valid_setup_ops P e
  rw [hd] at hval ⊢
  constructor
  · have hav := avoids_after_cpu_bind P e "SLURM_CPU_BIND_TYPE".toList (Or.inr (Or.inl rfl))
    refine Eq.trans (lookup_apply_ops_mid "SLURM_CPU_BIND_TYPE".toList
      (fmt_text P (.plain (bind_type_text e.cpu_bind_type P.CPU_BIND_VERBOSE P.CPU_BIND_NONE
          P.CPU_BIND_RANK P.CPU_BIND_MAPCPU P.CPU_BIND_MASKCPU).toList))
      (by decide) _
      [Op.unset "SLURM_CPU_BIND".toList,
        op_set P "SLURM_CPU_BIND_VERBOSE"
          (.plain (verbose_text e.cpu_bind_type P.CPU_BIND_VERBOSE).toList)]
      [op_set P "SLURM_CPU_BIND_LIST" (bind_list_fmt e.cpu_bind),
        op_set P "SLURM_CPU_BIND_LIST" (bind_list_raw e.cpu_bind)] _
      (fun op ho => hval op (by
        simp only [List.mem_append, List.mem_cons] at ho ⊢
        tauto))
      (by rw [avoids_cons, avoids_cons]; exact ⟨op_set_name_ne _ _ _ _ (by decide), op_set_name_ne _ _ _ _ (by decide),
            avoids_nil _⟩) hav es) ?_
    rw [fmt_text_plain P _ hty.1 (by omega)]
  · have hav := avoids_after_cpu_bind P e "SLURM_CPU_BIND_VERBOSE".toList (Or.inl rfl)
    refine Eq.trans (lookup_apply_ops_mid "SLURM_CPU_BIND_VERBOSE".toList
      (fmt_text P (.plain (verbose_text e.cpu_bind_type P.CPU_BIND_VERBOSE).toList))
      (by decide) _
      [Op.unset "SLURM_CPU_BIND".toList]
      [op_set P "SLURM_CPU_BIND_TYPE"
          (.plain (bind_type_text e.cpu_bind_type P.CPU_BIND_VERBOSE P.CPU_BIND_NONE
            P.CPU_BIND_RANK P.CPU_BIND_MAPCPU P.CPU_BIND_MASKCPU).toList),
        op_set P "SLURM_CPU_BIND_LIST" (bind_list_fmt e.cpu_bind),
        op_set P "SLURM_CPU_BIND_LIST" (bind_list_raw e.cpu_bind)] _
      (fun op ho => hval op (by
        simp only [List.mem_append, List.mem_cons] at ho ⊢
        tauto))
      (by rw [avoids_cons, avoids_cons, avoids_cons]
          exact ⟨op_set_name_ne _ _ _ _ (by decide), op_set_name_ne _ _ _ _ (by decide),
            op_set_name_ne _ _ _ _ (by decide), avoids_nil _⟩) hav es) ?_
    rw [fmt_text_plain P _ hvb.1 (by omega)]

/-- After a completed run on a vector, with memory binding bits set, the type
and verbosity variables have the tokens of lines 338-361. -/
theorem lookup_mem_bind_tokens (P : Platform) (e : env_t) (es : List CStr)
    (h : e.mem_bind_type ≠ 0) (hbuf : 16 ≤ P.BUFSIZ) :
    lookup "SLURM_MEM_BIND_TYPE".toList (apply_ops es (setup_ops P e))
      = some (bind_type_text e.mem_bind_type P.MEM_BIND_VERBOSE P.MEM_BIND_NONE
          P.MEM_BIND_RANK P.MEM_BIND_MAPCPU P.MEM_BIND_MASKCPU).toList ∧
    lookup "SLURM_MEM_BIND_VERBOSE".toList (apply_ops es (setup_ops P e))
      = some (verbose_text e.mem_bind_type P.MEM_BIND_VERBOSE).toList := by
  have hty := bind_type_text_plain e.mem_bind_type P.MEM_BIND_VERBOSE P.MEM_BIND_NONE
    P.MEM_BIND_RANK P.MEM_BIND_MAPCPU P.MEM_BIND_MASKCPU
  have hvb := verbose_text_plain e.mem_bind_type P.MEM_BIND_VERBOSE
  have hd := setup_ops_mem_bind P e
  rw [mem_bind_ops, if_pos h] at hd
  have hval := valid_setup_ops P e
  rw [hd] at hval ⊢
  constructor
  · have hav := avoids_after_mem_bind P e "SLURM_MEM_BIND_TYPE".toList (Or.inr (Or.inl rfl))
    refine Eq.trans (lookup_apply_ops_mid "SLURM_MEM_BIND_TYPE".toList
      (fmt_text P (.plain (bind_type_text e.mem_bind_type P.MEM_BIND_VERBOSE P.MEM_BIND_NONE
          P.MEM_BIND_RANK P.MEM_BIND_MAPCPU P.MEM_BIND_MASKCPU).toList))
      (by decide) _
      [Op.unset "SLURM_MEM_BIND".toList,
        op_set P "SLURM_MEM_BIND_VERBOSE"
          (.plain (verbose_text e.mem_bind_type P.MEM_BIND_VERBOSE).toList)]
      [op_set P "SLURM_MEM_BIND_LIST" (bind_list_fmt e.mem_bind)] _
      (fun op ho => hval op (by
        simp only [List.mem_append, List.mem_cons] at ho ⊢
        tauto))
      (by rw [avoids_cons]; exact ⟨op_set_name_ne _ _ _ _ (by decide), avoids_nil _⟩) hav es) ?_
    rw [fmt_text_plain P _ hty.1 (by omega)]
  · have hav := avoids_after_mem_bind P e "SLURM_MEM_BIND_VERBOSE".toList (Or.inl rfl)
    refine Eq.trans (lookup_apply_ops_mid "SLURM_MEM_BIND_VERBOSE".toList
      (fmt_text P (.plain (verbose_text e.mem_bind_type P.MEM_BIND_VERBOSE).toList))
      (by decide) _
      [Op.unset "SLURM_MEM_BIND".toList]
      [op_set P "SLURM_MEM_BIND_TYPE"
          (.plain (bind_type_text e.mem_bind_type P.MEM_BIND_VERBOSE P.MEM_BIND_NONE
            P.MEM_BIND_RANK P.MEM_BIND_MAPCPU P.MEM_BIND_MASKCPU).toList),
        op_set P "SLURM_MEM_BIND_LIST" (bind_list_fmt e.mem_bind)] _
      (fun op ho => hval op (by
        simp only [List.mem_append, List.mem_cons] at ho ⊢
        tauto))
      (by rw [avoids_cons, avoids_cons]
          exact ⟨op_set_name_ne _ _ _ _ (by decide), op_set_name_ne _ _ _ _ (by decide),
            avoids_nil _⟩) hav es) ?_
    rw [fmt_text_plain P _ hvb.1 (by omega)]

/-! ## C15: the address of the launch node -/

theorem takeWhile_append_dropWhile (p : Char → Bool) (l : List Char) :
    l = l.takeWhile p ++ l.dropWhile p := by
  induction l with
  | nil => rfl
  | cons a l ih =>
    by_cases h : p a = true
    · simp only [List.takeWhile_cons, List.dropWhile_cons, h, if_true, List.cons_append]
      exact congrArg _ ih
    · simp [List.takeWhile_cons, List.dropWhile_cons, h]

theorem colon_not_mem_takeWhile (l : List Char) : ':' ∉ l.takeWhile (· ≠ ':') := by
  intro h
  have := List.mem_takeWhile_imp h
  simp at this

theorem colon_free_length_le (l p q : List Char) (h : l = p ++ q) (hp : ':' ∉ p) :
    p.length ≤ (l.takeWhile (· ≠ ':')).length := by
  subst h
  induction p with
  | nil => simp
  | cons a p ih =>
    have ha : a ≠ ':' := fun hh => hp (by simp [hh])
    have hp2 : ':' ∉ p := fun hh => hp (by simp [hh])
    simp only [List.cons_append, List.takeWhile_cons, ne_eq, ha, not_false_eq_true,
      decide_True, if_true, List.length_cons]
    exact Nat.succ_le_succ (ih hp2)

theorem takeWhile_colon_free (l : List Char) (h : ':' ∉ l) : l.takeWhile (· ≠ ':') = l := by
  induction l with
  | nil => rfl
  | cons a l ih =>
    have ha : a ≠ ':' := fun hh => h (by simp [hh])
    have hl : ':' ∉ l := fun hh => h (by simp [hh])
    rw [List.takeWhile_cons, if_pos (by simpa using ha), ih hl]

theorem takeWhile_length_le (p : Char → Bool) (l : List Char) :
    (l.takeWhile p).length ≤ l.length := by
  have h := congrArg List.length (takeWhile_append_dropWhile p l)
  rw [List.length_append] at h
  omega

/-- The operations of `setup_env` before those of the launch-node address. -/
theorem setup_ops_cli (P : Platform) (e : env_t) :
    setup_ops P e
      = (ops_before_ids P e ++
        (ops_if P (e.jobid ≥ 0) "SLURM_JOBID" (.d e.jobid) ++
        (ops_if P (e.nodeid ≥ 0) "SLURM_NODEID" (.d e.nodeid) ++
        (ops_if P (e.procid ≥ 0) "SLURM_PROCID" (.d e.procid) ++
        (ops_if P (e.localid ≥ 0) "SLURM_LOCALID" (.d e.localid) ++
        (ops_if P (e.stepid ≥ 0) "SLURM_STEPID" (.d e.stepid) ++
        (ops_if P (e.nhosts ≠ 0) "SLURM_NNODES" (.d e.nhosts) ++
        (ops_if P e.nodelist.isSome "SLURM_NODELIST" (.s (e.nodelist.getD [])) ++
        (ops_if P e.task_count.isSome "SLURM_TASKS_PER_NODE" (.s (e.task_count.getD [])) ++
        (ops_if P (e.comm_port ≠ 0) "SLURM_SRUN_COMM_PORT" (.u e.comm_port) ++
        ops_if P e.comm_hostname.isSome "SLURM_SRUN_COMM_HOST"
          (.s (e.comm_hostname.getD [])))))))))))) ++
        (cli_ops P e ++ aix_ops P) := by
  simp only [setup_ops, ops_after_ids, List.append_assoc]

/-- After a completed run on a vector, with a launch-node address, the
variable has the address cut at its first colon. -/
theorem lookup_cli (P : Platform) (e : env_t) (addrbuf : CStr) (es : List CStr)
    (hcli : e.cli = some addrbuf) (hlen : addrbuf.length < P.BUFSIZ) :
    lookup "SLURM_LAUNCH_NODE_IPADDR".toList (apply_ops es (setup_ops P e))
      = some (addrbuf.takeWhile (· ≠ ':')) := by
  have hd := setup_ops_cli P e
  rw [cli_ops, hcli] at hd
  have hval := valid_setup_ops P e
  rw [hd] at hval ⊢
  refine Eq.trans (lookup_apply_ops_mid "SLURM_LAUNCH_NODE_IPADDR".toList
    (fmt_text P (.s (addrbuf.takeWhile (· ≠ ':')))) (by decide) _ [] [] _
    (fun op ho => hval op (by
      simp only [List.mem_append, List.mem_cons, List.nil_append] at ho ⊢
      tauto))
    (avoids_nil _) (avoids_of_names _ _ _ (names_aix_ops P) (by decide)) es) ?_
  rw [fmt_text_s P _ (by have := takeWhile_length_le (· ≠ ':') addrbuf; omega)]

/-! ## C18: `unsetenvp` without adjacent matches -/

theorem remove_skip_eq_filter_aux (name : CStr) (hname : NUL ∉ name) (n : Nat) :
    ∀ es : List CStr, es.length ≤ n → no_adjacent_entries_for name es →
      remove_skip name es = es.filter (fun e => decide (¬ is_entry_for name e)) := by
  induction n with
  | zero =>
    intro es h _
    cases es with
    | nil => rfl
    | cons e es => simp at h
  | succ n ih =>
    intro es h hc
    cases es with
    | nil => rfl
    | cons e es =>
      have hlen : es.length ≤ n := by simpa using h
      by_cases he : is_entry_for name e
      · have hm := (name_matches_iff name hname e).2 he
        cases es with
        | nil => simp [remove_skip, hm, he]
        | cons x rest =>
          have hx : ¬ is_entry_for name x := fun hx => hc.1 ⟨he, hx⟩
          have hc2 : no_adjacent_entries_for name rest := by
            cases rest with
            | nil => trivial
            | cons y rest2 => exact hc.2.2
          have hr := ih rest (by simp at hlen; omega) hc2
          simp [remove_skip, hm, he, hx, hr]
      · have hm := (name_matches_false_iff name hname e).2 he
        have hc2 : no_adjacent_entries_for name es := by
          cases es with
          | nil => trivial
          | cons y rest2 => exact hc.2
        rw [remove_skip_cons_false name e es hm, ih es hlen hc2]
        simp [he]

theorem remove_skip_eq_filter (name : CStr) (hname : NUL ∉ name) (es : List CStr)
    (h : no_adjacent_entries_for name es) :
    remove_skip name es = es.filter (fun e => decide (¬ is_entry_for name e)) :=
  remove_skip_eq_filter_aux name hname es.length es (Nat.le_refl _) h

theorem length_filter_add_countP (es : List CStr) (p : CStr → Bool) :
    (es.filter (fun e => !p e)).length + es.countP p = es.length := by
  induction es with
  | nil => rfl
  | cons e es ih =>
    cases hp : p e <;> simp [List.filter_cons, List.countP_cons, hp] <;> omega

/-- C18. Let `name` be a C string and let the vector hold the entries `es`
followed by `k + 1` NULL slots, where no two consecutive entries both consist
of `name` followed by `=`.  Then `unsetenvp(env, name)` returns, and the
vector afterwards holds exactly the entries of `es` that do not consist of
`name` followed by `=`, in their order in `es`, followed by the old NULL
slots and one more NULL slot for every entry removed; `envcount` of it is the
old count less the number of matching entries. -/
theorem C18_unsetenvp_removes_matches (name : CStr) (es : List CStr) (k : Nat)
    (hname : NUL ∉ name) (h : no_adjacent_entries_for name es) :
    unsetenvp (some (vector_of es k)) name
      = .ok (some (vector_of (es.filter (fun e => decide (¬ is_entry_for name e)))
          (k + es.countP (fun e => decide (is_entry_for name e))))) ∧
    envcount (vector_of (es.filter (fun e => decide (¬ is_entry_for name e)))
        (k + es.countP (fun e => decide (is_entry_for name e))))
      = .ok (es.length - es.countP (fun e => decide (is_entry_for name e))) ∧
    envcount (vector_of es k) = .ok es.length := by
  have hf := remove_skip_eq_filter name hname es h
  have hl := length_filter_add_countP es (fun e => decide (is_entry_for name e))
  have hfe : es.filter (fun e => !decide (is_entry_for name e))
      = es.filter (fun e => decide (¬ is_entry_for name e)) := by
    apply List.filter_congr
    intro e _
    simp
  rw [hfe] at hl
  refine ⟨?_, ?_, envcount_vector_of es k⟩
  · rw [unsetenvp_entries, hf]
    congr 3
    omega
  · rw [envcount_vector_of]
    congr 1
    omega

/-- C18 for the name `A` on the vector `A=1`, `B=2`, `A=3`, NULL. -/
theorem C18_unsetenvp_removes_matches_witness :
    unsetenvp (some (vector_of ["A=1".toList, "B=2".toList, "A=3".toList] 0)) "A".toList
      = .ok (some (vector_of (["A=1".toList, "B=2".toList, "A=3".toList].filter
            (fun e => decide (¬ is_entry_for "A".toList e)))
          (0 + ["A=1".toList, "B=2".toList, "A=3".toList].countP
            (fun e => decide (is_entry_for "A".toList e))))) ∧
    envcount (vector_of (["A=1".toList, "B=2".toList, "A=3".toList].filter
          (fun e => decide (¬ is_entry_for "A".toList e)))
        (0 + ["A=1".toList, "B=2".toList, "A=3".toList].countP
          (fun e => decide (is_entry_for "A".toList e))))
      = .ok (["A=1".toList, "B=2".toList, "A=3".toList].length -
          ["A=1".toList, "B=2".toList, "A=3".toList].countP
            (fun e => decide (is_entry_for "A".toList e))) ∧
    envcount (vector_of ["A=1".toList, "B=2".toList, "A=3".toList] 0)
      = .ok ["A=1".toList, "B=2".toList, "A=3".toList].length :=
  C18_unsetenvp_removes_matches "A".toList ["A=1".toList, "B=2".toList, "A=3".toList] 0
    (by decide) (by decide)

/-! ## C19: variable names stay unique -/

theorem var_name_append_eq (name rest : CStr) (h : '=' ∉ name) :
    var_name (name ++ '=' :: rest) = name := by
  induction name with
  | nil => simp [var_name]
  | cons c name ih =>
    have hc : c ≠ '=' := fun hh => h (by simp [hh])
    have hn : '=' ∉ name := fun hh => h (by simp [hh])
    have ih2 := ih hn
    simp only [var_name] at ih2 ⊢
    rw [List.cons_append, List.takeWhile_cons, if_pos (by simpa using hc), ih2]

theorem var_name_compose (name v : CStr) (h : '=' ∉ name) :
    var_name (compose name v) = name :=
  var_name_append_eq name v h

theorem var_name_of_entry_for (name e : CStr) (h : '=' ∉ name) (he : is_entry_for name e) :
    var_name e = name := by
  obtain ⟨v, rfl⟩ := (is_entry_for_iff name e).1 he
  exact var_name_compose name v h

theorem entry_for_var_name (e : CStr) (h : '=' ∈ e) : is_entry_for (var_name e) e := by
  induction e with
  | nil => simp at h
  | cons c e ih =>
    by_cases hc : c = '='
    · subst hc
      refine ⟨e, ?_⟩
      simp [var_name]
    · have he : '=' ∈ e := by
        rcases List.mem_cons.1 h with h1 | h1
        · exact absurd h1.symm hc
        · exact h1
      obtain ⟨t, ht⟩ := ih he
      refine ⟨t, ?_⟩
      have hv : var_name (c :: e) = c :: var_name e := by
        simp only [var_name]
        rw [List.takeWhile_cons, if_pos (by simpa using hc)]
      rw [hv]
      simpa using ht

theorem mem_set_entry (name str : CStr) (es : List CStr) (x : CStr)
    (h : x ∈ set_entry name str es) : x ∈ es ∨ x = str := by
  induction es with
  | nil =>
    simp only [set_entry, List.mem_singleton] at h
    exact Or.inr h
  | cons e es ih =>
    by_cases he : name_matches e name = true
    · simp only [set_entry, he, if_true, List.mem_cons] at h
      rcases h with h | h
      · exact Or.inr h
      · exact Or.inl (List.mem_cons_of_mem _ h)
    · simp only [set_entry, he, Bool.false_eq_true, if_false, List.mem_cons] at h
      rcases h with h | h
      · exact Or.inl (by simp [h])
      · rcases ih h with h2 | h2
        · exact Or.inl (List.mem_cons_of_mem _ h2)
        · exact Or.inr h2

/-- An assignment of a valid name keeps the variable names unique. -/
theorem unique_names_set_entry (name v : CStr) (hname : valid_name name) (es : List CStr)
    (h : unique_names es) : unique_names (set_entry name (compose name v) es) := by
  induction es with
  | nil =>
    refine ⟨?_, ?_⟩
    · intro e he
      simp only [set_entry, List.mem_singleton] at he
      subst he
      simp [compose]
    · simp [set_entry]
  | cons e es ih =>
    obtain ⟨heq, hnd⟩ := h
    have hnd2 : var_name e ∉ es.map var_name ∧ (es.map var_name).Nodup :=
      List.nodup_cons.1 hnd
    have hes : unique_names es := ⟨fun x hx => heq x (List.mem_cons_of_mem _ hx), hnd2.2⟩
    by_cases he : name_matches e name = true
    · have hvn : var_name e = name :=
        var_name_of_entry_for name e hname.2 ((name_matches_iff name hname.1 e).1 he)
      refine ⟨?_, ?_⟩
      · intro x hx
        simp only [set_entry, he, if_true, List.mem_cons] at hx
        rcases hx with rfl | hx
        · simp [compose]
        · exact heq x (List.mem_cons_of_mem _ hx)
      · simp only [set_entry, he, if_true, List.map_cons, var_name_compose name v hname.2]
        rw [← hvn]
        exact hnd
    · have he2 : name_matches e name = false := by simpa using he
      have ih2 := ih hes
      refine ⟨?_, ?_⟩
      · intro x hx
        simp only [set_entry, he2, Bool.false_eq_true, if_false, List.mem_cons] at hx
        rcases hx with rfl | hx
        · exact heq x (by simp)
        · exact ih2.1 x hx
      · simp only [set_entry, he2, Bool.false_eq_true, if_false, List.map_cons]
        refine List.nodup_cons.2 ⟨?_, ih2.2⟩
        intro hmem
        obtain ⟨x, hx, hxe⟩ := List.mem_map.1 hmem
        rcases mem_set_entry name _ es x hx with hx2 | hx2
        · exact hnd2.1 (List.mem_map.2 ⟨x, hx2, hxe⟩)
        · subst hx2
          rw [var_name_compose name v hname.2] at hxe
          have hent := entry_for_var_name e (heq e (by simp))
          rw [← hxe] at hent
          have := (name_matches_iff name hname.1 e).2 hent
          rw [he2] at this
          exact Bool.noConfusion this

theorem run_calls_append (P : Platform) (env : Option Env) (a b : List Call) :
    run_calls P env (a ++ b) = run_calls P env a >>= fun env1 => run_calls P env1 b := by
  induction a generalizing env with
  | nil => rfl
  | cons c a ih =>
    simp only [List.cons_append, run_calls]
    cases run_call P env c with
    | error f => rfl
    | ok env1 => exact ih env1

theorem run_calls_single (P : Platform) (env : Option Env) (c : Call) :
    run_calls P env [c] = run_call P env c := by
  simp only [run_calls]
  cases run_call P env c <;> rfl

theorem exact_comp {P : Platform} {f g : Run → Except Fault Run} {a b : List Call}
    (hf : Exact P f a) (hg : Exact P g b) : Exact P (fun r => f r >>= g) (a ++ b) := by
  intro r
  show Except.map (fun r1 => r1.env) (f r >>= g) = _
  rw [run_calls_append, ← hf r]
  cases f r with
  | error x => rfl
  | ok r1 => exact hg r1

theorem exact_of_eq {P : Platform} {f g : Run → Except Fault Run} {a : List Call}
    (h : ∀ r, f r = g r) (hg : Exact P g a) : Exact P f a := by
  intro r
  rw [h r]
  exact hg r

theorem exact_call_setenvf (P : Platform) (r : Run) (name : String) (fmt : Fmt) :
    (call_setenvf P r name fmt).map (fun x => x.1.env) = run_call P r.env (.set name fmt) := by
  simp only [call_setenvf, run_call]
  cases setenvf P r.env name.toList fmt <;> rfl

theorem exact_set_if (P : Platform) (c : Bool) (name : String) (fmt : Fmt) (msg : String) :
    Exact P (fun r => set_if P r c name fmt msg) (calls_if c name fmt) := by
  intro r
  cases c with
  | false => rfl
  | true =>
    simp only [calls_if, if_true, run_calls_single, ← exact_call_setenvf, set_if]
    cases call_setenvf P r name fmt with
    | error x => rfl
    | ok p =>
      obtain ⟨r1, st⟩ := p
      by_cases hst : st ≠ 0
      · simp [bind, Except.bind, pure, Except.pure, Except.map, hst, report]
      · simp [bind, Except.bind, pure, Except.pure, Except.map, hst]

theorem exact_set_quiet (P : Platform) (name : String) (fmt : Fmt) :
    Exact P (fun r => set_quiet P r name fmt) [.set name fmt] := by
  intro r
  simp only [run_calls_single, ← exact_call_setenvf, set_quiet]
  cases call_setenvf P r name fmt with
  | error x => rfl
  | ok p =>
    obtain ⟨r1, st⟩ := p
    by_cases hst : st ≠ 0
    · simp [bind, Except.bind, pure, Except.pure, Except.map, hst]
    · simp [bind, Except.bind, pure, Except.pure, Except.map, hst]

theorem exact_set_stat (P : Platform) (rs : Run × Bool) (name : String) (fmt : Fmt) :
    (set_stat P rs name fmt).map (fun x => x.1.env) = run_call P rs.1.env (.set name fmt) := by
  simp only [← exact_call_setenvf, set_stat]
  cases call_setenvf P rs.1 name fmt with
  | error x => rfl
  | ok p => rfl

theorem check_stat_env (P : Platform) (rs : Run × Bool) (msg : String) :
    (check_stat P rs msg).env = rs.1.env := by
  unfold check_stat
  split <;> rfl

theorem exact_assign_checked (P : Platform) (name : String) (fmt : Fmt) (msg : String) :
    Exact P (fun r => assign_checked P r name fmt msg) [.set name fmt] := by
  intro r
  have h := exact_set_stat P (r, false) name fmt
  simp only [run_calls_single, assign_checked]
  rw [← h]
  cases set_stat P (r, false) name fmt with
  | error x => rfl
  | ok p => simp [bind, Except.bind, pure, Except.pure, Except.map, check_stat_env]

theorem exact_unset (P : Platform) (name : String) :
    Exact P (fun r => call_unsetenvp r name) [.unset name] := by
  intro r
  simp only [run_calls_single, call_unsetenvp, run_call]
  cases unsetenvp r.env name.toList <;> rfl

theorem exact_pure (P : Platform) (h : Run → Run) (henv : ∀ r, (h r).env = r.env) :
    Exact P (fun r => pure (h r)) [] := by
  intro r
  simp [pure, Except.pure, Except.map, run_calls, henv]

/-- A call of `setenvf` whose status goes into `setstat`, followed by
statements that go on from the new state. -/
theorem exact_set_stat_then (P : Platform) (name : String) (fmt : Fmt)
    (h : Run × Bool → Except Fault Run) (cs : List Call)
    (hh : ∀ rs : Run × Bool, (h rs).map (fun r1 => r1.env) = run_calls P rs.1.env cs)
    (rs : Run × Bool) :
    (set_stat P rs name fmt >>= h).map (fun r1 => r1.env)
      = run_calls P rs.1.env (.set name fmt :: cs) := by
  simp only [run_calls, ← exact_set_stat P rs name fmt]
  cases set_stat P rs name fmt with
  | error x => rfl
  | ok p => exact hh p

/-- A call of `setenvf` whose status is dropped, followed by statements that
go on from the new state. -/
theorem exact_call_then (P : Platform) (name : String) (fmt : Fmt)
    (g : Run → Except Fault Run) (cs : List Call) (hg : Exact P g cs) (r : Run) :
    (call_setenvf P r name fmt >>= fun x => g x.1).map (fun r1 => r1.env)
      = run_calls P r.env (.set name fmt :: cs) := by
  simp only [run_calls, ← exact_call_setenvf P r name fmt]
  cases call_setenvf P r name fmt with
  | error x => rfl
  | ok p => exact hg p.1

theorem exact_check_stat (P : Platform) (msg : String) (rs : Run × Bool) :
    (pure (check_stat P rs msg) : Except Fault Run).map (fun r1 => r1.env)
      = run_calls P rs.1.env [] := by
  simp [pure, Except.pure, Except.map, run_calls, check_stat_env]

theorem exact_bind_defaults (P : Platform) (u n1 n2 n3 msg : String) :
    Exact P (fun r => bind_defaults P r u n1 n2 n3 msg)
      [.unset u, .set n1 (.plain "quiet".toList), .set n2 (.plain []), .set n3 (.plain [])] := by
  have h3 := exact_set_stat_then P n3 (.plain []) _ _ (exact_check_stat P msg)
  have h2 := exact_set_stat_then P n2 (.plain []) _ _ h3
  have h1 := exact_set_stat_then P n1 (.plain "quiet".toList) _ _ h2
  exact exact_comp (exact_unset P u) (fun r => h1 (r, false))

theorem exact_setup_distribution (P : Platform) (e : env_t) :
    Exact P (setup_distribution P e)
      (calls_if (e.distribution ≥ 0) "SLURM_DISTRIBUTION"
        (.s (dist_text P e.distribution).toList)) := by
  intro r
  unfold setup_distribution dist_text
  by_cases h0 : e.distribution ≥ 0
  · rw [if_pos h0]
    simp only [h0, decide_True]
    split_ifs
    · exact exact_set_if P true _ _ _ r
    · exact exact_set_if P true _ _ _ r
    · exact exact_set_if P true _ _ _ r
    · exact exact_set_if P true _ _ _ _
  · rw [if_neg h0]
    simp only [h0, decide_False]
    rfl

theorem exact_setup_cpu_bind (P : Platform) (e : env_t) :
    Exact P (setup_cpu_bind P e) (cpu_bind_call_list P e) := by
  by_cases h : e.cpu_bind_type ≠ 0
  · rw [cpu_bind_call_list, if_pos h]
    refine exact_of_eq (fun r => setup_cpu_bind_eq P e r h) ?_
    have h4 : ∀ rs : Run × Bool,
        (set_if P rs.1 true "SLURM_CPU_BIND_LIST" (bind_list_raw e.cpu_bind)
          "Unable to set SLURM_CPU_BIND_LIST").map (fun r1 => r1.env)
        = run_calls P rs.1.env [.set "SLURM_CPU_BIND_LIST" (bind_list_raw e.cpu_bind)] :=
      fun rs => exact_set_if P true _ _ _ rs.1
    have h3 : Exact P (fun r => set_stat P (r, false) "SLURM_CPU_BIND_LIST"
          (bind_list_fmt e.cpu_bind) >>= fun rs =>
        set_if P rs.1 true "SLURM_CPU_BIND_LIST" (bind_list_raw e.cpu_bind)
          "Unable to set SLURM_CPU_BIND_LIST") _ :=
      fun r => exact_set_stat_then P _ _ _ _ h4 (r, false)
    exact exact_comp (exact_unset P _)
      (exact_comp (exact_assign_checked P _ _ _) (exact_comp (exact_assign_checked P _ _ _) h3))
  · have h0 : e.cpu_bind_type = 0 := by simpa using h
    rw [cpu_bind_call_list, if_neg h]
    exact exact_of_eq (fun r => setup_cpu_bind_zero P e r h0) (exact_bind_defaults P _ _ _ _ _)

theorem exact_setup_mem_bind (P : Platform) (e : env_t) :
    Exact P (setup_mem_bind P e) (mem_bind_call_list P e) := by
  by_cases h : e.mem_bind_type ≠ 0
  · rw [mem_bind_call_list, if_pos h]
    refine exact_of_eq (fun r => setup_mem_bind_eq P e r h) ?_
    exact exact_comp (exact_unset P _)
      (exact_comp (exact_assign_checked P _ _ _)
        (exact_comp (exact_assign_checked P _ _ _) (exact_assign_checked P _ _ _)))
  · have h0 : e.mem_bind_type = 0 := by simpa using h
    rw [mem_bind_call_list, if_neg h]
    exact exact_of_eq (fun r => setup_mem_bind_zero P e r h0) (exact_bind_defaults P _ _ _ _ _)

theorem exact_setup_select_jobinfo (P : Platform) (e : env_t) :
    Exact P (setup_select_jobinfo P e) (select_call_list e) := by
  have hlast : Exact P (fun r => pure (if r.rc = P.SLURM_FAILURE then
        { r with log := r.log ++ ["Can't set MPIRUN_PARTITION environment variable"] }
      else r)) [] :=
    exact_pure P _ (fun r => by split <;> rfl)
  intro r
  unfold setup_select_jobinfo select_call_list
  cases hs : e.select_jobinfo with
  | none => rfl
  | some answer =>
    cases answer with
    | none => exact hlast _
    | some bgl_part_id =>
      have := exact_comp (exact_comp (exact_set_quiet P "MPIRUN_PARTITION" (.s bgl_part_id))
        (exact_comp (exact_set_quiet P "MPIRUN_NOFREE" (.d 1))
          (exact_set_quiet P "MPIRUN_NOALLOCATE" (.d 1)))) hlast r
      simpa using this

theorem exact_setup_cli (P : Platform) (e : env_t) :
    Exact P (setup_cli P e) (cli_call_list e) := by
  intro r
  unfold setup_cli cli_call_list
  cases hc : e.cli with
  | none => rfl
  | some addrbuf =>
    exact exact_call_then P _ _ (fun r => pure r) [] (exact_pure P id (fun _ => rfl)) r

theorem exact_setup_aix (P : Platform) : Exact P (setup_aix P) (aix_call_list P) := by
  intro r
  unfold setup_aix aix_call_list
  by_cases h : P.HAVE_AIX = true
  · rw [if_pos h, if_pos h]
    have h3 : Exact P (fun r => call_setenvf P r "LOADL_ACTIVE" (.plain "3.2.0".toList)
        >>= fun x => pure x.1) _ :=
      exact_call_then P _ _ (fun r => pure r) [] (exact_pure P id (fun _ => rfl))
    have h2 : Exact P (fun r => call_setenvf P r "LOADLBATCH" (.plain "yes".toList)
        >>= fun x => (fun r => call_setenvf P r "LOADL_ACTIVE" (.plain "3.2.0".toList)
        >>= fun x => pure x.1) x.1) _ :=
      exact_call_then P _ _ _ _ h3
    exact exact_call_then P _ _ _ _ h2 r
  · rw [if_neg h, if_neg h]
    rfl

/-- The vector that a run of `setup_env` leaves in `env->env` is the vector
that its calls leave there, in order, and the run faults exactly when one of
the calls does. -/
theorem setup_env_run_exact (P : Platform) (e : env_t) :
    (setup_env_run P e).map (fun r => r.env) = run_calls P e.env (setup_calls P e) := by
  exact (exact_comp (exact_set_if P (e.task_pid ≠ 0) "SLURM_TASK_PID" (.d e.task_pid) _)
    (exact_comp (exact_set_if P (e.nprocs ≠ 0) "SLURM_NPROCS" (.d e.nprocs) _)
    (exact_comp (exact_set_if P (e.cpus_per_task ≠ 0) "SLURM_CPUS_PER_TASK" (.d e.cpus_per_task) _)
    (exact_comp (exact_set_if P (e.cpus_on_node ≠ 0) "SLURM_CPUS_ON_NODE" (.d e.cpus_on_node) _)
    (exact_comp (exact_setup_distribution P e)
    (exact_comp (exact_setup_cpu_bind P e)
    (exact_comp (exact_setup_mem_bind P e)
    (exact_comp (exact_set_if P (e.overcommit ≠ 0) "SLURM_OVERCOMMIT" (.plain "1".toList) _)
    (exact_comp (exact_set_if P (e.slurmd_debug ≠ 0) "SLURMD_DEBUG" (.d e.slurmd_debug) _)
    (exact_comp (exact_set_if P (e.labelio ≠ 0) "SLURM_LABELIO" (.plain "1".toList) _)
    (exact_comp (exact_setup_select_jobinfo P e)
    (exact_comp (exact_set_if P (e.jobid ≥ 0) "SLURM_JOBID" (.d e.jobid) _)
    (exact_comp (exact_set_if P (e.nodeid ≥ 0) "SLURM_NODEID" (.d e.nodeid) _)
    (exact_comp (exact_set_if P (e.procid ≥ 0) "SLURM_PROCID" (.d e.procid) _)
    (exact_comp (exact_set_if P (e.localid ≥ 0) "SLURM_LOCALID" (.d e.localid) _)
    (exact_comp (exact_set_if P (e.stepid ≥ 0) "SLURM_STEPID" (.d e.stepid) _)
    (exact_comp (exact_set_if P (e.nhosts ≠ 0) "SLURM_NNODES" (.d e.nhosts) _)
    (exact_comp (exact_set_if P e.nodelist.isSome "SLURM_NODELIST" (.s (e.nodelist.getD [])) _)
    (exact_comp (exact_set_if P e.task_count.isSome "SLURM_TASKS_PER_NODE" (.s (e.task_count.getD [])) _)
    (exact_comp (exact_set_if P (e.comm_port ≠ 0) "SLURM_SRUN_COMM_PORT" (.u e.comm_port) _)
    (exact_comp (exact_set_if P e.comm_hostname.isSome "SLURM_SRUN_COMM_HOST" (.s (e.comm_hostname.getD [])) _)
    (exact_comp (exact_setup_cli P e)
    (exact_setup_aix P)))))))))))))))))))))))
    ({ env := e.env, put := [], rc := P.SLURM_SUCCESS, log := [] } : Run)

/-! ## Calls on a vector of entries -/

theorem run_call_set_vector (P : Platform) (es : List CStr) (k : Nat) (n : String) (f : Fmt)
    (env1 : Option Env) (h : run_call P (some (vector_of es k)) (.set n f) = .ok env1) :
    es ≠ [] ∧ ∃ v, vsnprintf P.BUFSIZ f = .ok v ∧
      env1 = some (vector_of (set_entry n.toList (compose n.toList v) es) k) := by
  simp only [run_call] at h
  cases hf : vsnprintf P.BUFSIZ f with
  | error x => simp [setenvf, hf, bind, Except.bind, Except.map] at h
  | ok v =>
    by_cases hes : es = []
    · subst hes
      simp [setenvf, hf, bind, Except.bind, Except.map, setenvf_vector_no_entry] at h
    · rw [setenvf_entries P n.toList f v es k hes hf] at h
      simp only [Except.map, Except.ok.injEq] at h
      exact ⟨hes, v, rfl, h.symm⟩

theorem run_call_set_entries (P : Platform) (es : List CStr) (k : Nat) (n : String) (f : Fmt)
    (v : CStr) (hes : es ≠ []) (hf : vsnprintf P.BUFSIZ f = .ok v) :
    run_call P (some (vector_of es k)) (.set n f)
      = .ok (some (vector_of (set_entry n.toList (compose n.toList v) es) k)) := by
  simp only [run_call, setenvf_entries P n.toList f v es k hes hf]
  rfl

theorem run_call_unset_vector (P : Platform) (es : List CStr) (k : Nat) (n : String) :
    run_call P (some (vector_of es k)) (.unset n)
      = .ok (some (vector_of (remove_skip n.toList es)
          (k + es.length - (remove_skip n.toList es).length))) := by
  simp only [run_call, unsetenvp_entries]

theorem mem_set_entry_self (name str : CStr) (es : List CStr) :
    str ∈ set_entry name str es := by
  induction es with
  | nil => simp [set_entry]
  | cons e es ih =>
    by_cases he : name_matches e name = true
    · simp [set_entry, he]
    · simp only [set_entry, he, Bool.false_eq_true, if_false, List.mem_cons]
      exact Or.inr ih

theorem mem_set_entry_of_not_match (name str x : CStr) (es : List CStr) (hx : x ∈ es)
    (hm : name_matches x name = false) : x ∈ set_entry name str es := by
  induction es with
  | nil => simp at hx
  | cons e es ih =>
    by_cases he : name_matches e name = true
    · rcases List.mem_cons.1 hx with rfl | h
      · rw [hm] at he
        exact Bool.noConfusion he
      · simp [set_entry, he, h]
    · simp only [set_entry, he, Bool.false_eq_true, if_false, List.mem_cons]
      rcases List.mem_cons.1 hx with rfl | h
      · exact Or.inl rfl
      · exact Or.inr (ih h)

theorem unique_names_filter (p : CStr → Bool) (es : List CStr) (h : unique_names es) :
    unique_names (es.filter p) := by
  refine ⟨fun e he => h.1 e (List.mem_filter.1 he).1, ?_⟩
  exact List.Nodup.sublist ((List.filter_sublist es).map var_name) h.2

theorem unique_names_tail (e : CStr) (es : List CStr) (h : unique_names (e :: es)) :
    unique_names es :=
  ⟨fun x hx => h.1 x (List.mem_cons_of_mem _ hx), (List.nodup_cons.1 h.2).2⟩

theorem unique_names_no_adjacent (u : CStr) (hu : '=' ∉ u) (es : List CStr)
    (h : unique_names es) : no_adjacent_entries_for u es := by
  induction es with
  | nil => trivial
  | cons a es ih =>
    cases es with
    | nil => trivial
    | cons b rest =>
      refine ⟨?_, ih (unique_names_tail a _ h)⟩
      rintro ⟨ha, hb⟩
      have h1 := var_name_of_entry_for u a hu ha
      have h2 := var_name_of_entry_for u b hu hb
      have hnd : var_name a ∉ (b :: rest).map var_name := (List.nodup_cons.1 h.2).1
      apply hnd
      rw [h1, ← h2]
      simp

/-- On entries with unique names, an assignment whose string is already
among the entries changes nothing. -/
theorem set_entry_fixed (n v : CStr) (hn : valid_name n) (R : List CStr)
    (hu : unique_names R) (hmem : compose n v ∈ R) :
    set_entry n (compose n v) R = R := by
  induction R with
  | nil => simp at hmem
  | cons e R ih =>
    by_cases he : name_matches e n = true
    · have hvn : var_name e = n :=
        var_name_of_entry_for n e hn.2 ((name_matches_iff n hn.1 e).1 he)
      have hnd : var_name e ∉ R.map var_name := (List.nodup_cons.1 hu.2).1
      rcases List.mem_cons.1 hmem with h | h
      · simp [set_entry, he, h]
      · exfalso
        apply hnd
        rw [hvn]
        exact List.mem_map.2 ⟨_, h, var_name_compose n v hn.2⟩
    · have he2 : name_matches e n = false := by simpa using he
      rcases List.mem_cons.1 hmem with h | h
      · rw [← h, name_matches_compose_self n v hn.1] at he2
        exact Bool.noConfusion he2
      · simp only [set_entry, he2, Bool.false_eq_true, if_false]
        rw [ih (unique_names_tail e R hu) h]

/-- Without an entry for the name, a removal changes nothing. -/
theorem remove_skip_fixed (u : CStr) (hu : NUL ∉ u) (R : List CStr)
    (h : ∀ x ∈ R, ¬ is_entry_for u x) : remove_skip u R = R := by
  induction R with
  | nil => rfl
  | cons e R ih =>
    have he := (name_matches_false_iff u hu e).2 (h e (by simp))
    rw [remove_skip_cons_false u e R he, ih (fun x hx => h x (List.mem_cons_of_mem _ hx))]

theorem toList_injective (a b : String) (h : a.toList = b.toList) : a = b := by
  cases a
  cases b
  simp only [String.toList] at h
  rw [h]

theorem setup_call_names_valid : ∀ n ∈ setup_call_names, valid_name n.toList := by
  decide

/-- One call on a vector of entries with unique names: the entries afterwards
have unique names and show the call, and they still show every other call
that the old entries showed. -/
theorem settled_step (P : Platform) (names : List String)
    (hval : ∀ n ∈ names, valid_name n.toList) (c : Call) (hc : c.name ∈ names)
    (es : List CStr) (k : Nat) (env1 : Option Env) (hu : unique_names es)
    (h : run_call P (some (vector_of es k)) c = .ok env1) :
    ∃ (es1 : List CStr) (k1 : Nat), env1 = some (vector_of es1 k1) ∧ unique_names es1 ∧
      settled P es1 c ∧
      ∀ c0 : Call, c0.name ∈ names → (c0.name = c.name → c0 = c) → settled P es c0 →
        settled P es1 c0 := by
  cases c with
  | set n f =>
    have hn : valid_name n.toList := hval n hc
    obtain ⟨_, v, hv, henv⟩ := run_call_set_vector P es k n f env1 h
    refine ⟨_, k, henv, unique_names_set_entry n.toList v hn es hu,
      ⟨v, hv, mem_set_entry_self _ _ _⟩, ?_⟩
    intro c0 hc0 hsame hs
    cases c0 with
    | set m g =>
      have hm : valid_name m.toList := hval m hc0
      obtain ⟨w, hw, hmem⟩ := hs
      by_cases hmn : m = n
      · have heq := hsame hmn
        injection heq with h1 h2
        subst h1
        subst h2
        rw [hv] at hw
        injection hw with hw
        subst hw
        exact ⟨v, hv, mem_set_entry_self _ _ _⟩
      · refine ⟨w, hw, mem_set_entry_of_not_match _ _ _ es hmem ?_⟩
        exact name_matches_compose_other m.toList n.toList w hn.1 hm.2 hn.2
          (fun hh => hmn (toList_injective m n hh))
    | unset u =>
      have hu2 : valid_name u.toList := hval u hc0
      intro x hx
      rcases mem_set_entry _ _ es x hx with h1 | h1
      · exact hs x h1
      · subst h1
        intro hent
        have hun := entry_name_unique u.toList n.toList _ hu2.2 hn.2 hent
          (is_entry_for_compose n.toList v)
        have := hsame (toList_injective u n hun)
        exact Call.noConfusion this
  | unset u =>
    have hu2 : valid_name u.toList := hval u hc
    rw [run_call_unset_vector] at h
    injection h with h
    have hf := remove_skip_eq_filter u.toList hu2.1 es
      (unique_names_no_adjacent u.toList hu2.2 es hu)
    refine ⟨_, _, h.symm, ?_, ?_, ?_⟩
    · rw [hf]
      exact unique_names_filter _ es hu
    · intro x hx
      rw [hf] at hx
      simpa using (List.mem_filter.1 hx).2
    · intro c0 hc0 hsame hs
      cases c0 with
      | set m g =>
        have hm : valid_name m.toList := hval m hc0
        obtain ⟨w, hw, hmem⟩ := hs
        refine ⟨w, hw, ?_⟩
        rw [hf]
        refine List.mem_filter.2 ⟨hmem, ?_⟩
        have : ¬ is_entry_for u.toList (compose m.toList w) := by
          intro hent
          have hun := entry_name_unique u.toList m.toList _ hu2.2 hm.2 hent
            (is_entry_for_compose m.toList w)
          have := hsame (toList_injective m u hun.symm)
          exact Call.noConfusion this
        simpa using this
      | unset u0 =>
        intro x hx
        rw [hf] at hx
        exact hs x (List.mem_filter.1 hx).1

/-- After a completed sequence of calls on entries with unique names, the
entries have unique names and show every call of the sequence. -/
theorem calls_settle (P : Platform) (names : List String)
    (hval : ∀ n ∈ names, valid_name n.toList) :
    ∀ (cs A : List Call) (es : List CStr) (k : Nat) (env1 : Option Env),
      distinct_calls (A ++ cs) names → unique_names es → (∀ c ∈ A, settled P es c) →
      run_calls P (some (vector_of es k)) cs = .ok env1 →
      ∃ (R : List CStr) (k1 : Nat), env1 = some (vector_of R k1) ∧ unique_names R ∧
        ∀ c ∈ A ++ cs, settled P R c := by
  intro cs
  induction cs with
  | nil =>
    intro A es k env1 _ hu hA h
    simp only [run_calls, Except.ok.injEq] at h
    exact ⟨es, k, h.symm, hu, by simpa using hA⟩
  | cons c cs ih =>
    intro A es k env1 hd hu hA h
    simp only [run_calls] at h
    obtain ⟨env2, h1, h2⟩ := bind_eq_ok h
    have hc : c.name ∈ names := hd.2 c (by simp)
    obtain ⟨es1, k1, henv2, hu1, hs1, hpres⟩ :=
      settled_step P names hval c hc es k env2 hu h1
    subst henv2
    have hd2 : distinct_calls ((A ++ [c]) ++ cs) names := by simpa using hd
    have hA2 : ∀ c0 ∈ A ++ [c], settled P es1 c0 := by
      intro c0 hc0
      rcases List.mem_append.1 hc0 with h0 | h0
      · exact hpres c0 (hd.2 c0 (by simp [h0]))
          (hd.1 c0 (by simp [h0]) c (by simp)) (hA c0 h0)
      · simp only [List.mem_singleton] at h0
        subst h0
        exact hs1
    obtain ⟨R, k2, hR, huR, hall⟩ := ih (A ++ [c]) es1 k1 env1 hd2 hu1 hA2 h2
    exact ⟨R, k2, hR, huR, by simpa using hall⟩

/-- On entries with unique names that show every call of a sequence, the
sequence returns and leaves the vector as it is. -/
theorem calls_fixed (P : Platform) (names : List String)
    (hval : ∀ n ∈ names, valid_name n.toList) (R : List CStr) (hu : unique_names R) :
    ∀ (cs : List Call) (k : Nat), (∀ c ∈ cs, c.name ∈ names ∧ settled P R c) →
      run_calls P (some (vector_of R k)) cs = .ok (some (vector_of R k)) := by
  intro cs
  induction cs with
  | nil =>
    intro k _
    rfl
  | cons c cs ih =>
    intro k hall
    have hc := hall c (by simp)
    have hrest := ih k (fun c0 h0 => hall c0 (List.mem_cons_of_mem _ h0))
    cases c with
    | set n f =>
      obtain ⟨v, hv, hmem⟩ := hc.2
      have hne : R ≠ [] := List.ne_nil_of_mem hmem
      simp only [run_calls, run_call_set_entries P R k n f v hne hv,
        set_entry_fixed n.toList v (hval n hc.1) R hu hmem, bind, Except.bind]
      exact hrest
    | unset u =>
      have hfix := remove_skip_fixed u.toList (hval u hc.1).1 R hc.2
      have hk : k + R.length - R.length = k := by omega
      simp only [run_calls, run_call_unset_vector, hfix, hk, bind, Except.bind]
      exact hrest

/-- A sequence of calls in which calls with the same name are the same call,
run on a vector of entries with unique names: run a second time on the vector
it leaves, the sequence returns and leaves that very vector. -/
theorem run_calls_twice (P : Platform) (names : List String)
    (hval : ∀ n ∈ names, valid_name n.toList) (cs : List Call) (es : List CStr) (k : Nat)
    (env1 : Option Env) (hd : distinct_calls cs names) (hu : unique_names es)
    (h : run_calls P (some (vector_of es k)) cs = .ok env1) :
    run_calls P env1 cs = .ok env1 := by
  obtain ⟨R, k1, hR, huR, hall⟩ :=
    calls_settle P names hval cs [] es k env1 (by simpa using hd) hu (by simp) h
  subst hR
  exact calls_fixed P names hval R huR cs k1
    (fun c hc => ⟨hd.2 c hc, hall c (by simpa using hc)⟩)

/-! ## The calls of `setup_env` have distinct names -/

theorem distinct_calls_append (l1 l2 : List Call) (n1 n2 : List String)
    (h1 : distinct_calls l1 n1) (h2 : distinct_calls l2 n2) (hdis : ∀ a ∈ n1, a ∉ n2) :
    distinct_calls (l1 ++ l2) (n1 ++ n2) := by
  refine ⟨?_, ?_⟩
  · intro c1 hc1 c2 hc2 hname
    rcases List.mem_append.1 hc1 with a1 | a1 <;> rcases List.mem_append.1 hc2 with a2 | a2
    · exact h1.1 c1 a1 c2 a2 hname
    · exact absurd (hname ▸ h2.2 c2 a2) (hdis _ (h1.2 c1 a1))
    · exact absurd (h2.2 c1 a1) (hdis _ (hname ▸ h1.2 c2 a2))
    · exact h2.1 c1 a1 c2 a2 hname
  · intro c hc
    rcases List.mem_append.1 hc with a | a
    · exact List.mem_append_left _ (h1.2 c a)
    · exact List.mem_append_right _ (h2.2 c a)

theorem distinct_calls_if (c : Bool) (name : String) (fmt : Fmt) :
    distinct_calls (calls_if c name fmt) [name] := by
  cases c with
  | false => exact ⟨by simp [calls_if], by simp [calls_if]⟩
  | true =>
    refine ⟨?_, ?_⟩
    · intro c1 h1 c2 h2 _
      simp only [calls_if, if_true, List.mem_singleton] at h1 h2
      rw [h1, h2]
    · intro c1 h1
      simp only [calls_if, if_true, List.mem_singleton] at h1
      simp [h1, Call.name]

theorem distinct_calls_nil (names : List String) : distinct_calls [] names :=
  ⟨by simp, by simp⟩

theorem distinct_calls_cons (c : Call) (l : List Call) (names : List String)
    (hl : distinct_calls l names) (hc : c.name ∈ names)
    (hnew : ∀ c2 ∈ l, c.name = c2.name → c = c2) : distinct_calls (c :: l) names := by
  refine ⟨?_, ?_⟩
  · intro c1 h1 c2 h2 hname
    rcases List.mem_cons.1 h1 with rfl | a1 <;> rcases List.mem_cons.1 h2 with rfl | a2
    · rfl
    · exact hnew c2 a2 hname
    · exact (hnew c1 a1 hname.symm).symm
    · exact hl.1 c1 a1 c2 a2 hname
  · intro c1 h1
    rcases List.mem_cons.1 h1 with rfl | a1
    · exact hc
    · exact hl.2 c1 a1

theorem distinct_cpu_bind_call_list (P : Platform) (e : env_t)
    (h : e.cpu_bind_type ≠ 0 → e.cpu_bind ≠ none) :
    distinct_calls (cpu_bind_call_list P e)
      ["SLURM_CPU_BIND", "SLURM_CPU_BIND_VERBOSE", "SLURM_CPU_BIND_TYPE",
       "SLURM_CPU_BIND_LIST"] := by
  unfold cpu_bind_call_list
  by_cases ht : e.cpu_bind_type ≠ 0
  · rw [if_pos ht]
    have hraw : bind_list_raw e.cpu_bind = bind_list_fmt e.cpu_bind := by
      cases hb : e.cpu_bind with
      | none => exact absurd hb (h ht)
      | some b => rfl
    rw [hraw]
    refine distinct_calls_cons _ _ _ (distinct_calls_cons _ _ _ (distinct_calls_cons _ _ _
      (distinct_calls_cons _ _ _ (distinct_calls_cons _ _ _ (distinct_calls_nil _)
      (by simp only [Call.name]; decide) (fun c2 hc2 _ => absurd hc2 (List.not_mem_nil _))) (by simp only [Call.name]; decide) ?_) (by simp only [Call.name]; decide) ?_) (by simp only [Call.name]; decide) ?_) (by simp only [Call.name]; decide) ?_
    all_goals
      intro c2 hc2 hname
      simp only [List.mem_cons, List.mem_singleton, List.not_mem_nil, or_false] at hc2
      rcases hc2 with rfl | rfl | rfl | rfl
    all_goals first
      | rfl
      | exact absurd hname (by simp only [Call.name]; decide)
  · rw [if_neg ht]
    refine distinct_calls_cons _ _ _ (distinct_calls_cons _ _ _ (distinct_calls_cons _ _ _
      (distinct_calls_cons _ _ _ (distinct_calls_nil _)
      (by simp only [Call.name]; decide) (fun c2 hc2 _ => absurd hc2 (List.not_mem_nil _))) (by simp only [Call.name]; decide) ?_) (by simp only [Call.name]; decide) ?_) (by simp only [Call.name]; decide) ?_
    all_goals
      intro c2 hc2 hname
      simp only [List.mem_cons, List.mem_singleton, List.not_mem_nil, or_false] at hc2
      rcases hc2 with rfl | rfl | rfl
    all_goals first
      | rfl
      | exact absurd hname (by simp only [Call.name]; decide)

theorem distinct_mem_bind_call_list (P : Platform) (e : env_t) :
    distinct_calls (mem_bind_call_list P e)
      ["SLURM_MEM_BIND", "SLURM_MEM_BIND_VERBOSE", "SLURM_MEM_BIND_TYPE",
       "SLURM_MEM_BIND_LIST"] := by
  unfold mem_bind_call_list
  split
  · refine (distinct_calls_cons _ _ _ (distinct_calls_cons _ _ _ (distinct_calls_cons _ _ _ (distinct_calls_cons _ _ _ (distinct_calls_nil _)
      (by simp only [Call.name]; decide) (fun c2 hc2 _ => absurd hc2 (List.not_mem_nil _)))
      (by simp only [Call.name]; decide) ?_)
      (by simp only [Call.name]; decide) ?_)
      (by simp only [Call.name]; decide) ?_)
    all_goals
      intro c2 hc2 hname
      simp only [List.mem_cons, List.mem_singleton, List.not_mem_nil, or_false] at hc2
      rcases hc2 with rfl | rfl | rfl
    all_goals first
      | rfl
      | exact absurd hname (by simp only [Call.name]; decide)
  · refine (distinct_calls_cons _ _ _ (distinct_calls_cons _ _ _ (distinct_calls_cons _ _ _ (distinct_calls_cons _ _ _ (distinct_calls_nil _)
      (by simp only [Call.name]; decide) (fun c2 hc2 _ => absurd hc2 (List.not_mem_nil _)))
      (by simp only [Call.name]; decide) ?_)
      (by simp only [Call.name]; decide) ?_)
      (by simp only [Call.name]; decide) ?_)
    all_goals
      intro c2 hc2 hname
      simp only [List.mem_cons, List.mem_singleton, List.not_mem_nil, or_false] at hc2
      rcases hc2 with rfl | rfl | rfl
    all_goals first
      | rfl
      | exact absurd hname (by simp only [Call.name]; decide)

theorem distinct_select_call_list (e : env_t) :
    distinct_calls (select_call_list e)
      ["MPIRUN_PARTITION", "MPIRUN_NOFREE", "MPIRUN_NOALLOCATE"] := by
  unfold select_call_list
  split
  · refine (distinct_calls_cons _ _ _ (distinct_calls_cons _ _ _ (distinct_calls_cons _ _ _ (distinct_calls_nil _)
      (by simp only [Call.name]; decide) (fun c2 hc2 _ => absurd hc2 (List.not_mem_nil _)))
      (by simp only [Call.name]; decide) ?_)
      (by simp only [Call.name]; decide) ?_)
    all_goals
      intro c2 hc2 hname
      simp only [List.mem_cons, List.mem_singleton, List.not_mem_nil, or_false] at hc2
      rcases hc2 with rfl | rfl
    all_goals first
      | rfl
      | exact absurd hname (by simp only [Call.name]; decide)
  · exact distinct_calls_nil _

theorem distinct_cli_call_list (e : env_t) :
    distinct_calls (cli_call_list e) ["SLURM_LAUNCH_NODE_IPADDR"] := by
  unfold cli_call_list
  split
  · exact (distinct_calls_cons _ _ _ (distinct_calls_nil _)
      (by simp only [Call.name]; decide) (fun c2 hc2 _ => absurd hc2 (List.not_mem_nil _)))
  · exact distinct_calls_nil _

theorem distinct_aix_call_list (P : Platform) :
    distinct_calls (aix_call_list P) ["MP_POERESTART_ENV", "LOADLBATCH", "LOADL_ACTIVE"] := by
  unfold aix_call_list
  split
  · refine (distinct_calls_cons _ _ _ (distinct_calls_cons _ _ _ (distinct_calls_cons _ _ _ (distinct_calls_nil _)
      (by simp only [Call.name]; decide) (fun c2 hc2 _ => absurd hc2 (List.not_mem_nil _)))
      (by simp only [Call.name]; decide) ?_)
      (by simp only [Call.name]; decide) ?_)
    all_goals
      intro c2 hc2 hname
      simp only [List.mem_cons, List.mem_singleton, List.not_mem_nil, or_false] at hc2
      rcases hc2 with rfl | rfl
    all_goals first
      | rfl
      | exact absurd hname (by simp only [Call.name]; decide)
  · exact distinct_calls_nil _

/-- In the calls of a run of `setup_env` that is given a CPU bind string
whenever CPU binding bits are set, calls with the same variable name are the
same call. -/
theorem distinct_setup_calls (P : Platform) (e : env_t)
    (h : e.cpu_bind_type ≠ 0 → e.cpu_bind ≠ none) :
    distinct_calls (setup_calls P e) setup_call_names :=
  (distinct_calls_append _ _ _ _ (distinct_calls_if _ _ _)
    (distinct_calls_append _ _ _ _ (distinct_calls_if _ _ _)
    (distinct_calls_append _ _ _ _ (distinct_calls_if _ _ _)
    (distinct_calls_append _ _ _ _ (distinct_calls_if _ _ _)
    (distinct_calls_append _ _ _ _ (distinct_calls_if _ _ _)
    (distinct_calls_append _ _ _ _ (distinct_cpu_bind_call_list P e h)
    (distinct_calls_append _ _ _ _ (distinct_mem_bind_call_list P e)
    (distinct_calls_append _ _ _ _ (distinct_calls_if _ _ _)
    (distinct_calls_append _ _ _ _ (distinct_calls_if _ _ _)
    (distinct_calls_append _ _ _ _ (distinct_calls_if _ _ _)
    (distinct_calls_append _ _ _ _ (distinct_select_call_list e)
    (distinct_calls_append _ _ _ _ (distinct_calls_if _ _ _)
    (distinct_calls_append _ _ _ _ (distinct_calls_if _ _ _)
    (distinct_calls_append _ _ _ _ (distinct_calls_if _ _ _)
    (distinct_calls_append _ _ _ _ (distinct_calls_if _ _ _)
    (distinct_calls_append _ _ _ _ (distinct_calls_if _ _ _)
    (distinct_calls_append _ _ _ _ (distinct_calls_if _ _ _)
    (distinct_calls_append _ _ _ _ (distinct_calls_if _ _ _)
    (distinct_calls_append _ _ _ _ (distinct_calls_if _ _ _)
    (distinct_calls_append _ _ _ _ (distinct_calls_if _ _ _)
    (distinct_calls_append _ _ _ _ (distinct_calls_if _ _ _)
    (distinct_calls_append _ _ _ _ (distinct_cli_call_list e)
    (distinct_aix_call_list P) (by decide)) (by decide)) (by decide)) (by decide)) (by decide)) (by decide)) (by decide)) (by decide)) (by decide)) (by decide)) (by decide)) (by decide)) (by decide)) (by decide)) (by decide)) (by decide)) (by decide)) (by decide)) (by decide)) (by decide)) (by decide)) (by decide))

/-! ## C20: running `setup_env` twice -/

theorem run_call_fmt_ok (P : Platform) (env env1 : Option Env) (n : String) (f : Fmt)
    (h : run_call P env (.set n f) = .ok env1) : ∃ v, vsnprintf P.BUFSIZ f = .ok v := by
  cases hf : vsnprintf P.BUFSIZ f with
  | error x => simp [run_call, setenvf, hf, bind, Except.bind, Except.map] at h
  | ok v => exact ⟨v, rfl⟩

theorem run_calls_fmt_ok (P : Platform) (cs : List Call) :
    ∀ (env env1 : Option Env), run_calls P env cs = .ok env1 →
      ∀ (n : String) (f : Fmt), Call.set n f ∈ cs → ∃ v, vsnprintf P.BUFSIZ f = .ok v := by
  induction cs with
  | nil =>
    intro env env1 _ n f hmem
    simp at hmem
  | cons c cs ih =>
    intro env env1 h n f hmem
    simp only [run_calls] at h
    obtain ⟨env2, h1, h2⟩ := bind_eq_ok h
    rcases List.mem_cons.1 hmem with hc | hc
    · subst hc
      exact run_call_fmt_ok P env env2 n f h1
    · exact ih env2 env1 h2 n f hc

/-- A run of `setup_env` that completes was given a CPU bind string whenever
CPU binding bits are set: line 318 passes the string as format. -/
theorem cpu_bind_supplied (P : Platform) (e : env_t) (env1 : Option Env)
    (h : run_calls P e.env (setup_calls P e) = .ok env1) :
    e.cpu_bind_type ≠ 0 → e.cpu_bind ≠ none := by
  intro ht hb
  have hmem : Call.set "SLURM_CPU_BIND_LIST" .null ∈ setup_calls P e := by
    simp [setup_calls, cpu_bind_call_list, ht, hb, bind_list_raw]
  obtain ⟨v, hv⟩ := run_calls_fmt_ok P _ _ _ h _ _ hmem
  simp [vsnprintf] at hv

/-- A completed run of `setup_env` on a vector whose entries have unique
names, followed by a second run on the vector it left: the second run
completes and leaves that very vector. -/
theorem setup_env_run_twice (P : Platform) (e : env_t) (es : List CStr) (k : Nat) (r : Run)
    (henv : e.env = some (vector_of es k)) (hu : unique_names es)
    (h : setup_env_run P e = .ok r) :
    ∃ r2 : Run, setup_env_run P { e with env := r.env } = .ok r2 ∧ r2.env = r.env := by
  have h1 : run_calls P e.env (setup_calls P e) = .ok r.env := by
    rw [← setup_env_run_exact P e, h]
    rfl
  have hd := distinct_setup_calls P e (cpu_bind_supplied P e r.env h1)
  rw [henv] at h1
  have h2 := run_calls_twice P setup_call_names setup_call_names_valid _ es k r.env hd hu h1
  have h3 := setup_env_run_exact P { e with env := r.env }
  have hc : setup_calls P { e with env := r.env } = setup_calls P e := rfl
  rw [hc] at h3
  have h4 : ({ e with env := r.env } : env_t).env = r.env := rfl
  rw [h4, h2] at h3
  cases hr : setup_env_run P { e with env := r.env } with
  | error x =>
    rw [hr] at h3
    exact Except.noConfusion h3
  | ok r2 =>
    rw [hr] at h3
    simp only [Except.map, Except.ok.injEq] at h3
    exact ⟨r2, rfl, h3⟩

/-! ## Runs of `setup_env` that complete -/

theorem mem_remove_skip_aux (u x : CStr) (hx : name_matches x u = false) (n : Nat) :
    ∀ es : List CStr, es.length ≤ n → x ∈ es → x ∈ remove_skip u es := by
  induction n with
  | zero =>
    intro es h hmem
    cases es with
    | nil => simp at hmem
    | cons e es => simp at h
  | succ n ih =>
    intro es h hmem
    cases es with
    | nil => simp at hmem
    | cons e es =>
      have hlen : es.length ≤ n := by simpa using h
      by_cases he : name_matches e u = true
      · have hne : x ≠ e := by
          intro hh
          rw [hh, he] at hx
          exact Bool.noConfusion hx
        have hmem2 : x ∈ es := by
          rcases List.mem_cons.1 hmem with h1 | h1
          · exact absurd h1 hne
          · exact h1
        cases es with
        | nil => simp at hmem2
        | cons y rest =>
          simp only [remove_skip, he, if_true, List.mem_cons]
          rcases List.mem_cons.1 hmem2 with h1 | h1
          · exact Or.inl h1
          · exact Or.inr (ih rest (by simp at hlen; omega) h1)
      · have he2 : name_matches e u = false := by simpa using he
        rw [remove_skip_cons_false u e es he2]
        rcases List.mem_cons.1 hmem with h1 | h1
        · exact List.mem_cons.2 (Or.inl h1)
        · exact List.mem_cons.2 (Or.inr (ih es hlen h1))

/-- An entry that does not match the name survives `unsetenvp`. -/
theorem mem_remove_skip (u x : CStr) (hx : name_matches x u = false) (es : List CStr)
    (hmem : x ∈ es) : x ∈ remove_skip u es :=
  mem_remove_skip_aux u x hx es.length es (Nat.le_refl _) hmem

/-- A sequence of calls with sound formats, run on a vector that holds an
entry for none of the names of the calls: every call returns and the entry
stays. -/
theorem calls_return (P : Platform) (names : List String)
    (hval : ∀ n ∈ names, valid_name n.toList) (e0 : CStr)
    (hother : ∀ n ∈ names, ¬ is_entry_for n.toList e0) :
    ∀ (cs : List Call) (es : List CStr) (k : Nat), e0 ∈ es →
      (∀ c ∈ cs, c.name ∈ names) →
      (∀ (n : String) (f : Fmt), Call.set n f ∈ cs → ∃ v, vsnprintf P.BUFSIZ f = .ok v) →
      ∃ (R : List CStr) (k1 : Nat),
        run_calls P (some (vector_of es k)) cs = .ok (some (vector_of R k1)) ∧ e0 ∈ R := by
  intro cs
  induction cs with
  | nil =>
    intro es k he0 _ _
    exact ⟨es, k, rfl, he0⟩
  | cons c cs ih =>
    intro es k he0 hnames hfmt
    have hrest_names : ∀ c0 ∈ cs, c0.name ∈ names :=
      fun c0 h0 => hnames c0 (List.mem_cons_of_mem _ h0)
    have hrest_fmt : ∀ (n : String) (f : Fmt), Call.set n f ∈ cs →
        ∃ v, vsnprintf P.BUFSIZ f = .ok v :=
      fun n f h0 => hfmt n f (List.mem_cons_of_mem _ h0)
    have hc := hnames c (by simp)
    cases c with
    | set n f =>
      obtain ⟨v, hv⟩ := hfmt n f (by simp)
      have hm : name_matches e0 n.toList = false :=
        (name_matches_false_iff n.toList (hval n hc).1 e0).2 (hother n hc)
      have hmem := mem_set_entry_of_not_match n.toList (compose n.toList v) e0 es he0 hm
      obtain ⟨R, k1, hR, hR0⟩ := ih _ k hmem hrest_names hrest_fmt
      refine ⟨R, k1, ?_, hR0⟩
      simp only [run_calls, run_call_set_entries P es k n f v (List.ne_nil_of_mem he0) hv,
        bind, Except.bind]
      exact hR
    | unset u =>
      have hm : name_matches e0 u.toList = false :=
        (name_matches_false_iff u.toList (hval u hc).1 e0).2 (hother u hc)
      have hmem := mem_remove_skip u.toList e0 hm es he0
      obtain ⟨R, k1, hR, hR0⟩ := ih _ (k + es.length - (remove_skip u.toList es).length)
        hmem hrest_names hrest_fmt
      refine ⟨R, k1, ?_, hR0⟩
      simp only [run_calls, run_call_unset_vector, bind, Except.bind]
      exact hR

/-! ### The formats of the calls -/

theorem digitChar_ne_percent (d : Nat) (h : d < 10) : Nat.digitChar d ≠ '%' := by
  interval_cases d <;> decide

theorem toDigitsCore_no_percent (fuel : Nat) :
    ∀ (n : Nat) (ds : List Char), '%' ∉ ds → '%' ∉ Nat.toDigitsCore 10 fuel n ds := by
  induction fuel with
  | zero =>
    intro n ds h
    simpa [Nat.toDigitsCore] using h
  | succ fuel ih =>
    intro n ds h
    have hd : '%' ∉ Nat.digitChar (n % 10) :: ds := by
      intro hmem
      rcases List.mem_cons.1 hmem with h1 | h1
      · exact digitChar_ne_percent (n % 10) (Nat.mod_lt _ (by decide)) h1.symm
      · exact h h1
    simp only [Nat.toDigitsCore]
    split
    · exact hd
    · exact ih _ _ hd

theorem fmt_d_no_percent (n : Int) : '%' ∉ fmt_d n := by
  cases n with
  | ofNat k => exact toDigitsCore_no_percent _ _ _ (by simp)
  | negSucc k =>
    intro hmem
    rcases List.mem_cons.1 hmem with h1 | h1
    · exact absurd h1 (by decide)
    · exact toDigitsCore_no_percent _ _ _ (by simp) h1

theorem vsnprintf_plain_ok (size : Nat) (v : CStr) (h : '%' ∉ v) :
    ∃ w, vsnprintf size (.plain v) = .ok w := by
  refine ⟨v.take (size - 1), ?_⟩
  simp only [vsnprintf, expand_plain_no_percent v h]
  rfl

theorem fmt_ok_append (P : Platform) (l1 l2 : List Call)
    (h1 : ∀ (n : String) (f : Fmt), Call.set n f ∈ l1 → ∃ v, vsnprintf P.BUFSIZ f = .ok v)
    (h2 : ∀ (n : String) (f : Fmt), Call.set n f ∈ l2 → ∃ v, vsnprintf P.BUFSIZ f = .ok v) :
    ∀ (n : String) (f : Fmt), Call.set n f ∈ l1 ++ l2 → ∃ v, vsnprintf P.BUFSIZ f = .ok v := by
  intro n f hmem
  rcases List.mem_append.1 hmem with h | h
  · exact h1 n f h
  · exact h2 n f h

theorem fmt_ok_if (P : Platform) (c : Bool) (name : String) (fmt : Fmt)
    (h : ∃ v, vsnprintf P.BUFSIZ fmt = .ok v) :
    ∀ (n : String) (f : Fmt), Call.set n f ∈ calls_if c name fmt → ∃ v, vsnprintf P.BUFSIZ f = .ok v := by
  intro n f hmem
  cases c with
  | false => simp [calls_if] at hmem
  | true =>
    simp only [calls_if, if_true, List.mem_singleton, Call.set.injEq] at hmem
    rw [hmem.2]
    exact h

theorem fmt_ok_cpu_bind (P : Platform) (e : env_t)
    (h : e.cpu_bind_type ≠ 0 → ∃ cb, e.cpu_bind = some cb ∧ '%' ∉ cb) :
    ∀ (n : String) (f : Fmt), Call.set n f ∈ cpu_bind_call_list P e → ∃ v, vsnprintf P.BUFSIZ f = .ok v := by
  intro n f hmem
  unfold cpu_bind_call_list at hmem
  by_cases ht : e.cpu_bind_type ≠ 0
  · obtain ⟨cb, hcb, hp⟩ := h ht
    rw [if_pos ht, hcb] at hmem
    simp only [List.mem_cons, List.mem_singleton, List.not_mem_nil, or_false,
      Call.set.injEq, false_or, bind_list_fmt, bind_list_raw, Option.getD_some] at hmem
    rcases hmem with h0 | h1 | h1 | h1 | h1
    · exact Call.noConfusion h0
    · rw [h1.2]
      exact vsnprintf_plain_ok _ _ (verbose_text_plain _ _).1
    · rw [h1.2]
      exact vsnprintf_plain_ok _ _ (bind_type_text_plain _ _ _ _ _ _).1
    · rw [h1.2]
      exact vsnprintf_plain_ok _ _ hp
    · rw [h1.2]
      exact vsnprintf_plain_ok _ _ hp
  · rw [if_neg ht] at hmem
    simp only [List.mem_cons, List.mem_singleton, List.not_mem_nil, or_false,
      Call.set.injEq, false_or] at hmem
    rcases hmem with h0 | h1 | h1 | h1
    · exact Call.noConfusion h0
    · rw [h1.2]
      exact vsnprintf_plain_ok _ _ (by decide)
    · rw [h1.2]
      exact vsnprintf_plain_ok _ _ (by decide)
    · rw [h1.2]
      exact vsnprintf_plain_ok _ _ (by decide)

theorem fmt_ok_mem_bind (P : Platform) (e : env_t)
    (h : e.mem_bind_type ≠ 0 → ∀ mb, e.mem_bind = some mb → '%' ∉ mb) :
    ∀ (n : String) (f : Fmt), Call.set n f ∈ mem_bind_call_list P e → ∃ v, vsnprintf P.BUFSIZ f = .ok v := by
  intro n f hmem
  unfold mem_bind_call_list at hmem
  by_cases ht : e.mem_bind_type ≠ 0
  · rw [if_pos ht] at hmem
    simp only [List.mem_cons, List.mem_singleton, List.not_mem_nil, or_false,
      Call.set.injEq, false_or, bind_list_fmt] at hmem
    rcases hmem with h0 | h1 | h1 | h1
    · exact Call.noConfusion h0
    · rw [h1.2]
      exact vsnprintf_plain_ok _ _ (verbose_text_plain _ _).1
    · rw [h1.2]
      exact vsnprintf_plain_ok _ _ (bind_type_text_plain _ _ _ _ _ _).1
    · rw [h1.2]
      cases hb : e.mem_bind with
      | none => exact vsnprintf_plain_ok _ _ (by simp)
      | some mb => exact vsnprintf_plain_ok _ _ (h ht mb hb)
  · rw [if_neg ht] at hmem
    simp only [List.mem_cons, List.mem_singleton, List.not_mem_nil, or_false,
      Call.set.injEq, false_or] at hmem
    rcases hmem with h0 | h1 | h1 | h1
    · exact Call.noConfusion h0
    · rw [h1.2]
      exact vsnprintf_plain_ok _ _ (by decide)
    · rw [h1.2]
      exact vsnprintf_plain_ok _ _ (by decide)
    · rw [h1.2]
      exact vsnprintf_plain_ok _ _ (by decide)

theorem fmt_ok_select (P : Platform) (e : env_t) :
    ∀ (n : String) (f : Fmt), Call.set n f ∈ select_call_list e → ∃ v, vsnprintf P.BUFSIZ f = .ok v := by
  intro n f hmem
  unfold select_call_list at hmem
  split at hmem
  · simp only [List.mem_cons, List.mem_singleton, List.not_mem_nil, or_false,
      Call.set.injEq] at hmem
    rcases hmem with h1 | h1 | h1 <;> rw [h1.2] <;> exact ⟨_, rfl⟩
  · simp at hmem

theorem fmt_ok_cli (P : Platform) (e : env_t) :
    ∀ (n : String) (f : Fmt), Call.set n f ∈ cli_call_list e → ∃ v, vsnprintf P.BUFSIZ f = .ok v := by
  intro n f hmem
  unfold cli_call_list at hmem
  split at hmem
  · simp only [List.mem_singleton, Call.set.injEq] at hmem
    rw [hmem.2]
    exact ⟨_, rfl⟩
  · simp at hmem

theorem fmt_ok_aix (P : Platform) :
    ∀ (n : String) (f : Fmt), Call.set n f ∈ aix_call_list P → ∃ v, vsnprintf P.BUFSIZ f = .ok v := by
  intro n f hmem
  unfold aix_call_list at hmem
  split at hmem
  · simp only [List.mem_cons, List.mem_singleton, List.not_mem_nil, or_false,
      Call.set.injEq] at hmem
    rcases hmem with h1 | h1 | h1
    · rw [h1.2]
      refine vsnprintf_plain_ok _ _ (fun hm => ?_)
      rcases List.mem_append.1 (List.mem_of_mem_take hm) with h2 | h2
      · exact absurd h2 (by decide)
      · exact fmt_d_no_percent _ h2
    · rw [h1.2]
      exact vsnprintf_plain_ok _ _ (by decide)
    · rw [h1.2]
      exact vsnprintf_plain_ok _ _ (by decide)
  · simp at hmem

/-- With bind strings free of `%` wherever they are passed as formats, every
format of the calls of `setup_env` is sound. -/
theorem fmt_ok_setup_calls (P : Platform) (e : env_t)
    (hcpu : e.cpu_bind_type ≠ 0 → ∃ cb, e.cpu_bind = some cb ∧ '%' ∉ cb)
    (hmem : e.mem_bind_type ≠ 0 → ∀ mb, e.mem_bind = some mb → '%' ∉ mb) :
    ∀ (n : String) (f : Fmt), Call.set n f ∈ setup_calls P e → ∃ v, vsnprintf P.BUFSIZ f = .ok v :=
  (fmt_ok_append P _ _ (fmt_ok_if P _ _ _ ⟨_, rfl⟩)
    (fmt_ok_append P _ _ (fmt_ok_if P _ _ _ ⟨_, rfl⟩)
    (fmt_ok_append P _ _ (fmt_ok_if P _ _ _ ⟨_, rfl⟩)
    (fmt_ok_append P _ _ (fmt_ok_if P _ _ _ ⟨_, rfl⟩)
    (fmt_ok_append P _ _ (fmt_ok_if P _ _ _ ⟨_, rfl⟩)
    (fmt_ok_append P _ _ (fmt_ok_cpu_bind P e hcpu)
    (fmt_ok_append P _ _ (fmt_ok_mem_bind P e hmem)
    (fmt_ok_append P _ _ (fmt_ok_if P _ _ _ (vsnprintf_plain_ok _ _ (by decide)))
    (fmt_ok_append P _ _ (fmt_ok_if P _ _ _ ⟨_, rfl⟩)
    (fmt_ok_append P _ _ (fmt_ok_if P _ _ _ (vsnprintf_plain_ok _ _ (by decide)))
    (fmt_ok_append P _ _ (fmt_ok_select P e)
    (fmt_ok_append P _ _ (fmt_ok_if P _ _ _ ⟨_, rfl⟩)
    (fmt_ok_append P _ _ (fmt_ok_if P _ _ _ ⟨_, rfl⟩)
    (fmt_ok_append P _ _ (fmt_ok_if P _ _ _ ⟨_, rfl⟩)
    (fmt_ok_append P _ _ (fmt_ok_if P _ _ _ ⟨_, rfl⟩)
    (fmt_ok_append P _ _ (fmt_ok_if P _ _ _ ⟨_, rfl⟩)
    (fmt_ok_append P _ _ (fmt_ok_if P _ _ _ ⟨_, rfl⟩)
    (fmt_ok_append P _ _ (fmt_ok_if P _ _ _ ⟨_, rfl⟩)
    (fmt_ok_append P _ _ (fmt_ok_if P _ _ _ ⟨_, rfl⟩)
    (fmt_ok_append P _ _ (fmt_ok_if P _ _ _ ⟨_, rfl⟩)
    (fmt_ok_append P _ _ (fmt_ok_if P _ _ _ ⟨_, rfl⟩)
    (fmt_ok_append P _ _ (fmt_ok_cli P e)
    (fmt_ok_aix P)))))))))))))))))))))))

/-- A run of `setup_env` on a vector that holds an entry for none of the
names it handles, with bind strings free of `%`, completes. -/
theorem setup_env_run_returns (P : Platform) (e : env_t) (es : List CStr) (k : Nat)
    (e0 : CStr) (henv : e.env = some (vector_of es k)) (he0 : e0 ∈ es)
    (hother : ∀ n ∈ setup_call_names, ¬ is_entry_for n.toList e0)
    (hcpu : e.cpu_bind_type ≠ 0 → ∃ cb, e.cpu_bind = some cb ∧ '%' ∉ cb)
    (hmem : e.mem_bind_type ≠ 0 → ∀ mb, e.mem_bind = some mb → '%' ∉ mb) :
    ∃ r : Run, setup_env_run P e = .ok r := by
  have hd := distinct_setup_calls P e (fun ht hb => by
    obtain ⟨cb, hcb, _⟩ := hcpu ht
    rw [hcb] at hb
    exact Option.noConfusion hb)
  obtain ⟨R, k1, hR, _⟩ := calls_return P setup_call_names setup_call_names_valid e0 hother
    (setup_calls P e) es k he0 hd.2 (fmt_ok_setup_calls P e hcpu hmem)
  have hx := setup_env_run_exact P e
  rw [henv, hR] at hx
  cases hr : setup_env_run P e with
  | error x =>
    rw [hr] at hx
    exact Except.noConfusion hx
  | ok r => exact ⟨r, rfl⟩

theorem keeps_log_comp {f g : Run → Except Fault Run} (hf : keeps_log f) (hg : keeps_log g) :
    keeps_log (fun r => f r >>= g) := by
  intro r r1 h m hm
  obtain ⟨r2, h2, h3⟩ := bind_eq_ok h
  exact hg r2 r1 h3 m (hf r r2 h2 m hm)

theorem keeps_log_of_eq {f g : Run → Except Fault Run} (h : ∀ r, f r = g r)
    (hg : keeps_log g) : keeps_log f := by
  intro r r1 hr
  rw [h r] at hr
  exact hg r r1 hr

theorem call_setenvf_log (P : Platform) (r r1 : Run) (name : String) (fmt : Fmt) (st : Int)
    (h : call_setenvf P r name fmt = .ok (r1, st)) : r1.log = r.log := by
  simp only [call_setenvf] at h
  obtain ⟨out, _, hpure⟩ := bind_eq_ok h
  simp only [pure, Except.pure, Except.ok.injEq, Prod.mk.injEq] at hpure
  rw [← hpure.1]

theorem keeps_log_set_if (P : Platform) (c : Bool) (name : String) (fmt : Fmt)
    (msg : String) : keeps_log (fun r => set_if P r c name fmt msg) := by
  intro r r1 h m hm
  cases c with
  | false =>
    simp only [set_if, Bool.false_eq_true, if_false, pure, Except.pure, Except.ok.injEq] at h
    rw [← h]
    exact hm
  | true =>
    simp only [set_if, if_true] at h
    obtain ⟨⟨r2, st⟩, h2, h3⟩ := bind_eq_ok h
    have hl := call_setenvf_log P r r2 name fmt st h2
    simp only [pure, Except.pure, Except.ok.injEq] at h3
    rw [← h3]
    split
    · simp [report, hl, hm]
    · rw [hl]
      exact hm

theorem keeps_log_set_quiet (P : Platform) (name : String) (fmt : Fmt) :
    keeps_log (fun r => set_quiet P r name fmt) := by
  intro r r1 h m hm
  simp only [set_quiet] at h
  obtain ⟨⟨r2, st⟩, h2, h3⟩ := bind_eq_ok h
  have hl := call_setenvf_log P r r2 name fmt st h2
  simp only [pure, Except.pure, Except.ok.injEq] at h3
  rw [← h3]
  split
  · show m ∈ r2.log
    rw [hl]
    exact hm
  · rw [hl]
    exact hm

theorem set_stat_log (P : Platform) (rs rs1 : Run × Bool) (name : String) (fmt : Fmt)
    (h : set_stat P rs name fmt = .ok rs1) : rs1.1.log = rs.1.log := by
  simp only [set_stat] at h
  obtain ⟨⟨r2, st⟩, h2, h3⟩ := bind_eq_ok h
  have hl := call_setenvf_log P rs.1 r2 name fmt st h2
  simp only [pure, Except.pure, Except.ok.injEq] at h3
  rw [← h3]
  exact hl

theorem check_stat_log (P : Platform) (rs : Run × Bool) (msg m : String)
    (hm : m ∈ rs.1.log) : m ∈ (check_stat P rs msg).log := by
  unfold check_stat
  split
  · simp [report, hm]
  · exact hm

theorem keeps_log_assign_checked (P : Platform) (name : String) (fmt : Fmt) (msg : String) :
    keeps_log (fun r => assign_checked P r name fmt msg) := by
  intro r r1 h m hm
  simp only [assign_checked] at h
  obtain ⟨rs, h2, h3⟩ := bind_eq_ok h
  have hl := set_stat_log P (r, false) rs name fmt h2
  simp only [pure, Except.pure, Except.ok.injEq] at h3
  rw [← h3]
  exact check_stat_log P rs msg m (by rw [hl]; exact hm)

theorem keeps_log_unset (name : String) : keeps_log (fun r => call_unsetenvp r name) := by
  intro r r1 h m hm
  simp only [call_unsetenvp] at h
  obtain ⟨env1, _, h3⟩ := bind_eq_ok h
  simp only [pure, Except.pure, Except.ok.injEq] at h3
  rw [← h3]
  exact hm

theorem keeps_log_bind_defaults (P : Platform) (u n1 n2 n3 msg : String) :
    keeps_log (fun r => bind_defaults P r u n1 n2 n3 msg) := by
  intro r r1 h m hm
  simp only [bind_defaults] at h
  obtain ⟨ra, h0, h⟩ := bind_eq_ok h
  obtain ⟨rb, h1, h⟩ := bind_eq_ok h
  obtain ⟨rc, h2, h⟩ := bind_eq_ok h
  obtain ⟨rd, h3, h⟩ := bind_eq_ok h
  simp only [pure, Except.pure, Except.ok.injEq] at h
  rw [← h]
  apply check_stat_log
  rw [set_stat_log P rc rd _ _ h3, set_stat_log P rb rc _ _ h2,
    set_stat_log P (ra, false) rb _ _ h1]
  exact keeps_log_unset u r ra h0 m hm

theorem keeps_log_setup_distribution (P : Platform) (e : env_t) :
    keeps_log (setup_distribution P e) := by
  intro r r1 h m hm
  unfold setup_distribution at h
  split at h
  · exact keeps_log_set_if P true _ _ _ _ r1 h m (by
      split_ifs
      · exact hm
      · exact hm
      · exact hm
      · simp [hm])
  · simp only [pure, Except.pure, Except.ok.injEq] at h
    rw [← h]
    exact hm

theorem keeps_log_setup_cpu_bind (P : Platform) (e : env_t) :
    keeps_log (setup_cpu_bind P e) := by
  by_cases h : e.cpu_bind_type ≠ 0
  · refine keeps_log_of_eq (fun r => setup_cpu_bind_eq P e r h) ?_
    have h3 : keeps_log (fun r => set_stat P (r, false) "SLURM_CPU_BIND_LIST"
          (bind_list_fmt e.cpu_bind) >>= fun rs =>
        set_if P rs.1 true "SLURM_CPU_BIND_LIST" (bind_list_raw e.cpu_bind)
          "Unable to set SLURM_CPU_BIND_LIST") := by
      intro r r1 hr m hm
      obtain ⟨rs, h1, h2⟩ := bind_eq_ok hr
      exact keeps_log_set_if P true _ _ _ rs.1 r1 h2 m (by
        rw [set_stat_log P (r, false) rs _ _ h1]
        exact hm)
    exact keeps_log_comp (keeps_log_unset _)
      (keeps_log_comp (keeps_log_assign_checked P _ _ _)
        (keeps_log_comp (keeps_log_assign_checked P _ _ _) h3))
  · have h0 : e.cpu_bind_type = 0 := by simpa using h
    exact keeps_log_of_eq (fun r => setup_cpu_bind_zero P e r h0)
      (keeps_log_bind_defaults P _ _ _ _ _)

theorem keeps_log_setup_mem_bind (P : Platform) (e : env_t) :
    keeps_log (setup_mem_bind P e) := by
  by_cases h : e.mem_bind_type ≠ 0
  · refine keeps_log_of_eq (fun r => setup_mem_bind_eq P e r h) ?_
    exact keeps_log_comp (keeps_log_unset _)
      (keeps_log_comp (keeps_log_assign_checked P _ _ _)
        (keeps_log_comp (keeps_log_assign_checked P _ _ _)
          (keeps_log_assign_checked P _ _ _)))
  · have h0 : e.mem_bind_type = 0 := by simpa using h
    exact keeps_log_of_eq (fun r => setup_mem_bind_zero P e r h0)
      (keeps_log_bind_defaults P _ _ _ _ _)

theorem keeps_log_setup_select_jobinfo (P : Platform) (e : env_t) :
    keeps_log (setup_select_jobinfo P e) := by
  have hlast : keeps_log (fun r => pure (if r.rc = P.SLURM_FAILURE then
        { r with log := r.log ++ ["Can't set MPIRUN_PARTITION environment variable"] }
      else r)) := by
    intro r r1 h m hm
    simp only [pure, Except.pure, Except.ok.injEq] at h
    rw [← h]
    split
    · simp [hm]
    · exact hm
  intro r r1 h m hm
  unfold setup_select_jobinfo at h
  cases hs : e.select_jobinfo with
  | none =>
    simp only [hs, pure, Except.pure, Except.ok.injEq] at h
    rw [← h]
    exact hm
  | some answer =>
    simp only [hs] at h
    cases answer with
    | none => exact hlast _ r1 h m hm
    | some bgl_part_id =>
      exact keeps_log_comp (keeps_log_comp (keeps_log_set_quiet P "MPIRUN_PARTITION" _)
        (keeps_log_comp (keeps_log_set_quiet P "MPIRUN_NOFREE" _)
          (keeps_log_set_quiet P "MPIRUN_NOALLOCATE" _))) hlast r r1 (by simpa using h) m hm

theorem keeps_log_setup_cli (P : Platform) (e : env_t) : keeps_log (setup_cli P e) := by
  intro r r1 h m hm
  unfold setup_cli at h
  cases hc : e.cli with
  | none =>
    simp only [hc, pure, Except.pure, Except.ok.injEq] at h
    rw [← h]
    exact hm
  | some addrbuf =>
    simp only [hc] at h
    obtain ⟨⟨r2, st⟩, h2, h3⟩ := bind_eq_ok h
    simp only [pure, Except.pure, Except.ok.injEq] at h3
    rw [← h3, call_setenvf_log P r r2 _ _ st h2]
    exact hm

theorem keeps_log_setup_aix (P : Platform) : keeps_log (setup_aix P) := by
  intro r r1 h m hm
  unfold setup_aix at h
  split at h
  · obtain ⟨⟨ra, s1⟩, h1, h⟩ := bind_eq_ok h
    obtain ⟨⟨rb, s2⟩, h2, h⟩ := bind_eq_ok h
    obtain ⟨⟨rc, s3⟩, h3, h⟩ := bind_eq_ok h
    simp only [pure, Except.pure, Except.ok.injEq] at h
    rw [← h, call_setenvf_log P rb rc _ _ s3 h3, call_setenvf_log P ra rb _ _ s2 h2,
      call_setenvf_log P r ra _ _ s1 h1]
    exact hm
  · simp only [pure, Except.pure, Except.ok.injEq] at h
    rw [← h]
    exact hm

/-- A completed run of `setup_env` with a non-negative distribution that is
none of the three known values has the diagnostic of line 272 in its log. -/
theorem distribution_logged (P : Platform) (e : env_t) (r : Run)
    (h0 : 0 ≤ e.distribution) (h1 : e.distribution ≠ P.SLURM_DIST_CYCLIC)
    (h2 : e.distribution ≠ P.SLURM_DIST_BLOCK) (h3 : e.distribution ≠ P.SLURM_DIST_ARBITRARY)
    (h : setup_env_run P e = .ok r) :
    ("unknown dist, type " ++ String.mk (fmt_d e.distribution)) ∈ r.log := by
  unfold setup_env_run at h
  obtain ⟨r1, _, h⟩ := bind_eq_ok h
  obtain ⟨r2, _, h⟩ := bind_eq_ok h
  obtain ⟨r3, _, h⟩ := bind_eq_ok h
  obtain ⟨r4, _, h⟩ := bind_eq_ok h
  obtain ⟨r5, h5, h⟩ := bind_eq_ok h
  have h0' : e.distribution ≥ 0 := h0
  rw [setup_distribution, if_pos h0', if_neg h1, if_neg h2, if_neg h3] at h5
  have hm5 : ("unknown dist, type " ++ String.mk (fmt_d e.distribution)) ∈ r5.log :=
    keeps_log_set_if P true _ _ _ _ r5 h5 _ (by simp)
  exact (keeps_log_comp (keeps_log_setup_cpu_bind P e)
    (keeps_log_comp (keeps_log_setup_mem_bind P e)
    (keeps_log_comp (keeps_log_set_if P _ _ _ _)
    (keeps_log_comp (keeps_log_set_if P _ _ _ _)
    (keeps_log_comp (keeps_log_set_if P _ _ _ _)
    (keeps_log_comp (keeps_log_setup_select_jobinfo P e)
    (keeps_log_comp (keeps_log_set_if P _ _ _ _)
    (keeps_log_comp (keeps_log_set_if P _ _ _ _)
    (keeps_log_comp (keeps_log_set_if P _ _ _ _)
    (keeps_log_comp (keeps_log_set_if P _ _ _ _)
    (keeps_log_comp (keeps_log_set_if P _ _ _ _)
    (keeps_log_comp (keeps_log_set_if P _ _ _ _)
    (keeps_log_comp (keeps_log_set_if P _ _ _ _)
    (keeps_log_comp (keeps_log_set_if P _ _ _ _)
    (keeps_log_comp (keeps_log_set_if P _ _ _ _)
    (keeps_log_comp (keeps_log_set_if P _ _ _ _)
    (keeps_log_comp (keeps_log_setup_cli P e)
    (keeps_log_setup_aix P)))))))))))))))))) r5 r h _ hm5

/-! ## The calls of `setup_env` for one variable -/

theorem mem_calls_if (b : Bool) (n : String) (f : Fmt) (c : Call)
    (h : c ∈ calls_if b n f) : b = true ∧ c = .set n f := by
  cases b with
  | false => simp [calls_if] at h
  | true =>
    simp only [calls_if, if_true, List.mem_singleton] at h
    exact ⟨rfl, h⟩

theorem names_cpu_bind_call_list (P : Platform) (e : env_t) :
    ∀ c ∈ cpu_bind_call_list P e, c.name ∈
      ["SLURM_CPU_BIND", "SLURM_CPU_BIND_VERBOSE", "SLURM_CPU_BIND_TYPE",
       "SLURM_CPU_BIND_LIST"] := by
  intro c hc
  unfold cpu_bind_call_list at hc
  split at hc <;>
    · simp only [List.mem_cons, List.mem_singleton, List.not_mem_nil, or_false] at hc
      rcases hc with rfl | rfl | rfl | rfl | rfl <;> simp [Call.name]

/-- The only call of `setup_env` for `SLURM_DISTRIBUTION` is the one of lines
274-277, and it is made for a non-negative distribution only. -/
theorem calls_named_distribution (P : Platform) (e : env_t) (c : Call)
    (hc : c ∈ setup_calls P e) (hn : c.name = "SLURM_DISTRIBUTION") :
    0 ≤ e.distribution ∧
      c = .set "SLURM_DISTRIBUTION" (.s (dist_text P e.distribution).toList) := by
  simp only [setup_calls, List.mem_append] at hc
  rcases hc with h | h | h | h | h | h | h | h | h | h | h | h | h | h | h | h | h | h | h | h | h | h | h
  · obtain ⟨_, rfl⟩ := mem_calls_if _ _ _ _ h
    exact absurd hn (by simp only [Call.name]; decide)
  · obtain ⟨_, rfl⟩ := mem_calls_if _ _ _ _ h
    exact absurd hn (by simp only [Call.name]; decide)
  · obtain ⟨_, rfl⟩ := mem_calls_if _ _ _ _ h
    exact absurd hn (by simp only [Call.name]; decide)
  · obtain ⟨_, rfl⟩ := mem_calls_if _ _ _ _ h
    exact absurd hn (by simp only [Call.name]; decide)
  · obtain ⟨hb, hcall⟩ := mem_calls_if _ _ _ _ h
    exact ⟨by simpa using hb, hcall⟩
  · have hb := names_cpu_bind_call_list P e c h
    rw [hn] at hb
    exact absurd hb (by decide)
  · have hb := (distinct_mem_bind_call_list P e).2 c h
    rw [hn] at hb
    exact absurd hb (by decide)
  · obtain ⟨_, rfl⟩ := mem_calls_if _ _ _ _ h
    exact absurd hn (by simp only [Call.name]; decide)
  · obtain ⟨_, rfl⟩ := mem_calls_if _ _ _ _ h
    exact absurd hn (by simp only [Call.name]; decide)
  · obtain ⟨_, rfl⟩ := mem_calls_if _ _ _ _ h
    exact absurd hn (by simp only [Call.name]; decide)
  · have hb := (distinct_select_call_list e).2 c h
    rw [hn] at hb
    exact absurd hb (by decide)
  · obtain ⟨_, rfl⟩ := mem_calls_if _ _ _ _ h
    exact absurd hn (by simp only [Call.name]; decide)
  · obtain ⟨_, rfl⟩ := mem_calls_if _ _ _ _ h
    exact absurd hn (by simp only [Call.name]; decide)
  · obtain ⟨_, rfl⟩ := mem_calls_if _ _ _ _ h
    exact absurd hn (by simp only [Call.name]; decide)
  · obtain ⟨_, rfl⟩ := mem_calls_if _ _ _ _ h
    exact absurd hn (by simp only [Call.name]; decide)
  · obtain ⟨_, rfl⟩ := mem_calls_if _ _ _ _ h
    exact absurd hn (by simp only [Call.name]; decide)
  · obtain ⟨_, rfl⟩ := mem_calls_if _ _ _ _ h
    exact absurd hn (by simp only [Call.name]; decide)
  · obtain ⟨_, rfl⟩ := mem_calls_if _ _ _ _ h
    exact absurd hn (by simp only [Call.name]; decide)
  · obtain ⟨_, rfl⟩ := mem_calls_if _ _ _ _ h
    exact absurd hn (by simp only [Call.name]; decide)
  · obtain ⟨_, rfl⟩ := mem_calls_if _ _ _ _ h
    exact absurd hn (by simp only [Call.name]; decide)
  · obtain ⟨_, rfl⟩ := mem_calls_if _ _ _ _ h
    exact absurd hn (by simp only [Call.name]; decide)
  · have hb := (distinct_cli_call_list e).2 c h
    rw [hn] at hb
    exact absurd hb (by decide)
  · have hb := (distinct_aix_call_list P).2 c h
    rw [hn] at hb
    exact absurd hb (by decide)

/-- With CPU binding bits set, the only call for `SLURM_CPU_BIND_TYPE` passes
the token of lines 294-306. -/
theorem calls_named_cpu_bind_type (P : Platform) (e : env_t) (c : Call)
    (ht : e.cpu_bind_type ≠ 0)
    (hc : c ∈ setup_calls P e) (hn : c.name = "SLURM_CPU_BIND_TYPE") :
    c = .set "SLURM_CPU_BIND_TYPE"
      (.plain (bind_type_text e.cpu_bind_type P.CPU_BIND_VERBOSE P.CPU_BIND_NONE
        P.CPU_BIND_RANK P.CPU_BIND_MAPCPU P.CPU_BIND_MASKCPU).toList) := by
  simp only [setup_calls, List.mem_append] at hc
  rcases hc with h | h | h | h | h | h | h | h | h | h | h | h | h | h | h | h | h | h | h | h | h | h | h
  · obtain ⟨_, rfl⟩ := mem_calls_if _ _ _ _ h
    exact absurd hn (by simp only [Call.name]; decide)
  · obtain ⟨_, rfl⟩ := mem_calls_if _ _ _ _ h
    exact absurd hn (by simp only [Call.name]; decide)
  · obtain ⟨_, rfl⟩ := mem_calls_if _ _ _ _ h
    exact absurd hn (by simp only [Call.name]; decide)
  · obtain ⟨_, rfl⟩ := mem_calls_if _ _ _ _ h
    exact absurd hn (by simp only [Call.name]; decide)
  · obtain ⟨_, rfl⟩ := mem_calls_if _ _ _ _ h
    exact absurd hn (by simp only [Call.name]; decide)
  · unfold cpu_bind_call_list at h
    rw [if_pos ht] at h
    simp only [List.mem_cons, List.mem_singleton, List.not_mem_nil, or_false] at h
    rcases h with rfl | rfl | rfl | rfl | rfl
    all_goals first
      | rfl
      | exact absurd hn (by simp only [Call.name]; decide)
  · have hb := (distinct_mem_bind_call_list P e).2 c h
    rw [hn] at hb
    exact absurd hb (by decide)
  · obtain ⟨_, rfl⟩ := mem_calls_if _ _ _ _ h
    exact absurd hn (by simp only [Call.name]; decide)
  · obtain ⟨_, rfl⟩ := mem_calls_if _ _ _ _ h
    exact absurd hn (by simp only [Call.name]; decide)
  · obtain ⟨_, rfl⟩ := mem_calls_if _ _ _ _ h
    exact absurd hn (by simp only [Call.name]; decide)
  · have hb := (distinct_select_call_list e).2 c h
    rw [hn] at hb
    exact absurd hb (by decide)
  · obtain ⟨_, rfl⟩ := mem_calls_if _ _ _ _ h
    exact absurd hn (by simp only [Call.name]; decide)
  · obtain ⟨_, rfl⟩ := mem_calls_if _ _ _ _ h
    exact absurd hn (by simp only [Call.name]; decide)
  · obtain ⟨_, rfl⟩ := mem_calls_if _ _ _ _ h
    exact absurd hn (by simp only [Call.name]; decide)
  · obtain ⟨_, rfl⟩ := mem_calls_if _ _ _ _ h
    exact absurd hn (by simp only [Call.name]; decide)
  · obtain ⟨_, rfl⟩ := mem_calls_if _ _ _ _ h
    exact absurd hn (by simp only [Call.name]; decide)
  · obtain ⟨_, rfl⟩ := mem_calls_if _ _ _ _ h
    exact absurd hn (by simp only [Call.name]; decide)
  · obtain ⟨_, rfl⟩ := mem_calls_if _ _ _ _ h
    exact absurd hn (by simp only [Call.name]; decide)
  · obtain ⟨_, rfl⟩ := mem_calls_if _ _ _ _ h
    exact absurd hn (by simp only [Call.name]; decide)
  · obtain ⟨_, rfl⟩ := mem_calls_if _ _ _ _ h
    exact absurd hn (by simp only [Call.name]; decide)
  · obtain ⟨_, rfl⟩ := mem_calls_if _ _ _ _ h
    exact absurd hn (by simp only [Call.name]; decide)
  · have hb := (distinct_cli_call_list e).2 c h
    rw [hn] at hb
    exact absurd hb (by decide)
  · have hb := (distinct_aix_call_list P).2 c h
    rw [hn] at hb
    exact absurd hb (by decide)

/-- With CPU binding bits set, the only call for `SLURM_CPU_BIND_VERBOSE`
passes the token of lines 283-287. -/
theorem calls_named_cpu_bind_verbose (P : Platform) (e : env_t) (c : Call)
    (ht : e.cpu_bind_type ≠ 0)
    (hc : c ∈ setup_calls P e) (hn : c.name = "SLURM_CPU_BIND_VERBOSE") :
    c = .set "SLURM_CPU_BIND_VERBOSE"
      (.plain (verbose_text e.cpu_bind_type P.CPU_BIND_VERBOSE).toList) := by
  simp only [setup_calls, List.mem_append] at hc
  rcases hc with h | h | h | h | h | h | h | h | h | h | h | h | h | h | h | h | h | h | h | h | h | h | h
  · obtain ⟨_, rfl⟩ := mem_calls_if _ _ _ _ h
    exact absurd hn (by simp only [Call.name]; decide)
  · obtain ⟨_, rfl⟩ := mem_calls_if _ _ _ _ h
    exact absurd hn (by simp only [Call.name]; decide)
  · obtain ⟨_, rfl⟩ := mem_calls_if _ _ _ _ h
    exact absurd hn (by simp only [Call.name]; decide)
  · obtain ⟨_, rfl⟩ := mem_calls_if _ _ _ _ h
    exact absurd hn (by simp only [Call.name]; decide)
  · obtain ⟨_, rfl⟩ := mem_calls_if _ _ _ _ h
    exact absurd hn (by simp only [Call.name]; decide)
  · unfold cpu_bind_call_list at h
    rw [if_pos ht] at h
    simp only [List.mem_cons, List.mem_singleton, List.not_mem_nil, or_false] at h
    rcases h with rfl | rfl | rfl | rfl | rfl
    all_goals first
      | rfl
      | exact absurd hn (by simp only [Call.name]; decide)
  · have hb := (distinct_mem_bind_call_list P e).2 c h
    rw [hn] at hb
    exact absurd hb (by decide)
  · obtain ⟨_, rfl⟩ := mem_calls_if _ _ _ _ h
    exact absurd hn (by simp only [Call.name]; decide)
  · obtain ⟨_, rfl⟩ := mem_calls_if _ _ _ _ h
    exact absurd hn (by simp only [Call.name]; decide)
  · obtain ⟨_, rfl⟩ := mem_calls_if _ _ _ _ h
    exact absurd hn (by simp only [Call.name]; decide)
  · have hb := (distinct_select_call_list e).2 c h
    rw [hn] at hb
    exact absurd hb (by decide)
  · obtain ⟨_, rfl⟩ := mem_calls_if _ _ _ _ h
    exact absurd hn (by simp only [Call.name]; decide)
  · obtain ⟨_, rfl⟩ := mem_calls_if _ _ _ _ h
    exact absurd hn (by simp only [Call.name]; decide)
  · obtain ⟨_, rfl⟩ := mem_calls_if _ _ _ _ h
    exact absurd hn (by simp only [Call.name]; decide)
  · obtain ⟨_, rfl⟩ := mem_calls_if _ _ _ _ h
    exact absurd hn (by simp only [Call.name]; decide)
  · obtain ⟨_, rfl⟩ := mem_calls_if _ _ _ _ h
    exact absurd hn (by simp only [Call.name]; decide)
  · obtain ⟨_, rfl⟩ := mem_calls_if _ _ _ _ h
    exact absurd hn (by simp only [Call.name]; decide)
  · obtain ⟨_, rfl⟩ := mem_calls_if _ _ _ _ h
    exact absurd hn (by simp only [Call.name]; decide)
  · obtain ⟨_, rfl⟩ := mem_calls_if _ _ _ _ h
    exact absurd hn (by simp only [Call.name]; decide)
  · obtain ⟨_, rfl⟩ := mem_calls_if _ _ _ _ h
    exact absurd hn (by simp only [Call.name]; decide)
  · obtain ⟨_, rfl⟩ := mem_calls_if _ _ _ _ h
    exact absurd hn (by simp only [Call.name]; decide)
  · have hb := (distinct_cli_call_list e).2 c h
    rw [hn] at hb
    exact absurd hb (by decide)
  · have hb := (distinct_aix_call_list P).2 c h
    rw [hn] at hb
    exact absurd hb (by decide)

/-- With memory binding bits set, the only call for `SLURM_MEM_BIND_TYPE`
passes the token of lines 349-361. -/
theorem calls_named_mem_bind_type (P : Platform) (e : env_t) (c : Call)
    (ht : e.mem_bind_type ≠ 0)
    (hc : c ∈ setup_calls P e) (hn : c.name = "SLURM_MEM_BIND_TYPE") :
    c = .set "SLURM_MEM_BIND_TYPE"
      (.plain (bind_type_text e.mem_bind_type P.MEM_BIND_VERBOSE P.MEM_BIND_NONE
        P.MEM_BIND_RANK P.MEM_BIND_MAPCPU P.MEM_BIND_MASKCPU).toList) := by
  simp only [setup_calls, List.mem_append] at hc
  rcases hc with h | h | h | h | h | h | h | h | h | h | h | h | h | h | h | h | h | h | h | h | h | h | h
  · obtain ⟨_, rfl⟩ := mem_calls_if _ _ _ _ h
    exact absurd hn (by simp only [Call.name]; decide)
  · obtain ⟨_, rfl⟩ := mem_calls_if _ _ _ _ h
    exact absurd hn (by simp only [Call.name]; decide)
  · obtain ⟨_, rfl⟩ := mem_calls_if _ _ _ _ h
    exact absurd hn (by simp only [Call.name]; decide)
  · obtain ⟨_, rfl⟩ := mem_calls_if _ _ _ _ h
    exact absurd hn (by simp only [Call.name]; decide)
  · obtain ⟨_, rfl⟩ := mem_calls_if _ _ _ _ h
    exact absurd hn (by simp only [Call.name]; decide)
  · have hb := names_cpu_bind_call_list P e c h
    rw [hn] at hb
    exact absurd hb (by decide)
  · unfold mem_bind_call_list at h
    rw [if_pos ht] at h
    simp only [List.mem_cons, List.mem_singleton, List.not_mem_nil, or_false] at h
    rcases h with rfl | rfl | rfl | rfl
    all_goals first
      | rfl
      | exact absurd hn (by simp only [Call.name]; decide)
  · obtain ⟨_, rfl⟩ := mem_calls_if _ _ _ _ h
    exact absurd hn (by simp only [Call.name]; decide)
  · obtain ⟨_, rfl⟩ := mem_calls_if _ _ _ _ h
    exact absurd hn (by simp only [Call.name]; decide)
  · obtain ⟨_, rfl⟩ := mem_calls_if _ _ _ _ h
    exact absurd hn (by simp only [Call.name]; decide)
  · have hb := (distinct_select_call_list e).2 c h
    rw [hn] at hb
    exact absurd hb (by decide)
  · obtain ⟨_, rfl⟩ := mem_calls_if _ _ _ _ h
    exact absurd hn (by simp only [Call.name]; decide)
  · obtain ⟨_, rfl⟩ := mem_calls_if _ _ _ _ h
    exact absurd hn (by simp only [Call.name]; decide)
  · obtain ⟨_, rfl⟩ := mem_calls_if _ _ _ _ h
    exact absurd hn (by simp only [Call.name]; decide)
  · obtain ⟨_, rfl⟩ := mem_calls_if _ _ _ _ h
    exact absurd hn (by simp only [Call.name]; decide)
  · obtain ⟨_, rfl⟩ := mem_calls_if _ _ _ _ h
    exact absurd hn (by simp only [Call.name]; decide)
  · obtain ⟨_, rfl⟩ := mem_calls_if _ _ _ _ h
    exact absurd hn (by simp only [Call.name]; decide)
  · obtain ⟨_, rfl⟩ := mem_calls_if _ _ _ _ h
    exact absurd hn (by simp only [Call.name]; decide)
  · obtain ⟨_, rfl⟩ := mem_calls_if _ _ _ _ h
    exact absurd hn (by simp only [Call.name]; decide)
  · obtain ⟨_, rfl⟩ := mem_calls_if _ _ _ _ h
    exact absurd hn (by simp only [Call.name]; decide)
  · obtain ⟨_, rfl⟩ := mem_calls_if _ _ _ _ h
    exact absurd hn (by simp only [Call.name]; decide)
  · have hb := (distinct_cli_call_list e).2 c h
    rw [hn] at hb
    exact absurd hb (by decide)
  · have hb := (distinct_aix_call_list P).2 c h
    rw [hn] at hb
    exact absurd hb (by decide)

/-- With memory binding bits set, the only call for `SLURM_MEM_BIND_VERBOSE`
passes the token of lines 338-342. -/
theorem calls_named_mem_bind_verbose (P : Platform) (e : env_t) (c : Call)
    (ht : e.mem_bind_type ≠ 0)
    (hc : c ∈ setup_calls P e) (hn : c.name = "SLURM_MEM_BIND_VERBOSE") :
    c = .set "SLURM_MEM_BIND_VERBOSE"
      (.plain (verbose_text e.mem_bind_type P.MEM_BIND_VERBOSE).toList) := by
  simp only [setup_calls, List.mem_append] at hc
  rcases hc with h | h | h | h | h | h | h | h | h | h | h | h | h | h | h | h | h | h | h | h | h | h | h
  · obtain ⟨_, rfl⟩ := mem_calls_if _ _ _ _ h
    exact absurd hn (by simp only [Call.name]; decide)
  · obtain ⟨_, rfl⟩ := mem_calls_if _ _ _ _ h
    exact absurd hn (by simp only [Call.name]; decide)
  · obtain ⟨_, rfl⟩ := mem_calls_if _ _ _ _ h
    exact absurd hn (by simp only [Call.name]; decide)
  · obtain ⟨_, rfl⟩ := mem_calls_if _ _ _ _ h
    exact absurd hn (by simp only [Call.name]; decide)
  · obtain ⟨_, rfl⟩ := mem_calls_if _ _ _ _ h
    exact absurd hn (by simp only [Call.name]; decide)
  · have hb := names_cpu_bind_call_list P e c h
    rw [hn] at hb
    exact absurd hb (by decide)
  · unfold mem_bind_call_list at h
    rw [if_pos ht] at h
    simp only [List.mem_cons, List.mem_singleton, List.not_mem_nil, or_false] at h
    rcases h with rfl | rfl | rfl | rfl
    all_goals first
      | rfl
      | exact absurd hn (by simp only [Call.name]; decide)
  · obtain ⟨_, rfl⟩ := mem_calls_if _ _ _ _ h
    exact absurd hn (by simp only [Call.name]; decide)
  · obtain ⟨_, rfl⟩ := mem_calls_if _ _ _ _ h
    exact absurd hn (by simp only [Call.name]; decide)
  · obtain ⟨_, rfl⟩ := mem_calls_if _ _ _ _ h
    exact absurd hn (by simp only [Call.name]; decide)
  · have hb := (distinct_select_call_list e).2 c h
    rw [hn] at hb
    exact absurd hb (by decide)
  · obtain ⟨_, rfl⟩ := mem_calls_if _ _ _ _ h
    exact absurd hn (by simp only [Call.name]; decide)
  · obtain ⟨_, rfl⟩ := mem_calls_if _ _ _ _ h
    exact absurd hn (by simp only [Call.name]; decide)
  · obtain ⟨_, rfl⟩ := mem_calls_if _ _ _ _ h
    exact absurd hn (by simp only [Call.name]; decide)
  · obtain ⟨_, rfl⟩ := mem_calls_if _ _ _ _ h
    exact absurd hn (by simp only [Call.name]; decide)
  · obtain ⟨_, rfl⟩ := mem_calls_if _ _ _ _ h
    exact absurd hn (by simp only [Call.name]; decide)
  · obtain ⟨_, rfl⟩ := mem_calls_if _ _ _ _ h
    exact absurd hn (by simp only [Call.name]; decide)
  · obtain ⟨_, rfl⟩ := mem_calls_if _ _ _ _ h
    exact absurd hn (by simp only [Call.name]; decide)
  · obtain ⟨_, rfl⟩ := mem_calls_if _ _ _ _ h
    exact absurd hn (by simp only [Call.name]; decide)
  · obtain ⟨_, rfl⟩ := mem_calls_if _ _ _ _ h
    exact absurd hn (by simp only [Call.name]; decide)
  · obtain ⟨_, rfl⟩ := mem_calls_if _ _ _ _ h
    exact absurd hn (by simp only [Call.name]; decide)
  · have hb := (distinct_cli_call_list e).2 c h
    rw [hn] at hb
    exact absurd hb (by decide)
  · have hb := (distinct_aix_call_list P).2 c h
    rw [hn] at hb
    exact absurd hb (by decide)

/-- The only call of `setup_env` for `SLURM_LAUNCH_NODE_IPADDR` is the one of
line 502, made when the context holds a launch-node address. -/
theorem calls_named_ipaddr (P : Platform) (e : env_t) (c : Call)
    (hc : c ∈ setup_calls P e) (hn : c.name = "SLURM_LAUNCH_NODE_IPADDR") :
    ∃ addrbuf, e.cli = some addrbuf ∧
      c = .set "SLURM_LAUNCH_NODE_IPADDR" (.s (addrbuf.takeWhile (· ≠ ':'))) := by
  simp only [setup_calls, List.mem_append] at hc
  rcases hc with h | h | h | h | h | h | h | h | h | h | h | h | h | h | h | h | h | h | h | h | h | h | h
  · obtain ⟨_, rfl⟩ := mem_calls_if _ _ _ _ h
    exact absurd hn (by simp only [Call.name]; decide)
  · obtain ⟨_, rfl⟩ := mem_calls_if _ _ _ _ h
    exact absurd hn (by simp only [Call.name]; decide)
  · obtain ⟨_, rfl⟩ := mem_calls_if _ _ _ _ h
    exact absurd hn (by simp only [Call.name]; decide)
  · obtain ⟨_, rfl⟩ := mem_calls_if _ _ _ _ h
    exact absurd hn (by simp only [Call.name]; decide)
  · obtain ⟨_, rfl⟩ := mem_calls_if _ _ _ _ h
    exact absurd hn (by simp only [Call.name]; decide)
  · have hb := names_cpu_bind_call_list P e c h
    rw [hn] at hb
    exact absurd hb (by decide)
  · have hb := (distinct_mem_bind_call_list P e).2 c h
    rw [hn] at hb
    exact absurd hb (by decide)
  · obtain ⟨_, rfl⟩ := mem_calls_if _ _ _ _ h
    exact absurd hn (by simp only [Call.name]; decide)
  · obtain ⟨_, rfl⟩ := mem_calls_if _ _ _ _ h
    exact absurd hn (by simp only [Call.name]; decide)
  · obtain ⟨_, rfl⟩ := mem_calls_if _ _ _ _ h
    exact absurd hn (by simp only [Call.name]; decide)
  · have hb := (distinct_select_call_list e).2 c h
    rw [hn] at hb
    exact absurd hb (by decide)
  · obtain ⟨_, rfl⟩ := mem_calls_if _ _ _ _ h
    exact absurd hn (by simp only [Call.name]; decide)
  · obtain ⟨_, rfl⟩ := mem_calls_if _ _ _ _ h
    exact absurd hn (by simp only [Call.name]; decide)
  · obtain ⟨_, rfl⟩ := mem_calls_if _ _ _ _ h
    exact absurd hn (by simp only [Call.name]; decide)
  · obtain ⟨_, rfl⟩ := mem_calls_if _ _ _ _ h
    exact absurd hn (by simp only [Call.name]; decide)
  · obtain ⟨_, rfl⟩ := mem_calls_if _ _ _ _ h
    exact absurd hn (by simp only [Call.name]; decide)
  · obtain ⟨_, rfl⟩ := mem_calls_if _ _ _ _ h
    exact absurd hn (by simp only [Call.name]; decide)
  · obtain ⟨_, rfl⟩ := mem_calls_if _ _ _ _ h
    exact absurd hn (by simp only [Call.name]; decide)
  · obtain ⟨_, rfl⟩ := mem_calls_if _ _ _ _ h
    exact absurd hn (by simp only [Call.name]; decide)
  · obtain ⟨_, rfl⟩ := mem_calls_if _ _ _ _ h
    exact absurd hn (by simp only [Call.name]; decide)
  · obtain ⟨_, rfl⟩ := mem_calls_if _ _ _ _ h
    exact absurd hn (by simp only [Call.name]; decide)
  · unfold cli_call_list at h
    cases hcli : e.cli with
    | none => simp [hcli] at h
    | some addrbuf =>
      simp only [hcli, List.mem_singleton] at h
      exact ⟨addrbuf, rfl, h⟩
  · have hb := (distinct_aix_call_list P).2 c h
    rw [hn] at hb
    exact absurd hb (by decide)

/-! ## C11: the distribution -/

theorem dist_text_toList (P : Platform) (d : Int) :
    (dist_text P d).toList
      = if d = P.SLURM_DIST_CYCLIC then "cyclic".toList
        else if d = P.SLURM_DIST_BLOCK then "block".toList
        else if d = P.SLURM_DIST_ARBITRARY then "arbitrary".toList
        else "unknown".toList := by
  unfold dist_text
  split_ifs <;> rfl

/-- C11 (the code departs from the claim). With the distribution 7, which is
none of the three known values of the sample platform, on the vector without
entries: the call that is to set `SLURM_DISTRIBUTION` reads slot -1 in
`_extend_env`; no vector results and the remaining fields are not processed.  On the vector `A=1`, NULL the same
context gives the value `unknown` and the diagnostic `unknown dist, type 7`.
In general: the vector a run leaves is the one its calls leave, fault for
fault; the only call for `SLURM_DISTRIBUTION` is made for a non-negative
distribution and passes the format `%s` with the token `cyclic`, `block`,
`arbitrary` for the three known values and `unknown` for every other, and for
a negative distribution there is no such call; lines 258-278 record the
diagnostic exactly in the `unknown` case; a completed run on a vector leaves
the token as value (for a negative distribution the value from before) and,
in the `unknown` case, the diagnostic in the log; and a run on a vector that
also holds an entry for none of the names `setup_env` handles, with bind
strings free of `%`, does complete. -/
theorem C11_setup_distribution :
    setup_env sample_platform (some { blank_env_t with distribution := 7, env := some [none] })
      = .error .outside ∧
    (setup_env sample_platform
        (some { blank_env_t with distribution := 7,
                                 env := some [some "A=1".toList, none] })).map
        (fun out => out.2.map
          (fun r => (getenvp r.env "SLURM_DISTRIBUTION".toList, r.log)))
      = .ok (some (.ok (some "unknown".toList), ["unknown dist, type 7"])) ∧
    (∀ (P : Platform) (e : env_t),
      (setup_env_run P e).map (fun r => r.env) = run_calls P e.env (setup_calls P e) ∧
      (∀ c ∈ setup_calls P e, c.name = "SLURM_DISTRIBUTION" →
        0 ≤ e.distribution ∧
        c = .set "SLURM_DISTRIBUTION" (.s
          (if e.distribution = P.SLURM_DIST_CYCLIC then "cyclic".toList
           else if e.distribution = P.SLURM_DIST_BLOCK then "block".toList
           else if e.distribution = P.SLURM_DIST_ARBITRARY then "arbitrary".toList
           else "unknown".toList))) ∧
      (0 ≤ e.distribution →
        Call.set "SLURM_DISTRIBUTION" (.s
          (if e.distribution = P.SLURM_DIST_CYCLIC then "cyclic".toList
           else if e.distribution = P.SLURM_DIST_BLOCK then "block".toList
           else if e.distribution = P.SLURM_DIST_ARBITRARY then "arbitrary".toList
           else "unknown".toList)) ∈ setup_calls P e)) ∧
    (∀ (P : Platform) (e : env_t),
      (0 ≤ P.SLURM_DIST_CYCLIC ∧ 0 ≤ P.SLURM_DIST_BLOCK ∧ 0 ≤ P.SLURM_DIST_ARBITRARY) →
      (P.SLURM_DIST_CYCLIC ≠ P.SLURM_DIST_BLOCK ∧
        P.SLURM_DIST_CYCLIC ≠ P.SLURM_DIST_ARBITRARY ∧
        P.SLURM_DIST_BLOCK ≠ P.SLURM_DIST_ARBITRARY) →
      (∀ r : Run, e.distribution < 0 → setup_distribution P e r = .ok r) ∧
      (∀ r : Run, e.distribution = P.SLURM_DIST_CYCLIC →
        setup_distribution P e r = set_if P r true "SLURM_DISTRIBUTION" (.s "cyclic".toList)
          "Can't set SLURM_DISTRIBUTION env variable") ∧
      (∀ r : Run, e.distribution = P.SLURM_DIST_BLOCK →
        setup_distribution P e r = set_if P r true "SLURM_DISTRIBUTION" (.s "block".toList)
          "Can't set SLURM_DISTRIBUTION env variable") ∧
      (∀ r : Run, e.distribution = P.SLURM_DIST_ARBITRARY →
        setup_distribution P e r
          = set_if P r true "SLURM_DISTRIBUTION" (.s "arbitrary".toList)
              "Can't set SLURM_DISTRIBUTION env variable") ∧
      (∀ r : Run, 0 ≤ e.distribution → e.distribution ≠ P.SLURM_DIST_CYCLIC →
        e.distribution ≠ P.SLURM_DIST_BLOCK → e.distribution ≠ P.SLURM_DIST_ARBITRARY →
        setup_distribution P e r
          = set_if P
              { r with log := r.log ++
                  ["unknown dist, type " ++ String.mk (fmt_d e.distribution)] }
              true "SLURM_DISTRIBUTION" (.s "unknown".toList)
              "Can't set SLURM_DISTRIBUTION env variable")) ∧
    (∀ (P : Platform) (e : env_t) (es : List CStr) (k : Nat) (r : Run),
      256 ≤ P.BUFSIZ → e.env = some (vector_of es k) → setup_env_run P e = .ok r →
      getenvp r.env "SLURM_DISTRIBUTION".toList
        = (if 0 ≤ e.distribution then
            .ok (some
              (if e.distribution = P.SLURM_DIST_CYCLIC then "cyclic".toList
               else if e.distribution = P.SLURM_DIST_BLOCK then "block".toList
               else if e.distribution = P.SLURM_DIST_ARBITRARY then "arbitrary".toList
               else "unknown".toList))
          else getenvp e.env "SLURM_DISTRIBUTION".toList) ∧
      (0 ≤ e.distribution → e.distribution ≠ P.SLURM_DIST_CYCLIC →
        e.distribution ≠ P.SLURM_DIST_BLOCK → e.distribution ≠ P.SLURM_DIST_ARBITRARY →
        ("unknown dist, type " ++ String.mk (fmt_d e.distribution)) ∈ r.log)) ∧
    (∀ (P : Platform) (e : env_t) (es : List CStr) (k : Nat) (e0 : CStr),
      256 ≤ P.BUFSIZ → e.env = some (vector_of es k) → e0 ∈ es →
      (∀ n ∈ setup_call_names, ¬ is_entry_for n.toList e0) →
      (e.cpu_bind_type ≠ 0 → ∃ cb, e.cpu_bind = some cb ∧ '%' ∉ cb) →
      (e.mem_bind_type ≠ 0 → ∀ mb, e.mem_bind = some mb → '%' ∉ mb) →
      ∃ r : Run, setup_env_run P e = .ok r ∧
        getenvp r.env "SLURM_DISTRIBUTION".toList
          = (if 0 ≤ e.distribution then
              .ok (some
                (if e.distribution = P.SLURM_DIST_CYCLIC then "cyclic".toList
                 else if e.distribution = P.SLURM_DIST_BLOCK then "block".toList
                 else if e.distribution = P.SLURM_DIST_ARBITRARY then "arbitrary".toList
                 else "unknown".toList))
            else getenvp e.env "SLURM_DISTRIBUTION".toList) ∧
        (0 ≤ e.distribution → e.distribution ≠ P.SLURM_DIST_CYCLIC →
          e.distribution ≠ P.SLURM_DIST_BLOCK → e.distribution ≠ P.SLURM_DIST_ARBITRARY →
          ("unknown dist, type " ++ String.mk (fmt_d e.distribution)) ∈ r.log)) := by
  refine ⟨by decide, by decide, ?_, ?_, ?_, ?_⟩
  · intro P e
    refine ⟨setup_env_run_exact P e, ?_, ?_⟩
    · intro c hc hn
      rw [← dist_text_toList]
      exact calls_named_distribution P e c hc hn
    · intro h0
      rw [← dist_text_toList]
      have h0' : e.distribution ≥ 0 := h0
      simp [setup_calls, calls_if, h0']
  · intro P e hpos hne
    exact setup_distribution_cases P e hpos hne
  · intro P e es k r hbuf henv hrun
    exact ⟨getenvp_distribution_after P e hbuf es k r henv hrun,
      fun h0 h1 h2 h3 => distribution_logged P e r h0 h1 h2 h3 hrun⟩
  · intro P e es k e0 hbuf henv he0 hother hcpu hmem
    obtain ⟨r, hrun⟩ := setup_env_run_returns P e es k e0 henv he0 hother hcpu hmem
    exact ⟨r, hrun, getenvp_distribution_after P e hbuf es k r henv hrun,
      fun h0 h1 h2 h3 => distribution_logged P e r h0 h1 h2 h3 hrun⟩

/-! ## C13: the binding tokens -/

/-- C15 (the code departs from the claim). With the address text
`10.0.0.1:6817`, on the vector without entries the run reads slot -1 in
`_extend_env` at the call for `SLURM_CPU_BIND_VERBOSE`, and on the vector
`A=1`, NULL with the rank bit set and no bind string it ends at line 318
with a NULL format: in both runs line 502 is not reached and
`SLURM_LAUNCH_NODE_IPADDR` is not set.  On `A=1`, NULL without binding bits
the variable gets `10.0.0.1`.  In general, for a context with a launch-node
address whose text `addrbuf` is shorter than the buffer of `setenvf`: there
is a string `v` that is the longest initial part of `addrbuf` without a
colon (`addrbuf` is `v` followed by some rest, `v` holds no colon, every
colon-free initial part of `addrbuf` is at most as long as `v`, and `v` is
all of `addrbuf` when that has no colon); the vector a run leaves is the one
its calls leave, fault for fault; the only call for the variable is
`setenvf(&env->env, "SLURM_LAUNCH_NODE_IPADDR", "%s", v)`, and it is among
the calls; lines 491-503 are this call with the status dropped; made on a
vector with at least one entry it returns with `v` as value; a completed
run on a vector leaves the value `v`; and a run on a vector that also holds
an entry for none of the names `setup_env` handles, with bind strings free
of `%`, does complete. -/
theorem C15_launch_node_ipaddr :
    setup_env sample_platform
        (some { blank_env_t with cli := some "10.0.0.1:6817".toList, env := some [none] })
      = .error .outside ∧
    setup_env sample_platform
        (some { blank_env_t with cli := some "10.0.0.1:6817".toList, cpu_bind_type := 2,
                                 env := some [some "A=1".toList, none] })
      = .error .null_format ∧
    (setup_env sample_platform
        (some { blank_env_t with cli := some "10.0.0.1:6817".toList,
                                 env := some [some "A=1".toList, none] })).map
        (fun out => out.2.map (fun r => getenvp r.env "SLURM_LAUNCH_NODE_IPADDR".toList))
      = .ok (some (.ok (some "10.0.0.1".toList))) ∧
    (∀ (P : Platform) (e : env_t) (addrbuf : CStr),
      e.cli = some addrbuf → addrbuf.length < P.BUFSIZ →
      ∃ v : CStr,
        (∃ rest : CStr, addrbuf = v ++ rest) ∧
        ':' ∉ v ∧
        (∀ p q : CStr, addrbuf = p ++ q → ':' ∉ p → p.length ≤ v.length) ∧
        (':' ∉ addrbuf → v = addrbuf) ∧
        (setup_env_run P e).map (fun r => r.env) = run_calls P e.env (setup_calls P e) ∧
        (∀ c ∈ setup_calls P e, c.name = "SLURM_LAUNCH_NODE_IPADDR" →
          c = .set "SLURM_LAUNCH_NODE_IPADDR" (.s v)) ∧
        Call.set "SLURM_LAUNCH_NODE_IPADDR" (.s v) ∈ setup_calls P e ∧
        (∀ r : Run, setup_cli P e r
          = (call_setenvf P r "SLURM_LAUNCH_NODE_IPADDR" (.s v)).map Prod.fst) ∧
        (∀ (r : Run) (es : List CStr) (k : Nat), r.env = some (vector_of es k) → es ≠ [] →
          ∃ r1 : Run, setup_cli P e r = .ok r1 ∧
            getenvp r1.env "SLURM_LAUNCH_NODE_IPADDR".toList = .ok (some v) ∧
            r1.rc = r.rc ∧ r1.log = r.log) ∧
        (∀ (es : List CStr) (k : Nat) (r : Run), e.env = some (vector_of es k) →
          setup_env_run P e = .ok r →
          getenvp r.env "SLURM_LAUNCH_NODE_IPADDR".toList = .ok (some v)) ∧
        (∀ (es : List CStr) (k : Nat) (e0 : CStr), e.env = some (vector_of es k) →
          e0 ∈ es → (∀ n ∈ setup_call_names, ¬ is_entry_for n.toList e0) →
          (e.cpu_bind_type ≠ 0 → ∃ cb, e.cpu_bind = some cb ∧ '%' ∉ cb) →
          (e.mem_bind_type ≠ 0 → ∀ mb, e.mem_bind = some mb → '%' ∉ mb) →
          ∃ r : Run, setup_env_run P e = .ok r ∧
            getenvp r.env "SLURM_LAUNCH_NODE_IPADDR".toList = .ok (some v))) := by
  refine ⟨by decide, by decide, by decide, ?_⟩
  intro P e addrbuf hcli hlen
  have hvl : (addrbuf.takeWhile (· ≠ ':')).length < P.BUFSIZ := by
    have := takeWhile_length_le (· ≠ ':') addrbuf
    omega
  have hafter : ∀ (es : List CStr) (k : Nat) (r : Run), e.env = some (vector_of es k) →
      setup_env_run P e = .ok r →
      getenvp r.env "SLURM_LAUNCH_NODE_IPADDR".toList
        = .ok (some (addrbuf.takeWhile (· ≠ ':'))) := by
    intro es k r henv hrun
    have ht := setup_env_run_tracks P e es k r henv hrun
    rw [getenvp_tracks _ es r _ ht, lookup_cli P e addrbuf es hcli hlen]
  refine ⟨addrbuf.takeWhile (· ≠ ':'), ⟨_, takeWhile_append_dropWhile _ addrbuf⟩,
    colon_not_mem_takeWhile addrbuf, fun p q h hp => colon_free_length_le addrbuf p q h hp,
    takeWhile_colon_free addrbuf, setup_env_run_exact P e, ?_, ?_, ?_, ?_, hafter, ?_⟩
  · intro c hc hn
    obtain ⟨a, ha, hcall⟩ := calls_named_ipaddr P e c hc hn
    rw [hcli] at ha
    injection ha with ha
    rw [ha]
    exact hcall
  · simp [setup_calls, cli_call_list, hcli]
  · intro r
    simp only [setup_cli, hcli]
    cases call_setenvf P r "SLURM_LAUNCH_NODE_IPADDR" (.s (addrbuf.takeWhile (· ≠ ':'))) <;> rfl
  · intro r es k hr hes
    have hs := setenvf_entries P "SLURM_LAUNCH_NODE_IPADDR".toList
      (.s (addrbuf.takeWhile (· ≠ ':'))) _ es k hes (vsnprintf_s P.BUFSIZ _ hvl)
    refine ⟨{ r with env := some (vector_of (set_entry "SLURM_LAUNCH_NODE_IPADDR".toList
      (compose "SLURM_LAUNCH_NODE_IPADDR".toList (addrbuf.takeWhile (· ≠ ':'))) es) k) },
      ?_, ?_, rfl, rfl⟩
    · simp only [setup_cli, hcli, call_setenvf, hr, hs, bind, Except.bind, pure, Except.pure]
      simp
    · show getenvp (some _) _ = _
      rw [getenvp_vector_of, lookup_set_same _ _ (by decide)]
  · intro es k e0 henv he0 hother hcpu hmem
    obtain ⟨r, hrun⟩ := setup_env_run_returns P e es k e0 henv he0 hother hcpu hmem
    exact ⟨r, hrun, hafter es k r henv hrun⟩

end SlurmEnv
